import Mathlib

/-!
# unified-ci checker: lint review and test runner

A shallow embedding of `checker/message.go` (`HandleMessage`), of
`checker/lint.go` (`LintEnabled.Init` and the adapters `CPPLint`, `PHPLint`,
`ESLint`, `TSLint`, `SCSSLint`) and of `checker/gotest.go` (`carry`,
`parseCoverage`, `testAndSaveCoverage`, `ReportTestResults`), together with
the properties of their specification.

Conventions of the embedding.

* Go `string` and `[]byte` values that the code inspects byte by byte (hunk
  bodies, file names, the queue message) are Lean `String`s read through
  `String.data`; every test the code makes is against an ASCII byte.
* Go `int` is a mathematical integer (`Int`, or `Nat` for the problem counter
  which only counts up from zero) wherever the code only carries or compares
  it, or adds to it a number bounded by a length.  The fields of
  `TSLintPosition`, to which `TSLint` adds 1, are values of `GoInt` (64 bits)
  and the sum wraps.  The fields of `diff.Hunk` are `int32` in go-diff; they
  are values of `GoInt32` and their sum wraps.
* A Go `error` is the text of the error (`Error := String`); `Option Error`
  is a possibly nil error.
* A Go slice that the code tests against `nil` is an `Option (List _)`.
* Calls that leave the process (GitHub, git, the linters, the file system,
  the shell) are fields of an environment record; the observable calls are
  recorded, in order, as a list of `Event`s.  Writes to the log file are not
  recorded.
-/

set_option autoImplicit false

namespace Checker

/-! ## Go primitives -/

/-- The text of a Go `error`. -/
abbrev Error := String

/-- Two's complement wrap-around of a mathematical integer to 32 bits. -/
def wrapInt32 (x : Int) : Int := (x + 2147483648) % 4294967296 - 2147483648

/-- A Go `int32`. -/
structure GoInt32 where
  val : Int
  lo : -2147483648 ≤ val
  hi : val ≤ 2147483647

/-- Go `a + b` on `int32`: the sum wraps around. -/
def GoInt32.add (a b : GoInt32) : GoInt32 :=
  ⟨wrapInt32 (a.val + b.val), by unfold wrapInt32; omega, by unfold wrapInt32; omega⟩

/-- Go `int(a)`: the conversion of an `int32` to `int`. -/
def GoInt32.toInt (a : GoInt32) : Int := a.val

/-- Two's complement wrap-around of a mathematical integer to 64 bits. -/
def wrapInt64 (x : Int) : Int :=
  (x + 9223372036854775808) % 18446744073709551616 - 9223372036854775808

/-- A Go `int` on a 64-bit platform. -/
structure GoInt where
  val : Int
  lo : -9223372036854775808 ≤ val
  hi : val ≤ 9223372036854775807
  deriving DecidableEq, Repr

/-- Go `a + k` on `int` for a constant `k`: the sum wraps around. -/
def GoInt.plus (a : GoInt) (k : Int) : Int := wrapInt64 (a.val + k)

/-- Go `strings.Split(s, sep)` for a one-byte separator, on the bytes of `s`. -/
def splitBytes (sep : Char) : List Char → List (List Char)
  | [] => [[]]
  | c :: cs =>
    if c = sep then [] :: splitBytes sep cs
    else
      match splitBytes sep cs with
      | [] => [[c]]
      | l :: ls => (c :: l) :: ls

/-- Go `strings.Split(s, sep)` for a one-byte separator. -/
def stringsSplit (s : String) (sep : Char) : List String :=
  (splitBytes sep s.data).map String.mk

/-- Go `strings.HasPrefix`. -/
def hasPrefix (s pre : String) : Bool := decide (pre.data <+: s.data)

/-- Go `strings.HasSuffix`. -/
def hasSuffix (s suf : String) : Bool := decide (suf.data <:+ s.data)

/-- Go `s[n:]` (used only behind a prefix test, so `n` is in range). -/
def sliceFrom (s : String) (n : Nat) : String := String.mk (s.data.drop n)

/-! ## Data model (`lint.go`, go-diff, `github.go`) -/

/-- The `LintMessage` struct of `lint.go`. -/
structure LintMessage where
  RuleID : String
  Severity : Int
  Line : Int
  Column : Int
  Message : String
  SourceCode : String
  deriving DecidableEq, Repr

/-- The fields of go-diff `diff.Hunk` that `HandleMessage` reads. -/
structure Hunk where
  NewStartLine : GoInt32
  NewLines : GoInt32
  StartPosition : GoInt32
  Body : String

/-- The fields of go-diff `diff.FileDiff` that `HandleMessage` reads. -/
structure FileDiff where
  NewName : String
  Hunks : List Hunk

/-- The `GithubRefComment` struct as `HandleMessage` fills it. -/
structure GithubRefComment where
  Path : String
  Position : Int
  Body : String
  deriving DecidableEq, Repr

/-- The `LintEnabled` struct of `lint.go`. -/
structure LintEnabled where
  CPP : Bool
  Go : Bool
  PHP : Bool
  TypeScript : Bool
  SCSS : Bool
  JS : String
  ES : String
  MD : Bool
  APIDoc : Bool
  deriving DecidableEq, Repr

/-! ## The hunk walk of `HandleMessage` (message.go lines 185-232) -/

/-- One body line of a hunk, as bytes. -/
abbrev Line := List Char

/-- The test `len(lines[i]) > 0 && lines[i][0] == c`. -/
def startsWith (l : Line) (c : Char) : Bool :=
  match l with
  | [] => false
  | b :: _ => b == c

/-- The loop `for ; i < len(lines); i++` of lines 194-213, started at index `i`
with the remaining lines `rest`; the result is the value of `i` after the
loop (the index of the `break`, or `len(lines)`). -/
def walk (newStartLine lintLine : Int) : List Line → Nat → Int → Bool → Nat
  | [], i, _, _ => i
  | l :: rest, i, lineNum, lastLineFromOrig =>
    let lineExists := decide (l.length > 0)
    if (!lineExists || !startsWith l '-')
        && (lineExists && startsWith l '\\' && lastLineFromOrig) then
      -- the no-newline marker of the original file: continue
      walk newStartLine lintLine rest (i + 1) lineNum lastLineFromOrig
    else
      let lineNum :=
        if !lineExists || !startsWith l '-' then
          (if lineNum ≤ 0 then newStartLine else lineNum + 1)
        else lineNum
      if lineNum ≥ lintLine then i
      else
        walk newStartLine lintLine rest (i + 1) lineNum
          (if lineExists then startsWith l '-' else lastLineFromOrig)

/-- The body of the loop over `lints` (lines 189-230) for one finding: `none`
when the range test of lines 189-190 fails and the body is not walked,
`some i` with the index where the walk stopped otherwise. -/
def attempt (hunk : Hunk) (lines : List Line) (lint : LintMessage) : Option Nat :=
  if lint.Line ≥ hunk.NewStartLine.toInt
      ∧ lint.Line < (hunk.NewStartLine.add hunk.NewLines).toInt then
    some (walk hunk.NewStartLine.toInt lint.Line lines 0 0 true)
  else none

/-- The comment text `fmt.Sprintf` builds at lines 219-220. -/
def commentBody (lint : LintMessage) : String :=
  "`" ++ lint.RuleID ++ "` " ++ toString lint.Line ++ ":" ++ toString lint.Column
    ++ " " ++ lint.Message

/-- The two accumulators of the loop over the changed files (lines 134-135). -/
structure Acc where
  comments : List GithubRefComment
  problems : Nat
  deriving DecidableEq, Repr

/-- The accumulators before the first file (lines 134-135). -/
def emptyAcc : Acc := { comments := [], problems := 0 }

/-- The body of the loop over `lints` for one finding (lines 189-230): when
the walk stopped inside the body on a line starting with `+`, one comment is
appended and the problem counter is incremented. -/
def findingStep (fileName : String) (hunk : Hunk) (lines : List Line) (acc : Acc)
    (lint : LintMessage) : Acc :=
  match attempt hunk lines lint with
  | none => acc
  | some i =>
    match lines.get? i with
    | some l =>
      if startsWith l '+' then
        { comments := acc.comments ++
            [{ Path := fileName, Position := hunk.StartPosition.toInt + i,
               Body := commentBody lint }],
          problems := acc.problems + 1 }
      else acc
    | none => acc

/-- The lines of a hunk body: `strings.Split(string(hunk.Body), "\n")`. -/
def bodyLines (hunk : Hunk) : List Line := splitBytes '\n' hunk.Body.data

/-- The body of the loop over `d.Hunks` for one hunk (lines 186-232). -/
def hunkStep (fileName : String) (lints : List LintMessage) (acc : Acc) (hunk : Hunk) : Acc :=
  if hunk.NewLines.toInt > 0 then
    lints.foldl (findingStep fileName hunk (bodyLines hunk)) acc
  else acc

/-- The block `if lints != nil` of lines 184-235; `none` is the nil slice. -/
def fileStep (fileName : String) (hunks : List Hunk) (lints : Option (List LintMessage))
    (acc : Acc) : Acc :=
  match lints with
  | none => acc
  | some ls => hunks.foldl (hunkStep fileName ls) acc

/-! ## The environment of `HandleMessage` -/

/-- The `GithubRef` struct as `HandleMessage` fills it. -/
structure GithubRef where
  RepoName : String
  Sha : String
  deriving DecidableEq, Repr

/-- The fields of the pull request that `HandleMessage` reads. -/
structure GithubPull where
  State : String
  UserLogin : String
  HeadRepoSSHURL : String
  HeadRef : String

/-- The linter adapters that `HandleMessage` calls. -/
inductive Linter where
  | GoLint
  | PHPLint
  | TSLint
  | SCSSLint
  | ESLint (eslintrc : String)
  deriving DecidableEq, Repr

/-- The calls that `HandleMessage` makes to the reporting backend and to the
linters, as they are recorded. -/
inductive Event where
  /-- The call `ref.UpdateState(context, state, targetURL, description)`. -/
  | updateState (ref : GithubRef) (context state targetURL description : String)
  /-- The call `ref.CreateReview(pull, event, body, comments)`. -/
  | createReview (ref : GithubRef) (pull event body : String)
      (comments : List GithubRefComment)
  /-- The call of a linter adapter on `filePath` in `repoPath`. -/
  | lint (linter : Linter) (filePath repoPath : String)
  deriving DecidableEq, Repr

/-- What a linter adapter returns: an error, or a possibly nil slice. -/
abbrev LintOutcome := Except Error (Option (List LintMessage))

/-- Everything outside the process that `HandleMessage` depends on. -/
structure Env where
  /-- The value of `Conf.Core.CheckLogURI`. -/
  CheckLogURI : String
  /-- The value of `Conf.Core.LogsDir`. -/
  LogsDir : String
  /-- The value of `Conf.Core.WorkDir`. -/
  WorkDir : String
  /-- The function `filepath.Join` on two elements. -/
  pathJoin : String → String → String
  /-- The error of `os.Create` on the log file. -/
  createLog : String → Option Error
  GetGithubPull : String → String → Except Error GithubPull
  UpdateState : GithubRef → String → String → String → String → Option Error
  CreateReview : GithubRef → String → String → String → List GithubRefComment → Option Error
  /-- The error of `git init` run in the given directory. -/
  gitInit : String → Option Error
  /-- The error of `git fetch -f <login> <ref>:<branch>`. -/
  gitFetch : String → String → String → Option Error
  /-- The error of `git checkout -f <commits>`. -/
  gitCheckout : String → String → Option Error
  GetGithubPullDiff : String → String → Except Error String
  ParseMultiFileDiff : String → Except Error (List FileDiff)
  /-- Whether `os.Stat` on the path returns a nil error. -/
  statOk : String → Bool
  GoLint : String → String → LintOutcome
  PHPLint : String → String → LintOutcome
  TSLint : String → String → LintOutcome
  SCSSLint : String → String → LintOutcome
  ESLint : String → String → String → LintOutcome

/-- What a run leaves behind: the recorded calls and the returned error. -/
structure Result where
  events : List Event
  err : Option Error
  deriving DecidableEq, Repr

/-! ## `LintEnabled.Init` (lint.go lines 108-152) -/

/-- The zero value `LintEnabled{}` on which `HandleMessage` calls `Init`. -/
def zeroLintEnabled : LintEnabled :=
  { CPP := false, Go := false, PHP := false, TypeScript := false, SCSS := false,
    JS := "", ES := "", MD := false, APIDoc := false }

/-- The method `LintEnabled.Init`: the receiver is reset, then each marker
file is looked up. -/
def LintEnabled.Init (env : Env) (receiver : LintEnabled) (cwd : String) : LintEnabled :=
  -- reset to defaults
  let le : LintEnabled :=
    { receiver with
      CPP := false, Go := false, PHP := true, TypeScript := false, SCSS := false,
      JS := "", ES := "", MD := false, APIDoc := false }
  let le := if env.statOk (env.pathJoin cwd ".golangci.yml") then { le with Go := true } else le
  let le := if env.statOk (env.pathJoin cwd "CPPLINT.cfg") then { le with CPP := true } else le
  let le :=
    if env.statOk (env.pathJoin cwd ".remarkrc") then { le with MD := true }
    else if env.statOk (env.pathJoin cwd ".remarkrc.js") then { le with MD := true }
    else le
  let le :=
    if env.statOk (env.pathJoin cwd "tslint.json") then { le with TypeScript := true } else le
  let le := if env.statOk (env.pathJoin cwd ".scss-lint.yml") then { le with SCSS := true } else le
  let le :=
    if env.statOk (env.pathJoin cwd ".eslintrc") then
      { le with ES := env.pathJoin cwd ".eslintrc" }
    else le
  let le :=
    if env.statOk (env.pathJoin cwd ".eslintrc.js") then
      let le := { le with JS := env.pathJoin cwd ".eslintrc.js" }
      if le.ES = "" then { le with ES := le.JS } else le
    else { le with JS := le.ES }
  if env.statOk (env.pathJoin cwd "apidoc.json") then { le with APIDoc := true } else le

/-! ## Linter routing (message.go lines 140-182) -/

/-- The `if / else if` chain of lines 141-162: the linter calls made and the
value of `lints, err` after it (`lints` starts as the nil slice). -/
def primaryLint (env : Env) (le : LintEnabled) (repoPath fileName : String) :
    List Event × LintOutcome :=
  let filePath := env.pathJoin repoPath fileName
  if le.Go && hasSuffix fileName ".go" then
    ([Event.lint Linter.GoLint filePath repoPath], env.GoLint filePath repoPath)
  else if le.PHP && hasSuffix fileName ".php" then
    ([Event.lint Linter.PHPLint filePath repoPath], env.PHPLint filePath repoPath)
  else if le.TypeScript && (hasSuffix fileName ".ts" || hasSuffix fileName ".tsx") then
    ([Event.lint Linter.TSLint filePath repoPath], env.TSLint filePath repoPath)
  else if le.SCSS && (hasSuffix fileName ".scss" || hasSuffix fileName ".css") then
    ([Event.lint Linter.SCSSLint filePath repoPath], env.SCSSLint filePath repoPath)
  else if le.JS != "" && hasSuffix fileName ".js" then
    ([Event.lint (Linter.ESLint le.JS) filePath repoPath], env.ESLint filePath repoPath le.JS)
  else if le.ES != "" && (hasSuffix fileName ".es" || hasSuffix fileName ".esx"
      || hasSuffix fileName ".jsx") then
    ([Event.lint (Linter.ESLint le.ES) filePath repoPath], env.ESLint filePath repoPath le.ES)
  else ([], Except.ok none)

/-- The merge of lines 175-181 of the findings of the second pass. -/
def mergeLints (lints lints2 : Option (List LintMessage)) : Option (List LintMessage) :=
  match lints2 with
  | some l2 =>
    (match lints with
     | some l => some (l ++ l2)
     | none => some l2)
  | none => lints

/-- Lines 140-182 for one changed file: the linter calls made, and either the
error that `HandleMessage` returns or the findings of the file. -/
def lintFile (env : Env) (le : LintEnabled) (repoPath fileName : String) :
    List Event × LintOutcome :=
  match primaryLint env le repoPath fileName with
  | (evs, Except.error e) => (evs, Except.error e)
  | (evs, Except.ok lints) =>
    if le.JS != "" && (hasSuffix fileName ".html" || hasSuffix fileName ".php") then
      let filePath := env.pathJoin repoPath fileName
      let evs2 := evs ++ [Event.lint (Linter.ESLint le.JS) filePath repoPath]
      match env.ESLint filePath repoPath le.JS with
      | Except.error e => (evs2, Except.error e)
      | Except.ok lints2 => (evs2, Except.ok (mergeLints lints lints2))
    else (evs, Except.ok lints)

/-- The loop over `diffs` of lines 136-238, with the accumulators `comments`
and `problems`: the linter calls made, and either the error on which
`HandleMessage` returns or the final accumulators. -/
def lintLoop (env : Env) (le : LintEnabled) (repoPath : String) :
    List FileDiff → Acc → List Event × Except Error Acc
  | [], acc => ([], Except.ok acc)
  | d :: ds, acc =>
    if hasPrefix d.NewName "b/" then
      let fileName := sliceFrom d.NewName 2
      match lintFile env le repoPath fileName with
      | (evs, Except.error e) => (evs, Except.error e)
      | (evs, Except.ok lints) =>
        let next := lintLoop env le repoPath ds (fileStep fileName d.Hunks lints acc)
        (evs ++ next.1, next.2)
    else lintLoop env le repoPath ds acc

/-! ## The verdict (message.go lines 240-268) -/

/-- Lines 248-268: the review and the final state of the `lint` check; the
error returned is the one of the last `UpdateState`. -/
def report (env : Env) (ref : GithubRef) (pull targetURL : String) (acc : Acc) : Result :=
  if acc.problems > 0 then
    let comment := "**lint**: " ++ toString acc.problems ++ " problem(s) found."
    let description :=
      "The lint check failed! " ++ toString acc.problems ++ " problem(s) found."
    { events :=
        [Event.createReview ref pull "REQUEST_CHANGES" comment acc.comments,
         Event.updateState ref "lint" "error" targetURL description],
      err := env.UpdateState ref "lint" "error" targetURL description }
  else
    { events := [Event.updateState ref "lint" "success" targetURL "The lint check succeed!"],
      err := env.UpdateState ref "lint" "success" targetURL "The lint check succeed!" }

/-! ## `HandleMessage` (message.go) -/

/-- What lines 15-129 hand over to the lint loop. -/
structure Stage where
  ref : GithubRef
  pull : String
  targetURL : String
  repoPath : String
  diffs : List FileDiff

/-- The outcome of lines 15-129: an early return, or the stage reached together
with the calls recorded so far. -/
inductive Fetched where
  | done (r : Result)
  | ready (events : List Event) (stage : Stage)

/-- Lines 15-129 of `HandleMessage`: the message is taken apart, the pull request
is fetched, the `lint` check is set to pending, the head is checked out and the
diff is fetched and parsed. -/
def fetchStage (env : Env) (message : String) : Fetched :=
  let s := stringsSplit message '/'
  if s.length != 6 || s.getD 2 "" != "pull" || s.getD 4 "" != "commits" then
    Fetched.done { events := [], err := none }
  else
    let repository := s.getD 0 "" ++ "/" ++ s.getD 1 ""
    let pull := s.getD 3 ""
    let commits := s.getD 5 ""
    let ref : GithubRef := { RepoName := repository, Sha := commits }
    let targetURL :=
      if env.CheckLogURI.length > 0 then env.CheckLogURI ++ repository ++ "/" ++ commits ++ ".log"
      else ""
    let repoLogsPath := env.pathJoin env.LogsDir repository
    match env.createLog (env.pathJoin repoLogsPath (commits ++ ".log")) with
    | some e => Fetched.done { events := [], err := some e }
    | none =>
    match env.GetGithubPull repository pull with
    | Except.error e => Fetched.done { events := [], err := some e }
    | Except.ok gpull =>
    if gpull.State != "open" then Fetched.done { events := [], err := none }
    else
      -- the error of this update is logged only
      let evs := [Event.updateState ref "lint" "pending" targetURL "checking"]
      let repoPath := env.pathJoin env.WorkDir repository
      match env.gitInit repoPath with
      | some e => Fetched.done { events := evs, err := some e }
      | none =>
      -- the error of `git remote add` is dropped
      let branch := "pull-" ++ pull
      match env.gitFetch repoPath gpull.UserLogin (gpull.HeadRef ++ ":" ++ branch) with
      | some e => Fetched.done { events := evs, err := some e }
      | none =>
      match env.gitCheckout repoPath commits with
      | some e => Fetched.done { events := evs, err := some e }
      | none =>
      match env.GetGithubPullDiff repository pull with
      | Except.error e => Fetched.done { events := evs, err := some e }
      | Except.ok out =>
      match env.ParseMultiFileDiff out with
      | Except.error e => Fetched.done { events := evs, err := some e }
      | Except.ok diffs =>
        Fetched.ready evs
          { ref := ref, pull := pull, targetURL := targetURL, repoPath := repoPath,
            diffs := diffs }

/-- Lines 131-268 of `HandleMessage`: the linters are enabled from the marker
files, every changed file is linted and its findings mapped, and the verdict
is reported. -/
def lintStage (env : Env) (st : Stage) : Result :=
  let lintEnabled := LintEnabled.Init env zeroLintEnabled st.repoPath
  match lintLoop env lintEnabled st.repoPath st.diffs emptyAcc with
  | (evs, Except.error e) => { events := evs, err := some e }
  | (evs, Except.ok acc) =>
    let r := report env st.ref st.pull st.targetURL acc
    { events := evs ++ r.events, err := r.err }

/-- The function `HandleMessage`. -/
def HandleMessage (env : Env) (message : String) : Result :=
  match fetchStage env message with
  | Fetched.done r => r
  | Fetched.ready evs st =>
    let r := lintStage env st
    { events := evs ++ r.events, err := r.err }

/-! ## The test runner (gotest.go) -/

/-- A Go `float64` that is carried but never computed on. -/
abbrev Float64 := Rat

/-- The `GithubRef` of gotest.go: the fields read and the value of `isTree()`. -/
structure TestRef where
  owner : String
  repo : String
  Sha : String
  isTree : Bool
  deriving DecidableEq, Repr

/-- The `store.CommitsInfo` record; `Coverage` is a possibly nil pointer. -/
structure CommitsInfo where
  Owner : String
  Repo : String
  Sha : String
  Author : String
  Test : String
  Coverage : Option Float64
  Passing : Int
  Status : Int
  deriving DecidableEq, Repr

/-- Everything outside the process that the test runner depends on; `σ` is the
state of the machine the commands run on (files, clock, the deadline of the
context). -/
structure TestEnv (σ : Type) where
  /-- The method `Parse` of the shell-words parser of the repository. -/
  parse : String → Except Error (List String)
  /-- The call `exec.CommandContext(ctx, words...).CombinedOutput()` run in a
  directory: the output, the error and the machine afterwards. -/
  combinedOutput : σ → List String → String → (String × Option Error) × σ
  /-- The error of `regexp.Compile`. -/
  regexpCompile : String → Option Error
  /-- The method `FindStringSubmatch` of the compiled pattern. -/
  findStringSubmatch : String → String → List String
  /-- The function `util.ParseFloatPercent(s, 64)`. -/
  ParseFloatPercent : String → Except Error Float64
  /-- The error of `c.Save()`. -/
  Save : CommitsInfo → Option Error
  /-- The text `%v` prints for a record. -/
  formatCommitsInfo : CommitsInfo → String

/-- One call of `carry`: the command line, the output and the error. -/
structure Executed where
  cmd : String
  out : String
  err : Option Error
  deriving DecidableEq, Repr

/-- The function `carry` (gotest.go lines 29-42). -/
def carry {σ : Type} (env : TestEnv σ) (m : σ) (repo cmd : String) :
    (String × Option Error) × σ :=
  match env.parse cmd with
  | Except.error e => (("", some e), m)
  | Except.ok words =>
    if words.length < 1 then (("", some "invalid command"), m)
    else env.combinedOutput m words repo

/-- The function `parseCoverage` (gotest.go lines 108-123). -/
def parseCoverage {σ : Type} (env : TestEnv σ) (pattern output : String) :
    String × Float64 × Option Error :=
  match env.regexpCompile pattern with
  | some e => ("error", 0, some e)
  | none =>
    let matched := env.findStringSubmatch pattern output
    let coverage := if matched.length > 1 then matched.getD 1 "" else "unknown"
    match env.ParseFloatPercent coverage with
    | Except.error e => (coverage, 0, some e)
    | Except.ok pct => (coverage, pct, none)

/-- The variables of the command loop of `testAndSaveCoverage`, with the calls
of `carry` made so far and the machine. -/
structure LoopState (σ : Type) where
  conclusion : String
  outputSummary : String
  executed : List Executed
  machine : σ

/-- The text appended to the transcript for one command (lines 134-137). -/
def commandMsg (x : Executed) : String :=
  let msg := x.cmd ++ "\n" ++ x.out ++ "\n"
  match x.err with
  | some e => msg ++ e ++ "\n"
  | none => msg

/-- The loop `for _, cmd := range cmds` of lines 131-148. -/
def cmdLoop {σ : Type} (env : TestEnv σ) (repoPath : String) (breakOnFails : Bool) :
    List String → LoopState σ → LoopState σ
  | [], st => st
  | cmd :: rest, st =>
    if cmd != "" then
      let r := carry env st.machine repoPath cmd
      let x : Executed := { cmd := cmd, out := r.1.1, err := r.1.2 }
      let st : LoopState σ :=
        { st with
          outputSummary := st.outputSummary ++ commandMsg x,
          executed := st.executed ++ [x],
          machine := r.2 }
      match x.err with
      | some _ =>
        let st := { st with conclusion := "failure" }
        if breakOnFails then st else cmdLoop env repoPath breakOnFails rest st
      | none => cmdLoop env repoPath breakOnFails rest st
    else cmdLoop env repoPath breakOnFails rest st

/-- What `testAndSaveCoverage` returns and leaves behind; `errorLog` holds the
messages given to `LogError` (lines 154, 181 and 206). -/
structure TestOutcome (σ : Type) where
  conclusion : String
  reportMessage : String
  outputSummary : String
  executed : List Executed
  saved : List CommitsInfo
  errorLog : List String
  machine : σ

/-- The function `testAndSaveCoverage` (gotest.go lines 125-212); `author` is
`gpull.GetHead().GetUser().GetLogin()`. -/
def testAndSaveCoverage {σ : Type} (env : TestEnv σ) (m : σ) (ref : TestRef)
    (testName : String) (cmds : List String) (coveragePattern repoPath author : String)
    (breakOnFails : Bool) : TestOutcome σ :=
  let st := cmdLoop env repoPath breakOnFails cmds
    { conclusion := "success", outputSummary := "", executed := [], machine := m }
  let conclusion := st.conclusion
  if coveragePattern != "" && (conclusion == "success" || !breakOnFails) then
    let (percentage, pct, err) := parseCoverage env coveragePattern st.outputSummary
    let parseLog : List String :=
      match err with
      | some e => ["Failed to parse " ++ testName ++ " test coverage: " ++ e ++ "\n"]
      | none => []
    let (outputSummary, saved, saveLog) :=
      if err == none || ref.isTree then
        let c : CommitsInfo :=
          { Owner := ref.owner, Repo := ref.repo, Sha := ref.Sha, Author := author,
            Test := testName, Coverage := some pct, Passing := 0, Status := 0 }
        let c := if conclusion == "success" then { c with Passing := 1 } else c
        let c :=
          if ref.isTree then
            let c := { c with Status := 1 }
            if err != none then { c with Coverage := none } else c
          else c
        match env.Save c with
        | some e =>
          let msg := "Error: " ++ e ++ ". Failed to save " ++ env.formatCommitsInfo c ++ "\n"
          (st.outputSummary ++ msg, [c], [msg])
        | none => (st.outputSummary, [c], [])
      else (st.outputSummary, [], [])
    { conclusion := conclusion, reportMessage := percentage,
      outputSummary := outputSummary ++ ("Test coverage: " ++ percentage ++ "\n"),
      executed := st.executed, saved := saved, errorLog := parseLog ++ saveLog,
      machine := st.machine }
  else if coveragePattern == "" && ref.isTree then
    let c : CommitsInfo :=
      { Owner := ref.owner, Repo := ref.repo, Sha := ref.Sha, Author := author,
        Test := testName, Coverage := none, Passing := 0, Status := 1 }
    let c := if conclusion == "success" then { c with Passing := 1 } else c
    let saveLog : List String :=
      match env.Save c with
      | some e => ["Error: " ++ e ++ ". Failed to save " ++ env.formatCommitsInfo c ++ "\n"]
      | none => []
    { conclusion := conclusion, reportMessage := "", outputSummary := st.outputSummary,
      executed := st.executed, saved := [c], errorLog := saveLog, machine := st.machine }
  else
    { conclusion := conclusion, reportMessage := "", outputSummary := st.outputSummary,
      executed := st.executed, saved := [], errorLog := [], machine := st.machine }

/-! ## `ReportTestResults` (gotest.go lines 44-106) -/

/-- The calls of `ReportTestResults` to the reporting backend, as they are
recorded. -/
inductive TestEvent where
  /-- The call `ref.UpdateState(client, context, state, targetURL, description)`. -/
  | updateState (ref : TestRef) (context state targetURL description : String)
  /-- The call `CreateCheckRun(ctx, client, gpull, checkName, ref, targetURL)`,
  which creates the run with the status `in_progress`. -/
  | createCheckRun (checkName : String) (ref : TestRef) (targetURL : String)
  /-- The call `UpdateCheckRun(ctx, client, gpull, checkRunID, checkName,
  conclusion, t, outputTitle, outputSummary, nil)`, which sets the status
  `completed`. -/
  | updateCheckRun (checkRunID : Int) (checkName conclusion outputTitle outputSummary : String)
  deriving DecidableEq, Repr

/-- The reporting backend of `ReportTestResults`. -/
structure Backend where
  UpdateState : TestRef → String → String → String → String → Option Error
  /-- The error of `CreateCheckRun`, or the identifier `checkRun.GetID()`. -/
  CreateCheckRun : String → TestRef → String → Except Error Int
  UpdateCheckRun : Int → String → String → String → String → Option Error

/-- What `ReportTestResults` returns and leaves behind; `errorLog` holds the
messages given to `LogError`, those of `testAndSaveCoverage` included. -/
structure ReportOutcome (σ : Type) where
  message : String
  err : Option Error
  events : List TestEvent
  errorLog : List String
  executed : List Executed
  saved : List CommitsInfo
  machine : σ

/-- Lines 73-105 of `ReportTestResults`: the test is run and the completion is
reported; `startEvents` and `startLog` are the calls and the messages
recorded before. -/
def runAndComplete {σ : Type} (env : TestEnv σ) (backend : Backend) (m : σ)
    (testName repoPath : String) (cmds : List String) (coveragePattern author : String)
    (ref : TestRef) (targetURL : String) (startEvents : List TestEvent)
    (startLog : List String) (checkRunID : Int) : ReportOutcome σ :=
  let outputTitle := testName ++ " test"
  let o := testAndSaveCoverage env m ref testName cmds coveragePattern repoPath author false
  let title := if coveragePattern == "" then o.conclusion else "coverage: " ++ o.reportMessage
  let completion : TestEvent × List String :=
    if ref.isTree then
      let state := if o.conclusion == "failure" then "error" else "success"
      (TestEvent.updateState ref outputTitle state targetURL title,
       match backend.UpdateState ref outputTitle state targetURL title with
       | some e => ["Update commit state " ++ outputTitle ++ " failed: " ++ e]
       | none => [])
    else
      (TestEvent.updateCheckRun checkRunID outputTitle o.conclusion title
         ("```\n" ++ o.outputSummary ++ "\n```"),
       match backend.UpdateCheckRun checkRunID outputTitle o.conclusion title
           ("```\n" ++ o.outputSummary ++ "\n```") with
       | some e => ["report test results to github failed: " ++ e]
       | none => [])
  { message := o.reportMessage,
    -- the error `&testNotPass{Title: outputTitle}`, whose text is the title
    err := if o.conclusion == "failure" then some outputTitle else none,
    events := startEvents ++ [completion.1],
    errorLog := startLog ++ o.errorLog ++ completion.2,
    executed := o.executed, saved := o.saved, machine := o.machine }

/-- The function `ReportTestResults`; `author` is
`gpull.GetHead().GetUser().GetLogin()`. -/
def ReportTestResults {σ : Type} (env : TestEnv σ) (backend : Backend) (m : σ)
    (testName repoPath : String) (cmds : List String) (coveragePattern author : String)
    (ref : TestRef) (targetURL : String) : ReportOutcome σ :=
  let outputTitle := testName ++ " test"
  if ref.isTree then
    -- `checkRunID` keeps its zero value
    runAndComplete env backend m testName repoPath cmds coveragePattern author ref targetURL
      [TestEvent.updateState ref outputTitle "pending" targetURL "running"]
      (match backend.UpdateState ref outputTitle "pending" targetURL "running" with
       | some e => ["Update commit state " ++ outputTitle ++ " failed: " ++ e]
       | none => [])
      0
  else
    match backend.CreateCheckRun outputTitle ref targetURL with
    | Except.error e =>
      { message := "", err := some e,
        events := [TestEvent.createCheckRun outputTitle ref targetURL],
        errorLog := ["Creating " ++ outputTitle ++ " check run failed: " ++ e],
        executed := [], saved := [], machine := m }
    | Except.ok checkRunID =>
      runAndComplete env backend m testName repoPath cmds coveragePattern author ref targetURL
        [TestEvent.createCheckRun outputTitle ref targetURL] [] checkRunID

/-! ## The linter adapters (lint.go lines 96-105 and 154-391) -/

/-- A Go `error` returned while a linter is run: whether it is an
`*exec.ExitError` (the process ran and ended with a failure status), and its
text `err.Error()`. -/
structure GoError where
  isExitError : Bool
  text : String
  deriving DecidableEq, Repr

/-- What running a command leaves: the standard output, the standard error
and the error of `cmd.Run()` or `cmd.Output()`. -/
structure ProcessResult where
  stdout : String
  stderr : String
  err : Option GoError
  deriving DecidableEq, Repr

/-- The `LintResult` struct; `Messages` is a possibly nil slice. -/
structure LintResult where
  FilePath : String
  Messages : Option (List LintMessage)
  deriving DecidableEq, Repr

/-- The `TSLintPosition` struct. -/
structure TSLintPosition where
  Character : GoInt
  Line : GoInt
  Position : GoInt
  deriving DecidableEq, Repr

/-- The `TSLintResult` struct. -/
structure TSLintResult where
  Name : String
  RuleName : String
  RuleSeverity : String
  Failure : String
  StartPosition : TSLintPosition
  EndPosition : TSLintPosition
  deriving DecidableEq, Repr

/-- The `SCSSLintResult` struct. -/
structure SCSSLintResult where
  Line : Int
  Column : Int
  Length : Int
  Severity : String
  Reason : String
  Linter : String
  deriving DecidableEq, Repr

/-- The constant `severityLevelOff`. -/
def severityLevelOff : Int := 0

/-- The constant `severityLevelWarning`. -/
def severityLevelWarning : Int := 1

/-- The constant `severityLevelError`. -/
def severityLevelError : Int := 2

/-- The map `LintSeverity` as `init` fills it; `none` is a missing key. -/
def LintSeverity (name : String) : Option Int :=
  if name == "off" then some severityLevelOff
  else if name == "warning" then some severityLevelWarning
  else if name == "error" then some severityLevelError
  else none

/-- Everything outside the process that the adapters depend on. -/
structure AdapterEnv where
  /-- The value of `Conf.Core.CPPLint`. -/
  confCPPLint : String
  /-- The value of `Conf.Core.PHPLint`. -/
  confPHPLint : String
  /-- The value of `Conf.Core.ESLint`. -/
  confESLint : String
  /-- The value of `Conf.Core.TSLint`. -/
  confTSLint : String
  /-- The value of `Conf.Core.SCSSLint`. -/
  confSCSSLint : String
  /-- The call `NewShellParser(cwd).Parse(template)`. -/
  parse : String → String → Except GoError (List String)
  /-- The command `exec.Command(words[0], words[1:]...)` run in a directory. -/
  run : List String → String → ProcessResult
  /-- The call `json.Unmarshal` into a `[]LintResult`. -/
  unmarshalLintResults : String → Except GoError (Option (List LintResult))
  /-- The call `json.Unmarshal` into a `[]TSLintResult`. -/
  unmarshalTSLint : String → Except GoError (Option (List TSLintResult))
  /-- The call `json.Unmarshal` into a `map[string][]SCSSLintResult`, with its
  entries in the order in which `range` visits them. -/
  unmarshalSCSSLint : String → Except GoError (List (String × List SCSSLintResult))
  /-- The method `FindStringSubmatch` of the pattern of `CPPLint`. -/
  findCPPLint : String → List String
  /-- The value of `strconv.Atoi`, its error dropped. -/
  atoi : String → Int
  /-- The function `strings.ToLower`. -/
  toLower : String → String

/-- The zero value of `LintMessage`. -/
def zeroLintMessage : LintMessage :=
  { RuleID := "", Severity := 0, Line := 0, Column := 0, Message := "", SourceCode := "" }

/-- The loop over the output lines of `CPPLint` (lines 181-210). -/
def cppLintLoop (env : AdapterEnv) : List String → Option (List LintMessage) →
    Option (List LintMessage)
  | [], lints => lints
  | line :: rest, lints =>
    let matched := env.findCPPLint line
    let lineNum := if matched.length > 1 then env.atoi (matched.getD 1 "") else 0
    let msg := if matched.length > 2 then matched.getD 2 "" else ""
    let rule := if matched.length > 3 then matched.getD 3 "" else ""
    if matched.length > 3 then
      cppLintLoop env rest
        (some (lints.getD [] ++
          [{ RuleID := rule, Severity := severityLevelError, Line := lineNum, Column := 0,
             Message := msg, SourceCode := "" }]))
    else cppLintLoop env rest lints

/-- The function `CPPLint` (lines 155-212). -/
def CPPLint (env : AdapterEnv) (filePath repoPath : String) :
    Option (List LintMessage) × Option GoError :=
  match env.parse repoPath env.confCPPLint with
  | Except.error e => (none, some e)
  | Except.ok words =>
    let r := env.run (words ++ ["--quiet", filePath]) repoPath
    match r.err with
    | some e =>
      if e.text != "exit status 1" then (none, some e)
      else (cppLintLoop env (stringsSplit r.stderr '\n') none, none)
    | none => (cppLintLoop env (stringsSplit r.stderr '\n') none, none)

/-- Lines 235-244 of `PHPLint` and 274-283 of `ESLint`: the output is parsed
and the messages of the first result are returned. -/
def firstMessages (env : AdapterEnv) (r : ProcessResult) :
    Option (List LintMessage) × String × Option GoError :=
  match env.unmarshalLintResults r.stdout with
  | Except.error e => (none, r.stderr, some e)
  | Except.ok results =>
    match results.getD [] with
    | [] => (some [], r.stderr, none)
    | first :: _ => (first.Messages, r.stderr, none)

/-- The function `PHPLint` (lines 215-245). -/
def PHPLint (env : AdapterEnv) (fileName cwd : String) :
    Option (List LintMessage) × String × Option GoError :=
  match env.parse cwd env.confPHPLint with
  | Except.error e => (none, "", some e)
  | Except.ok words =>
    let r := env.run (words ++ ["-f", "json", fileName]) cwd
    match r.err with
    | some e => (none, r.stderr, some e)
    | none => firstMessages env r

/-- The function `ESLint` (lines 248-284). -/
def ESLint (env : AdapterEnv) (fileName cwd eslintrc : String) :
    Option (List LintMessage) × String × Option GoError :=
  match env.parse cwd env.confESLint with
  | Except.error e => (none, "", some e)
  | Except.ok words =>
    let words :=
      if eslintrc != "" then words ++ ["-c", eslintrc, "-f", "json", fileName]
      else words ++ ["-f", "json", fileName]
    let r := env.run words cwd
    match r.err with
    | some e => if !e.isExitError then (none, r.stderr, some e) else firstMessages env r
    | none => firstMessages env r

/-- The severity level of a severity name (lines 322-326 and 375-379). -/
def severityLevel (env : AdapterEnv) (severity : String) : Int :=
  match LintSeverity (env.toLower severity) with
  | some level => level
  | none => severityLevelOff

/-- The loop of lines 321-334 of `TSLint`, from index `i` on: each record is
written to its index of `messages`. -/
def tsLintFill (env : AdapterEnv) : List TSLintResult → Nat → List LintMessage →
    List LintMessage
  | [], _, messages => messages
  | lint :: rest, i, messages =>
    tsLintFill env rest (i + 1)
      (messages.set i
        { RuleID := lint.RuleName, Severity := severityLevel env lint.RuleSeverity,
          Line := lint.StartPosition.Line.plus 1,
          Column := lint.StartPosition.Character.plus 1,
          Message := lint.Failure, SourceCode := "" })

/-- Lines 307-335 of `TSLint`: the output is parsed and normalised. -/
def tsLintMessages (env : AdapterEnv) (r : ProcessResult) :
    Option (List LintMessage) × String × Option GoError :=
  match env.unmarshalTSLint r.stdout with
  | Except.error e => (none, r.stderr, some e)
  | Except.ok results =>
    match results.getD [] with
    | [] => (some [], r.stderr, none)
    | first :: more =>
      (some (tsLintFill env (first :: more) 0
        (List.replicate (first :: more).length zeroLintMessage)), r.stderr, none)

/-- The function `TSLint` (lines 287-336). -/
def TSLint (env : AdapterEnv) (fileName cwd : String) :
    Option (List LintMessage) × String × Option GoError :=
  match env.parse cwd env.confTSLint with
  | Except.error e => (none, "", some e)
  | Except.ok words =>
    let r := env.run (words ++ ["--format", "json", fileName]) cwd
    match r.err with
    | some e => if !e.isExitError then (none, r.stderr, some e) else tsLintMessages env r
    | none => tsLintMessages env r

/-- The inner loop of lines 374-387 of `SCSSLint`, from index `i` on. -/
def scssLintFill (env : AdapterEnv) : List SCSSLintResult → Nat → List LintMessage →
    List LintMessage
  | [], _, messages => messages
  | lint :: rest, i, messages =>
    scssLintFill env rest (i + 1)
      (messages.set i
        { RuleID := lint.Linter, Severity := severityLevel env lint.Severity,
          Line := lint.Line, Column := lint.Column, Message := lint.Reason,
          SourceCode := "" })

/-- Lines 359-390 of `SCSSLint`: the output is parsed and the findings of the
first entry that `range` visits are normalised. -/
def scssLintMessages (env : AdapterEnv) (r : ProcessResult) :
    Option (List LintMessage) × String × Option GoError :=
  match env.unmarshalSCSSLint r.stdout with
  | Except.error e => (none, r.stderr, some e)
  | Except.ok results =>
    match results with
    | [] => (some [], r.stderr, none)
    | (_, lints) :: _ =>
      (some (scssLintFill env lints 0 (List.replicate lints.length zeroLintMessage)),
        r.stderr, none)

/-- The function `SCSSLint` (lines 339-391). -/
def SCSSLint (env : AdapterEnv) (fileName cwd : String) :
    Option (List LintMessage) × String × Option GoError :=
  match env.parse cwd env.confSCSSLint with
  | Except.error e => (none, "", some e)
  | Except.ok words =>
    let r := env.run (words ++ ["--format=JSON", fileName]) cwd
    match r.err with
    | some e => if !e.isExitError then (none, r.stderr, some e) else scssLintMessages env r
    | none => scssLintMessages env r

/-! ## Vocabulary of the specification -/

/-- A body line that belongs to the new file: a context line or an added line. -/
def isNewSide (l : Line) : Bool := startsWith l ' ' || startsWith l '+'

/-- A well-formed hunk body, read from the line after one that is
(`prevRemoved = true`) or is not a removed line: every line begins with a
space, `+` or `-`, a no-newline marker `\` may stand directly after a removed
line, and the last line may be the empty string left by the final newline. -/
def wellFormedFrom : Bool → List Line → Bool
  | _, [] => true
  | prevRemoved, l :: rest =>
    (startsWith l ' ' || startsWith l '+' || startsWith l '-'
      || (startsWith l '\\' && prevRemoved) || (l.isEmpty && rest.isEmpty))
    && wellFormedFrom (startsWith l '-') rest

/-- A well-formed hunk body. -/
def wellFormedBody (lines : List Line) : Bool := wellFormedFrom false lines

/-- The body line at index `j` carries the new-file line `lintLine` of a hunk
that starts at new-file line `newStartLine`: it belongs to the new file and
exactly `lintLine - newStartLine` lines of the new file stand before it. -/
def carriesLine (newStartLine lintLine : Int) (lines : List Line) (j : Nat) : Prop :=
  (∃ l, lines.get? j = some l ∧ isNewSide l = true)
    ∧ (((lines.take j).countP isNewSide : Nat) : Int) = lintLine - newStartLine

/-- The comments that one finding contributes for one hunk: the comment that
`findingStep` appends, if any. -/
def findingComments (fileName : String) (hunk : Hunk) (lines : List Line)
    (lint : LintMessage) : List GithubRefComment :=
  (findingStep fileName hunk lines { comments := [], problems := 0 } lint).comments

/-- The comments that the findings of a file contribute for one hunk, in the
order of the findings. -/
def hunkComments (fileName : String) (lints : List LintMessage) (hunk : Hunk) :
    List GithubRefComment :=
  if hunk.NewLines.toInt > 0 then
    lints.flatMap (findingComments fileName hunk (bodyLines hunk))
  else []

/-- The comments of one changed file: hunk by hunk, finding by finding. -/
def fileComments (fileName : String) (hunks : List Hunk) (lints : Option (List LintMessage)) :
    List GithubRefComment :=
  match lints with
  | none => []
  | some ls => hunks.flatMap (hunkComments fileName ls)

/-- A comment is anchored in a diff: its position is the start position of a
hunk of a changed file plus the index of a body line of that hunk which is
non-empty and begins with `+`, and its path is the name of that file. -/
def Anchored (diffs : List FileDiff) (c : GithubRefComment) : Prop :=
  ∃ d ∈ diffs, ∃ hunk ∈ d.Hunks, ∃ (i : Nat) (l : Line),
    (bodyLines hunk).get? i = some l ∧ startsWith l '+' = true
      ∧ i < (bodyLines hunk).length
      ∧ c.Position = hunk.StartPosition.toInt + (i : Int)
      ∧ c.Path = sliceFrom d.NewName 2

/-- The result of the call of a linter adapter. -/
def runLinter (env : Env) (linter : Linter) (filePath repoPath : String) : LintOutcome :=
  match linter with
  | Linter.GoLint => env.GoLint filePath repoPath
  | Linter.PHPLint => env.PHPLint filePath repoPath
  | Linter.TSLint => env.TSLint filePath repoPath
  | Linter.SCSSLint => env.SCSSLint filePath repoPath
  | Linter.ESLint eslintrc => env.ESLint filePath repoPath eslintrc

/-- The result of the linter call that an event records; `none` for the
events of the reporting backend. -/
def lintResult (env : Env) : Event → Option LintOutcome
  | Event.lint linter filePath repoPath => some (runLinter env linter filePath repoPath)
  | Event.updateState _ _ _ _ _ => none
  | Event.createReview _ _ _ _ _ => none

/-- An event is a final report of the `lint` check: a review, or a state
other than `pending`. -/
def isFinalReport : Event → Bool
  | Event.createReview _ _ _ _ _ => true
  | Event.updateState _ _ state _ _ => state != "pending"
  | Event.lint _ _ _ => false

/-- The primary linter of the specification: chosen by the suffix of the
file name, and only when that linter is enabled. -/
def primaryFor (le : LintEnabled) (fileName : String) : Option Linter :=
  if hasSuffix fileName ".go" then (if le.Go then some Linter.GoLint else none)
  else if hasSuffix fileName ".php" then (if le.PHP then some Linter.PHPLint else none)
  else if hasSuffix fileName ".ts" || hasSuffix fileName ".tsx" then
    (if le.TypeScript then some Linter.TSLint else none)
  else if hasSuffix fileName ".scss" || hasSuffix fileName ".css" then
    (if le.SCSS then some Linter.SCSSLint else none)
  else if hasSuffix fileName ".js" then
    (if le.JS != "" then some (Linter.ESLint le.JS) else none)
  else if hasSuffix fileName ".es" || hasSuffix fileName ".esx"
      || hasSuffix fileName ".jsx" then
    (if le.ES != "" then some (Linter.ESLint le.ES) else none)
  else none

/-- The additional ESLint pass of the specification: for `.html` and `.php`
files when the JS configuration is set. -/
def extraFor (le : LintEnabled) (fileName : String) : Option Linter :=
  if le.JS != "" && (hasSuffix fileName ".html" || hasSuffix fileName ".php") then
    some (Linter.ESLint le.JS)
  else none

/-- The call of a linter of the specification on a file, as an event. -/
def lintEvents (env : Env) (repoPath fileName : String) (linter : Option Linter) :
    List Event :=
  match linter with
  | some l => [Event.lint l (env.pathJoin repoPath fileName) repoPath]
  | none => []

/-- The outcome of a pass of the specification; a pass that is not made
leaves the nil slice and no error. -/
def passOutcome (env : Env) (repoPath fileName : String) (linter : Option Linter) :
    LintOutcome :=
  match linter with
  | some l => runLinter env l (env.pathJoin repoPath fileName) repoPath
  | none => Except.ok none

/-- The result of one command in the words of the specification: a command
line that the shell-word parser rejects ends with the error of the parser, one
that parses to zero words ends with the error `invalid command`, and neither
is launched; every other one is launched in the repository, and its output
and its error (a launch failure or a non-zero exit) are those of the
process. -/
def commandResult {σ : Type} (env : TestEnv σ) (m : σ) (repoPath cmd : String) :
    (String × Option Error) × σ :=
  match env.parse cmd with
  | Except.error e => (("", some e), m)
  | Except.ok [] => (("", some "invalid command"), m)
  | Except.ok (word :: words) => env.combinedOutput m (word :: words) repoPath

/-- The commands run one after the other on the machine, none skipped. -/
def runEach {σ : Type} (env : TestEnv σ) (repoPath : String) : σ → List String → List Executed
  | _, [] => []
  | m, cmd :: rest =>
    let r := commandResult env m repoPath cmd
    { cmd := cmd, out := r.1.1, err := r.1.2 } :: runEach env repoPath r.2 rest

/-- The calls up to and including the first one that ended with an error. -/
def uptoFirstError : List Executed → List Executed
  | [] => []
  | x :: xs => if x.err.isSome then [x] else x :: uptoFirstError xs

/-- The concatenation of texts, in order. -/
def concatAll : List String → String
  | [] => ""
  | s :: rest => s ++ concatAll rest

/-- The commands of a test that are not the empty string. -/
def nonEmptyCmds (cmds : List String) : List String := cmds.filter (fun c => c != "")

/-- The calls of `carry` that the specification expects for a list of
commands: every non-empty command in order, cut after the first one that
ended with an error when break-on-failure is set. -/
def expectedRuns {σ : Type} (env : TestEnv σ) (repoPath : String) (breakOnFails : Bool)
    (m : σ) (cmds : List String) : List Executed :=
  if breakOnFails then uptoFirstError (runEach env repoPath m (nonEmptyCmds cmds))
  else runEach env repoPath m (nonEmptyCmds cmds)

/-- The state of the command loop of `testAndSaveCoverage` when it ends. -/
def loopEnd {σ : Type} (env : TestEnv σ) (m : σ) (repoPath : String) (breakOnFails : Bool)
    (cmds : List String) : LoopState σ :=
  cmdLoop env repoPath breakOnFails cmds
    { conclusion := "success", outputSummary := "", executed := [], machine := m }

/-- Modelled from the spec: `util.ParseFloatPercent` is not among the sources.
The spec fixes of it that the raw percentage string is parsed "as a
percentage value" and that the string `unknown` of an extraction without a
match leaves "no persisted coverage value": an environment follows the spec
when its parser rejects `unknown`. -/
def rejectsUnknown {σ : Type} (env : TestEnv σ) : Prop :=
  ∃ e, env.ParseFloatPercent "unknown" = Except.error e

/-- The percentage string of the specification, as amended: `error` for a
pattern that does not compile, the first capture of the first match, and
`unknown` when there is none. -/
def expectedPercentage {σ : Type} (env : TestEnv σ) (pattern transcript : String) : String :=
  match env.regexpCompile pattern with
  | some _ => "error"
  | none =>
    if (env.findStringSubmatch pattern transcript).length > 1 then
      (env.findStringSubmatch pattern transcript).getD 1 ""
    else "unknown"

/-- The title that a report of `ReportTestResults` carries: the description of
a state update, the output title of a check-run update. -/
def titleOf : TestEvent → Option String
  | TestEvent.updateState _ _ _ _ description => some description
  | TestEvent.updateCheckRun _ _ _ outputTitle _ => some outputTitle
  | TestEvent.createCheckRun _ _ _ => none

/-- A start report: the state `pending`, or the creation of a check run. -/
def isStart : TestEvent → Bool
  | TestEvent.updateState _ _ state _ _ => state == "pending"
  | TestEvent.createCheckRun _ _ _ => true
  | TestEvent.updateCheckRun _ _ _ _ _ => false

/-- A completion report: the state `success` or `error`, or the update of a
check run to `completed`. -/
def isCompletion : TestEvent → Bool
  | TestEvent.updateState _ _ state _ _ => state == "success" || state == "error"
  | TestEvent.createCheckRun _ _ _ => false
  | TestEvent.updateCheckRun _ _ _ _ _ => true

/-- An event of `HandleMessage` is a linter call. -/
def isLintCall : Event → Bool
  | Event.lint _ _ _ => true
  | _ => false

/-- The 1-based number of a 0-based number held in a Go `int`, as amended: the
number plus 1, and the smallest `int` for the largest `int`, whose successor
does not fit. -/
def oneBased (x : GoInt) : Int :=
  if x.val = 9223372036854775807 then -9223372036854775808 else x.val + 1

/-- The finding that the specification, as amended, assigns to a TSLint
record. -/
def tsLintFinding (env : AdapterEnv) (r : TSLintResult) : LintMessage :=
  { RuleID := r.RuleName,
    Severity :=
      if env.toLower r.RuleSeverity = "off" then 0
      else if env.toLower r.RuleSeverity = "warning" then 1
      else if env.toLower r.RuleSeverity = "error" then 2
      else 0,
    Line := oneBased r.StartPosition.Line, Column := oneBased r.StartPosition.Character,
    Message := r.Failure, SourceCode := "" }

/-- The process ran: it returned no error, or an `*exec.ExitError`. -/
def processRan (r : ProcessResult) : Prop :=
  r.err = none ∨ ∃ e, r.err = some e ∧ e.isExitError = true

/-- The error of a parse of the output, if any. -/
def errorOf {α : Type} (x : Except GoError α) : Option GoError :=
  match x with
  | Except.error e => some e
  | Except.ok _ => none

/-- The error rule of an adapter with the command template `template`, the
arguments `args`, the process errors `tolerated` that do not count as a
failure, the error `outputError` of parsing the output and the findings
`findings` parsed from it.  First: when the template parses, the process
returned no error or a tolerated one and the output parses, the adapter
returns the parsed findings and no error.  Second: the adapter returns an
error only when the template does not parse, the process returned an error
that is not tolerated, or the output does not parse. -/
def FollowsErrorRule (env : AdapterEnv) (template cwd : String)
    (args : List String → List String) (tolerated : GoError → Bool)
    (outputError : ProcessResult → Option GoError)
    (findings : ProcessResult → Option (List LintMessage))
    (result : Option (List LintMessage) × Option GoError) : Prop :=
  (∀ words, env.parse cwd template = Except.ok words →
      ((env.run (args words) cwd).err = none
        ∨ ∃ e, (env.run (args words) cwd).err = some e ∧ tolerated e = true) →
      outputError (env.run (args words) cwd) = none →
      result = (findings (env.run (args words) cwd), none))
    ∧ (∀ e, result.2 = some e →
        env.parse cwd template = Except.error e
          ∨ ∃ words, env.parse cwd template = Except.ok words
              ∧ (((env.run (args words) cwd).err = some e ∧ tolerated e = false)
                ∨ outputError (env.run (args words) cwd) = some e))

/-- A changed file of the diff: its new name has the prefix `b/` (line 137). -/
def isChanged (d : FileDiff) : Bool := hasPrefix d.NewName "b/"

/-- The linting of a changed file ends without an error. -/
def lintSucceeds (env : Env) (le : LintEnabled) (repoPath : String) (d : FileDiff) : Bool :=
  match (lintFile env le repoPath (sliceFrom d.NewName 2)).2 with
  | Except.ok _ => true
  | Except.error _ => false

/-- The findings of a changed file in the order of the linter output: the
list that the linting of the file returns, empty for the nil slice. -/
def findingsOf (env : Env) (le : LintEnabled) (repoPath : String) (d : FileDiff) :
    List LintMessage :=
  match (lintFile env le repoPath (sliceFrom d.NewName 2)).2 with
  | Except.ok (some ls) => ls
  | _ => []

/-- The linter calls of a diff: those of each changed file, in diff order. -/
def lintCalls (env : Env) (le : LintEnabled) (repoPath : String) (diffs : List FileDiff) :
    List Event :=
  (diffs.filter isChanged).flatMap
    (fun d => (lintFile env le repoPath (sliceFrom d.NewName 2)).1)

/-- The body index at which a (hunk, finding) pair is mappable: the hunk
declares new lines (line 186), the line of the finding passes the range test
(lines 189-190), and the walk stops inside the body on a line that begins
with `+` (line 214). -/
def mappedIndex (hunk : Hunk) (lint : LintMessage) : Option Nat :=
  if hunk.NewLines.toInt > 0 then
    match attempt hunk (bodyLines hunk) lint with
    | some i =>
      (match (bodyLines hunk).get? i with
       | some l => if startsWith l '+' then some i else none
       | none => none)
    | none => none
  else none

/-- The comment of a (hunk, finding) pair of the file `fileName`, when the
pair is mappable. -/
def pairComment (fileName : String) (hunk : Hunk) (lint : LintMessage) :
    Option GithubRefComment :=
  (mappedIndex hunk lint).map (fun i =>
    { Path := fileName, Position := hunk.StartPosition.toInt + (i : Int),
      Body := "`" ++ lint.RuleID ++ "` " ++ toString lint.Line ++ ":" ++ toString lint.Column
        ++ " " ++ lint.Message })

/-- The comments of one changed file: over its hunks in hunk order, then over
its findings in the order given, the comment of each mappable pair. -/
def changedFileComments (fileName : String) (hunks : List Hunk) (findings : List LintMessage) :
    List GithubRefComment :=
  hunks.flatMap (fun hunk =>
    findings.flatMap (fun lint => (pairComment fileName hunk lint).toList))

/-- The aggregation of the specification: over the changed files in diff
order, the comments of each file, the name of the file being its new name
without the first two bytes. -/
def aggregate (env : Env) (le : LintEnabled) (repoPath : String) (diffs : List FileDiff) :
    List GithubRefComment :=
  (diffs.filter isChanged).flatMap (fun d =>
    changedFileComments (sliceFrom d.NewName 2) d.Hunks (findingsOf env le repoPath d))

/-! ## Examples -/

/-- A hunk that starts at new-file line 8 with two context lines and the
added line `+foo()` at new-file line 10. -/
def demoHunk : Hunk :=
  { NewStartLine := ⟨8, by decide, by decide⟩, NewLines := ⟨3, by decide, by decide⟩,
    StartPosition := ⟨5, by decide, by decide⟩, Body := " a\n b\n+foo()\n" }

/-- A finding at line 10, column 3: the added line of `demoHunk`. -/
def demoLint : LintMessage :=
  { RuleID := "golint", Severity := 2, Line := 10, Column := 3, Message := "unused",
    SourceCode := "" }

/-- A finding at line 9: a context line of `demoHunk`. -/
def contextLint : LintMessage :=
  { RuleID := "golint", Severity := 2, Line := 9, Column := 1, Message := "unused",
    SourceCode := "" }

/-- A finding at line 20: outside `demoHunk`. -/
def farLint : LintMessage :=
  { RuleID := "golint", Severity := 2, Line := 20, Column := 1, Message := "unused",
    SourceCode := "" }

/-- A hunk that adds the one line 2147483647 of the new file: the header
`@@ -0,0 +2147483647,1 @@` followed by `+x`. -/
def overflowHunk : Hunk :=
  { NewStartLine := ⟨2147483647, by decide, by decide⟩, NewLines := ⟨1, by decide, by decide⟩,
    StartPosition := ⟨0, by decide, by decide⟩, Body := "+x\n" }

/-- A finding at line 2147483647: the added line of `overflowHunk`. -/
def overflowLint : LintMessage :=
  { RuleID := "golint", Severity := 2, Line := 2147483647, Column := 1, Message := "unused",
    SourceCode := "" }

/-- A pull request that is open. -/
def demoPull : GithubPull :=
  { State := "open", UserLogin := "dev", HeadRepoSSHURL := "git@example:o/r.git",
    HeadRef := "feature" }

/-- An environment in which every step before linting succeeds, the marker
file of the Go linter is present (and `.eslintrc.js` when `eslintrc` is set),
the diff parses to `diffs`, and the Go and PHP linters behave as `goLint` and
`phpLint`; the other linters find nothing. -/
def demoEnv (diffs : List FileDiff) (goLint : String → String → LintOutcome)
    (phpLint : String → String → LintOutcome) (eslintrc : Bool) : Env :=
  { CheckLogURI := "", LogsDir := "logs", WorkDir := "work",
    pathJoin := fun a b => a ++ "/" ++ b,
    createLog := fun _ => none,
    GetGithubPull := fun _ _ => Except.ok demoPull,
    UpdateState := fun _ _ _ _ _ => none,
    CreateReview := fun _ _ _ _ _ => none,
    gitInit := fun _ => none,
    gitFetch := fun _ _ _ => none,
    gitCheckout := fun _ _ => none,
    GetGithubPullDiff := fun _ _ => Except.ok "diff",
    ParseMultiFileDiff := fun _ => Except.ok diffs,
    statOk := fun path =>
      path == "work/o/r/.golangci.yml" || (eslintrc && path == "work/o/r/.eslintrc.js"),
    GoLint := goLint,
    PHPLint := phpLint,
    TSLint := fun _ _ => Except.ok none,
    SCSSLint := fun _ _ => Except.ok none,
    ESLint := fun _ _ _ => Except.ok (some []) }

/-- The queue message of commit `abc` of pull request 7 of `o/r`. -/
def demoMessage : String := "o/r/pull/7/commits/abc"

/-- The reference that `HandleMessage` builds from `demoMessage`. -/
def demoRef : GithubRef := { RepoName := "o/r", Sha := "abc" }

/-- A Go linter that reports `demoLint` for every file. -/
def goLintFinds : String → String → LintOutcome := fun _ _ => Except.ok (some [demoLint])

/-- A Go linter that finds nothing. -/
def goLintClean : String → String → LintOutcome := fun _ _ => Except.ok (some [])

/-- A Go linter that fails on `a.go` and reports `demoLint` for other files. -/
def goLintFailsOnA : String → String → LintOutcome := fun filePath _ =>
  if filePath == "work/o/r/a.go" then Except.error "exec: golint: not found"
  else Except.ok (some [demoLint])

/-- A PHP linter that finds nothing. -/
def phpLintClean : String → String → LintOutcome := fun _ _ => Except.ok (some [])

/-- A PHP linter that fails. -/
def phpLintFails : String → String → LintOutcome := fun _ _ => Except.error "exit status 255"

/-- A diff that changes `a.go` with `demoHunk`. -/
def oneFileDiff : List FileDiff := [{ NewName := "b/a.go", Hunks := [demoHunk] }]

/-- A diff that changes `a.go` and then `z.go`, each with `demoHunk`. -/
def twoFileDiff : List FileDiff :=
  [{ NewName := "b/a.go", Hunks := [demoHunk] }, { NewName := "b/z.go", Hunks := [demoHunk] }]

/-- A diff that changes `x.php` with `demoHunk`. -/
def phpFileDiff : List FileDiff := [{ NewName := "b/x.php", Hunks := [demoHunk] }]

/-- The stage that `HandleMessage` reaches on `demoMessage` with the diff
`twoFileDiff`. -/
def twoFileStage : Stage :=
  { ref := demoRef, pull := "7", targetURL := "", repoPath := "work/o/r",
    diffs := twoFileDiff }

/-- A machine without state on which every command prints nothing, and only
the command `false` ends with an error. -/
def demoTestEnv : TestEnv Unit :=
  { parse := fun cmd => Except.ok [cmd],
    combinedOutput := fun m words _ =>
      if words == ["false"] then (("", some "exit status 1"), m) else (("", none), m),
    regexpCompile := fun _ => none,
    findStringSubmatch := fun _ _ => [],
    ParseFloatPercent := fun _ => Except.error "invalid syntax",
    Save := fun _ => none,
    formatCommitsInfo := fun _ => "" }

/-- A reference in fine-grained mode. -/
def demoTestRef : TestRef := { owner := "o", repo := "r", Sha := "abc", isTree := false }

/-- A reference in aggregate mode. -/
def demoTreeRef : TestRef := { owner := "o", repo := "r", Sha := "abc", isTree := true }

/-- The environment `demoTestEnv` with a pattern compiler that rejects every
pattern. -/
def badPatternEnv : TestEnv Unit :=
  { demoTestEnv with regexpCompile := fun _ => some "error parsing regexp: missing closing )" }

/-- A backend on which every call succeeds; the check run gets the
identifier 42. -/
def demoBackend : Backend :=
  { UpdateState := fun _ _ _ _ _ => none,
    CreateCheckRun := fun _ _ _ => Except.ok 42,
    UpdateCheckRun := fun _ _ _ _ _ => none }

/-- A backend on which the creation of a check run fails. -/
def noCreateBackend : Backend :=
  { demoBackend with CreateCheckRun := fun _ _ _ => Except.error "403 Forbidden" }

/-- The environment of `oneFileDiff` with a Go linter that finds nothing, in
which the update of the `lint` check to `success` fails. -/
def failingStateEnv : Env :=
  { demoEnv oneFileDiff goLintClean phpLintClean false with
    UpdateState := fun _ _ state _ _ => if state == "success" then some "502 Bad Gateway" else none }

/-- An adapter environment in which every command template is the name of
the tool, the process ends with the exit status 1 and prints `[]`, which
parses to no results; the lower-casing is the one of Go on the severities
used here (`ERROR` and lower-case words). -/
def exitOneEnv : AdapterEnv :=
  { confCPPLint := "cpplint", confPHPLint := "phplint", confESLint := "eslint",
    confTSLint := "tslint", confSCSSLint := "scss-lint",
    parse := fun _ template => Except.ok [template],
    run := fun _ _ =>
      { stdout := "[]", stderr := "",
        err := some { isExitError := true, text := "exit status 1" } },
    unmarshalLintResults := fun _ => Except.ok (some []),
    unmarshalTSLint := fun _ => Except.ok (some []),
    unmarshalSCSSLint := fun _ => Except.ok [],
    findCPPLint := fun _ => [],
    atoi := fun _ => 0,
    toLower := fun s => if s == "ERROR" then "error" else s }

/-- The environment `exitOneEnv` with the exit status 2. -/
def exitTwoEnv : AdapterEnv :=
  { exitOneEnv with
    run := fun _ _ =>
      { stdout := "[]", stderr := "",
        err := some { isExitError := true, text := "exit status 2" } } }

/-- Two TSLint records, the second with a severity that is not in the map. -/
def demoTSLintResults : List TSLintResult :=
  [{ Name := "a.ts", RuleName := "semicolon", RuleSeverity := "ERROR", Failure := "Missing semicolon",
     StartPosition :=
       { Character := ⟨4, by decide, by decide⟩, Line := ⟨9, by decide, by decide⟩,
         Position := ⟨120, by decide, by decide⟩ },
     EndPosition :=
       { Character := ⟨4, by decide, by decide⟩, Line := ⟨9, by decide, by decide⟩,
         Position := ⟨120, by decide, by decide⟩ } },
   { Name := "a.ts", RuleName := "quotemark", RuleSeverity := "fatal", Failure := "Use single quotes",
     StartPosition :=
       { Character := ⟨0, by decide, by decide⟩, Line := ⟨0, by decide, by decide⟩,
         Position := ⟨0, by decide, by decide⟩ },
     EndPosition :=
       { Character := ⟨2, by decide, by decide⟩, Line := ⟨0, by decide, by decide⟩,
         Position := ⟨2, by decide, by decide⟩ } }]

/-- The environment `exitOneEnv` whose TSLint output parses to
`demoTSLintResults`. -/
def tsLintEnv : AdapterEnv :=
  { exitOneEnv with unmarshalTSLint := fun _ => Except.ok (some demoTSLintResults) }

/-- One TSLint record whose start line is the largest Go `int`,
9223372036854775807. -/
def lastLineResults : List TSLintResult :=
  [{ Name := "", RuleName := "eofline", RuleSeverity := "error",
     Failure := "file should end with a newline",
     StartPosition :=
       { Character := ⟨0, by decide, by decide⟩,
         Line := ⟨9223372036854775807, by decide, by decide⟩,
         Position := ⟨0, by decide, by decide⟩ },
     EndPosition :=
       { Character := ⟨0, by decide, by decide⟩, Line := ⟨0, by decide, by decide⟩,
         Position := ⟨0, by decide, by decide⟩ } }]

/-- The environment `exitOneEnv` whose TSLint output parses to
`lastLineResults`. -/
def lastLineEnv : AdapterEnv :=
  { exitOneEnv with unmarshalTSLint := fun _ => Except.ok (some lastLineResults) }

/-- A hunk that starts at new-file line 20 with the two added lines `+bar()`
and `+baz()`. -/
def secondHunk : Hunk :=
  { NewStartLine := ⟨20, by decide, by decide⟩, NewLines := ⟨2, by decide, by decide⟩,
    StartPosition := ⟨12, by decide, by decide⟩, Body := "+bar()\n+baz()\n" }

/-- A finding at line 21: the second added line of `secondHunk`. -/
def lintAt21 : LintMessage :=
  { RuleID := "errcheck", Severity := 2, Line := 21, Column := 2, Message := "unchecked",
    SourceCode := "" }

/-- A finding at line 20: the first added line of `secondHunk`. -/
def lintAt20 : LintMessage :=
  { RuleID := "vet", Severity := 1, Line := 20, Column := 1, Message := "shadow",
    SourceCode := "" }

/-- A Go linter that reports, for every file, the findings at the lines 21, 10
and 20, in this order. -/
def goLintFindsThree : String → String → LintOutcome :=
  fun _ _ => Except.ok (some [lintAt21, demoLint, lintAt20])

/-- A diff that changes `a.go` with two hunks, has an entry whose new name is
`/dev/null`, and changes `z.go` with `secondHunk`. -/
def orderedDiff : List FileDiff :=
  [{ NewName := "b/a.go", Hunks := [demoHunk, secondHunk] },
   { NewName := "/dev/null", Hunks := [demoHunk] },
   { NewName := "b/z.go", Hunks := [secondHunk] }]

/-- The stage that `HandleMessage` reaches on `demoMessage` with the diff
`orderedDiff`. -/
def orderedStage : Stage :=
  { ref := demoRef, pull := "7", targetURL := "", repoPath := "work/o/r",
    diffs := orderedDiff }

/-! ## Lemmas on the hunk walk -/

theorem walk_nil (s L : Int) (i : Nat) (n : Int) (last : Bool) :
    walk s L [] i n last = i := rfl

theorem walk_removed (s L : Int) (cs : Line) (rest : List Line) (i : Nat) (n : Int)
    (last : Bool) :
    walk s L (('-' :: cs) :: rest) i n last
      = if n ≥ L then i else walk s L rest (i + 1) n true := by
  rw [walk]
  simp [startsWith]

theorem walk_marker (s L : Int) (cs : Line) (rest : List Line) (i : Nat) (n : Int) :
    walk s L (('\\' :: cs) :: rest) i n true = walk s L rest (i + 1) n true := by
  rw [walk]
  simp [startsWith]

theorem walk_newSide (s L : Int) (c : Char) (cs : Line) (rest : List Line) (i : Nat) (n : Int)
    (last : Bool) (h1 : c ≠ '-') (h2 : c ≠ '\\') :
    walk s L ((c :: cs) :: rest) i n last
      = if (if n ≤ 0 then s else n + 1) ≥ L then i
        else walk s L rest (i + 1) (if n ≤ 0 then s else n + 1) false := by
  have h3 : (c == '-') = false := by simpa using h1
  rw [walk]
  simp [startsWith, h1, h2, h3]

theorem walk_empty (s L : Int) (rest : List Line) (i : Nat) (n : Int) (last : Bool) :
    walk s L ([] :: rest) i n last
      = if (if n ≤ 0 then s else n + 1) ≥ L then i
        else walk s L rest (i + 1) (if n ≤ 0 then s else n + 1) last := by
  rw [walk]
  simp [startsWith]


/-- The walk over a well-formed body stops on the line that carries the
target line. -/
theorem walk_stops_on_carrier (s L : Int) (hs : 1 ≤ s) :
    ∀ (rest : List Line) (i : Nat) (lineNum : Int) (last prevRemoved : Bool) (j : Nat),
      0 ≤ lineNum → lineNum < L → (prevRemoved = true → last = true) →
      wellFormedFrom prevRemoved rest = true →
      (∃ l, rest.get? j = some l ∧ isNewSide l = true) →
      (((rest.take j).countP isNewSide : Nat) : Int)
        = L - (if lineNum ≤ 0 then s else lineNum + 1) →
      walk s L rest i lineNum last = i + j := by
  intro rest
  induction rest with
  | nil =>
    intro i lineNum last prevRemoved j _ _ _ _ hj _
    obtain ⟨l, hl, _⟩ := hj
    simp at hl
  | cons l rest ih =>
    intro i lineNum last prevRemoved j h0 hlt hlast hwf hj hcount
    obtain ⟨lj, hlj, hnew⟩ := hj
    rw [wellFormedFrom, Bool.and_eq_true] at hwf
    obtain ⟨hhead, htail⟩ := hwf
    have hnext : (0 : Int) < (if lineNum ≤ 0 then s else lineNum + 1) := by
      split_ifs <;> omega
    cases l with
    | nil =>
      -- an empty line is the last one and carries nothing
      have hrest : rest = [] := by simpa [startsWith] using hhead
      subst hrest
      cases j with
      | zero => simp at hlj; subst hlj; simp [isNewSide, startsWith] at hnew
      | succ j => simp at hlj
    | cons c cs =>
      by_cases hminus : c = '-'
      · -- a removed line
        subst hminus
        cases j with
        | zero => simp at hlj; subst hlj; simp [isNewSide, startsWith] at hnew
        | succ j =>
          simp only [List.get?_cons_succ] at hlj
          have hc : (((rest.take j).countP isNewSide : Nat) : Int)
              = L - (if lineNum ≤ 0 then s else lineNum + 1) := by
            simpa [isNewSide, startsWith] using hcount
          have hw : wellFormedFrom true rest = true := by
            simpa [startsWith] using htail
          rw [walk_removed, if_neg (by omega),
            ih (i + 1) lineNum true true j h0 hlt (fun _ => rfl) hw ⟨lj, hlj, hnew⟩ hc]
          omega
      · by_cases hmark : c = '\\'
        · -- the no-newline marker after a removed line
          subst hmark
          have hp : prevRemoved = true := by
            simpa [startsWith] using hhead
          have hl' : last = true := hlast hp
          subst hl'
          cases j with
          | zero => simp at hlj; subst hlj; simp [isNewSide, startsWith] at hnew
          | succ j =>
            simp only [List.get?_cons_succ] at hlj
            have hc : (((rest.take j).countP isNewSide : Nat) : Int)
                = L - (if lineNum ≤ 0 then s else lineNum + 1) := by
              simpa [isNewSide, startsWith] using hcount
            have hw : wellFormedFrom false rest = true := by
              simpa [startsWith] using htail
            rw [walk_marker,
              ih (i + 1) lineNum true false j h0 hlt (by simp) hw ⟨lj, hlj, hnew⟩ hc]
            omega
        · -- a context line or an added line
          have hside : isNewSide (c :: cs) = true := by
            simp only [startsWith, Bool.and_eq_true, Bool.or_eq_true,
              beq_iff_eq] at hhead
            rcases hhead with (((h | h) | h) | h) | h
            · simp [isNewSide, startsWith, h]
            · simp [isNewSide, startsWith, h]
            · exact absurd h hminus
            · exact absurd h.1 hmark
            · simp at h
          have hw : wellFormedFrom false rest = true := by
            have : startsWith (c :: cs) '-' = false := by simpa [startsWith] using hminus
            simpa [this] using htail
          rw [walk_newSide s L c cs rest i lineNum last hminus hmark]
          cases j with
          | zero =>
            have : (if lineNum ≤ 0 then s else lineNum + 1) = L := by
              simp at hcount; omega
            rw [if_pos (by omega)]; rfl
          | succ j =>
            simp only [List.get?_cons_succ] at hlj
            have hc : (((rest.take j).countP isNewSide : Nat) : Int) + 1
                = L - (if lineNum ≤ 0 then s else lineNum + 1) := by
              simpa [List.countP_cons, hside] using hcount
            rw [if_neg (by omega),
              ih (i + 1) _ false false j (by omega) (by omega) (by simp) hw ⟨lj, hlj, hnew⟩
                (by rw [if_neg (by omega)]; omega)]
            omega

/-! ## The accumulators grow by the comments of each finding -/

theorem findingStep_eq (fileName : String) (hunk : Hunk) (lines : List Line) (acc : Acc)
    (lint : LintMessage) :
    findingStep fileName hunk lines acc lint
      = { comments := acc.comments ++ findingComments fileName hunk lines lint,
          problems := acc.problems + (findingComments fileName hunk lines lint).length } := by
  unfold findingComments findingStep
  cases attempt hunk lines lint with
  | none => simp
  | some i =>
    simp only [List.get?_eq_getElem?]
    cases h : lines[i]? with
    | none => simp
    | some l => by_cases hp : startsWith l '+' = true <;> simp [hp]

theorem foldl_findingStep (fileName : String) (hunk : Hunk) (lines : List Line) :
    ∀ (lints : List LintMessage) (acc : Acc),
      lints.foldl (findingStep fileName hunk lines) acc
        = { comments := acc.comments ++ lints.flatMap (findingComments fileName hunk lines),
            problems := acc.problems
              + (lints.flatMap (findingComments fileName hunk lines)).length } := by
  intro lints
  induction lints with
  | nil => intro acc; simp
  | cons lint rest ih =>
    intro acc
    rw [List.foldl_cons, ih, findingStep_eq]
    simp [List.flatMap_cons, Nat.add_assoc]

theorem hunkStep_eq (fileName : String) (lints : List LintMessage) (acc : Acc) (hunk : Hunk) :
    hunkStep fileName lints acc hunk
      = { comments := acc.comments ++ hunkComments fileName lints hunk,
          problems := acc.problems + (hunkComments fileName lints hunk).length } := by
  unfold hunkStep hunkComments
  by_cases h : hunk.NewLines.toInt > 0
  · rw [if_pos h, if_pos h, foldl_findingStep]
  · rw [if_neg h, if_neg h]; simp

theorem foldl_hunkStep (fileName : String) (lints : List LintMessage) :
    ∀ (hunks : List Hunk) (acc : Acc),
      hunks.foldl (hunkStep fileName lints) acc
        = { comments := acc.comments ++ hunks.flatMap (hunkComments fileName lints),
            problems := acc.problems
              + (hunks.flatMap (hunkComments fileName lints)).length } := by
  intro hunks
  induction hunks with
  | nil => intro acc; simp
  | cons hunk rest ih =>
    intro acc
    rw [List.foldl_cons, ih, hunkStep_eq]
    simp [List.flatMap_cons, Nat.add_assoc]

theorem fileStep_eq (fileName : String) (hunks : List Hunk) (lints : Option (List LintMessage))
    (acc : Acc) :
    fileStep fileName hunks lints acc
      = { comments := acc.comments ++ fileComments fileName hunks lints,
          problems := acc.problems + (fileComments fileName hunks lints).length } := by
  unfold fileStep fileComments
  cases lints with
  | none => simp
  | some ls => simp [foldl_hunkStep]

/-! ## The range test -/

theorem add_toInt_of_fits (a b : GoInt32) (hlo : -2147483648 ≤ a.toInt + b.toInt)
    (hhi : a.toInt + b.toInt ≤ 2147483647) :
    (a.add b).toInt = a.toInt + b.toInt := by
  simp only [GoInt32.toInt] at hlo hhi
  simp only [GoInt32.add, GoInt32.toInt, wrapInt32]
  omega

/-- The range test of lines 189-190 never accepts a line outside the declared
range of the hunk, also when the sum wraps. -/
theorem range_test_sound (s n : GoInt32) (L : Int) (hn : 0 < n.toInt)
    (h1 : L ≥ s.toInt) (h2 : L < (s.add n).toInt) :
    s.toInt ≤ L ∧ L < s.toInt + n.toInt := by
  have h3 := s.lo
  have h4 := n.hi
  have h5 := s.hi
  simp only [GoInt32.toInt] at hn h1
  simp only [GoInt32.add, GoInt32.toInt, wrapInt32] at h2
  simp only [GoInt32.toInt]
  omega

/-! ## Findings on added lines and on context lines -/

/-- Within the range of a hunk whose declared end fits in an `int32`, a finding
on an added line of a well-formed body gets exactly one comment, at the start
position of the hunk plus the index of the line. -/
theorem added_line_is_commented (fileName : String) (hunk : Hunk) (lint : LintMessage)
    (acc : Acc) (j : Nat) (l : Line)
    (hs : 1 ≤ hunk.NewStartLine.toInt) (hn : 0 < hunk.NewLines.toInt)
    (hfit : hunk.NewStartLine.toInt + hunk.NewLines.toInt ≤ 2147483647)
    (hwf : wellFormedBody (bodyLines hunk) = true)
    (hlo : hunk.NewStartLine.toInt ≤ lint.Line)
    (hhi : lint.Line < hunk.NewStartLine.toInt + hunk.NewLines.toInt)
    (hcarry : carriesLine hunk.NewStartLine.toInt lint.Line (bodyLines hunk) j)
    (hplus : (bodyLines hunk).get? j = some l ∧ startsWith l '+' = true) :
    hunkStep fileName [lint] acc hunk
      = { comments := acc.comments ++
            [{ Path := fileName, Position := hunk.StartPosition.toInt + (j : Int),
               Body := commentBody lint }],
          problems := acc.problems + 1 } := by
  have hwalk : walk hunk.NewStartLine.toInt lint.Line (bodyLines hunk) 0 0 true = 0 + j :=
    walk_stops_on_carrier _ _ hs (bodyLines hunk) 0 0 true false j (le_refl 0) (by omega)
      (by simp) hwf hcarry.1 (by simpa using hcarry.2)
  have hsum := add_toInt_of_fits hunk.NewStartLine hunk.NewLines (by omega) hfit
  have hatt : attempt hunk (bodyLines hunk) lint = some j := by
    unfold attempt
    rw [if_pos ⟨hlo, by omega⟩, hwalk, Nat.zero_add]
  unfold hunkStep
  rw [if_pos hn, List.foldl_cons, List.foldl_nil]
  unfold findingStep
  rw [hatt]
  simp only [hplus.1, hplus.2, if_true]

/-- C1 (code defect): the hunk `@@ -0,0 +2147483647,1 @@` with the body `+x`
and a finding at line 2147483647 satisfy every condition of the claim (the
start line is at least 1, the line count is positive, the body is well formed,
the finding is within the declared range and its line is carried by the added
line at index 0), yet no comment is produced and the problem count stays 0:
the end of the range is computed as an `int32` sum, which wraps to
-2147483648, so the range test of lines 189-190 fails. -/
theorem added_line_dropped_when_range_end_wraps :
    1 ≤ overflowHunk.NewStartLine.toInt ∧ 0 < overflowHunk.NewLines.toInt
      ∧ wellFormedBody (bodyLines overflowHunk) = true
      ∧ overflowHunk.NewStartLine.toInt ≤ overflowLint.Line
      ∧ overflowLint.Line < overflowHunk.NewStartLine.toInt + overflowHunk.NewLines.toInt
      ∧ carriesLine overflowHunk.NewStartLine.toInt overflowLint.Line (bodyLines overflowHunk) 0
      ∧ ((bodyLines overflowHunk).get? 0).map (fun l => startsWith l '+') = some true
      ∧ (overflowHunk.NewStartLine.add overflowHunk.NewLines).toInt = -2147483648
      ∧ hunkStep "a.go" [overflowLint] emptyAcc overflowHunk = emptyAcc := by
  refine ⟨by decide, by decide, by decide, by decide, by decide, ⟨⟨_, rfl, by decide⟩, by decide⟩,
    by decide, by decide, by decide⟩

/-- C2: in a hunk with start line at least 1, a positive line count and a
well-formed body, a finding within the declared range whose line is carried
by a context line (a body line beginning with a space) produces no comment
and leaves the problem count as it was. -/
theorem context_line_is_not_commented (fileName : String) (hunk : Hunk) (lint : LintMessage)
    (acc : Acc) (j : Nat) (l : Line)
    (hs : 1 ≤ hunk.NewStartLine.toInt) (hn : 0 < hunk.NewLines.toInt)
    (hwf : wellFormedBody (bodyLines hunk) = true)
    (hlo : hunk.NewStartLine.toInt ≤ lint.Line)
    (_hhi : lint.Line < hunk.NewStartLine.toInt + hunk.NewLines.toInt)
    (hcarry : carriesLine hunk.NewStartLine.toInt lint.Line (bodyLines hunk) j)
    (hctx : (bodyLines hunk).get? j = some l ∧ startsWith l ' ' = true) :
    hunkStep fileName [lint] acc hunk = acc := by
  have hwalk : walk hunk.NewStartLine.toInt lint.Line (bodyLines hunk) 0 0 true = 0 + j :=
    walk_stops_on_carrier _ _ hs (bodyLines hunk) 0 0 true false j (le_refl 0) (by omega)
      (by simp) hwf hcarry.1 (by simpa using hcarry.2)
  have hnot : startsWith l '+' = false := by
    cases l with
    | nil => simp [startsWith] at hctx
    | cons c cs =>
      have hc : c = ' ' := by simpa [startsWith] using hctx.2
      subst hc
      simp [startsWith]
  unfold hunkStep
  rw [if_pos hn, List.foldl_cons, List.foldl_nil]
  unfold findingStep attempt
  split_ifs with hrange
  · simp only [hwalk, Nat.zero_add, hctx.1, hnot]
    simp
  · rfl

theorem context_line_is_not_commented_witness :
    hunkStep "a.go" [contextLint] emptyAcc demoHunk = emptyAcc :=
  context_line_is_not_commented "a.go" demoHunk contextLint emptyAcc 1 " b".data
    (by decide) (by decide) (by decide) (by decide) (by decide)
    ⟨⟨_, rfl, by decide⟩, by decide⟩ ⟨rfl, by decide⟩

/-- C4: a finding whose line is outside the declared range of a hunk
leaves the accumulators as they were and its body is not walked; a hunk
whose line count is 0 leaves them as they were for any findings. -/
theorem out_of_range_is_not_attempted (fileName : String) (hunk : Hunk) (acc : Acc) :
    (∀ lints : List LintMessage,
        (∀ lint ∈ lints, ¬ (hunk.NewStartLine.toInt ≤ lint.Line
          ∧ lint.Line < hunk.NewStartLine.toInt + hunk.NewLines.toInt)) →
        hunkStep fileName lints acc hunk = acc
          ∧ (0 < hunk.NewLines.toInt →
              ∀ lint ∈ lints, attempt hunk (bodyLines hunk) lint = none))
      ∧ (hunk.NewLines.toInt = 0 →
          ∀ lints : List LintMessage, hunkStep fileName lints acc hunk = acc) := by
  have hatt : ∀ lint : LintMessage, 0 < hunk.NewLines.toInt →
      ¬ (hunk.NewStartLine.toInt ≤ lint.Line
        ∧ lint.Line < hunk.NewStartLine.toInt + hunk.NewLines.toInt) →
      attempt hunk (bodyLines hunk) lint = none := by
    intro lint hn hout
    unfold attempt
    rw [if_neg]
    rintro ⟨h1, h2⟩
    exact hout (range_test_sound _ _ _ hn h1 h2)
  constructor
  · intro lints hout
    constructor
    · unfold hunkStep
      split_ifs with hn
      · clear hatt
        have hatt' : ∀ lint ∈ lints, attempt hunk (bodyLines hunk) lint = none := by
          intro lint hl
          unfold attempt
          rw [if_neg]
          rintro ⟨h1, h2⟩
          exact hout lint hl (range_test_sound _ _ _ hn h1 h2)
        clear hout
        induction lints generalizing acc with
        | nil => rfl
        | cons lint rest ih =>
          rw [List.foldl_cons]
          have h0 : findingStep fileName hunk (bodyLines hunk) acc lint = acc := by
            unfold findingStep
            rw [hatt' lint (List.mem_cons_self _ _)]
          rw [h0]
          exact ih acc (fun x hx => hatt' x (List.mem_cons_of_mem _ hx))
      · rfl
    · intro hn lint hl
      exact hatt lint hn (hout lint hl)
  · intro h0 lints
    unfold hunkStep
    rw [if_neg (by omega)]

theorem out_of_range_is_not_attempted_witness :
    hunkStep "a.go" [farLint] emptyAcc demoHunk = emptyAcc :=
  ((out_of_range_is_not_attempted "a.go" demoHunk emptyAcc).1 [farLint]
    (by intro lint hl; simp at hl; subst hl; decide)).1

/-! ## Linter routing -/

theorem suffix_exclusive (name a b : String) (hab : ¬ a.data <:+ b.data)
    (hba : ¬ b.data <:+ a.data) (h : hasSuffix name a = true) : hasSuffix name b = false := by
  simp only [hasSuffix, decide_eq_true_eq] at h
  simp only [hasSuffix, decide_eq_false_iff_not]
  intro h2
  rcases List.suffix_or_suffix_of_suffix h h2 with h3 | h3
  · exact hab h3
  · exact hba h3

/-- The `if / else if` chain calls the primary linter of the specification,
and no other. -/
theorem primaryLint_eq (env : Env) (le : LintEnabled) (repoPath fileName : String) :
    primaryLint env le repoPath fileName
      = (lintEvents env repoPath fileName (primaryFor le fileName),
         passOutcome env repoPath fileName (primaryFor le fileName)) := by
  by_cases h_go : hasSuffix fileName ".go" = true
  · have k_php := suffix_exclusive fileName ".go" ".php" (by decide) (by decide) h_go
    have k_ts := suffix_exclusive fileName ".go" ".ts" (by decide) (by decide) h_go
    have k_tsx := suffix_exclusive fileName ".go" ".tsx" (by decide) (by decide) h_go
    have k_scss := suffix_exclusive fileName ".go" ".scss" (by decide) (by decide) h_go
    have k_css := suffix_exclusive fileName ".go" ".css" (by decide) (by decide) h_go
    have k_js := suffix_exclusive fileName ".go" ".js" (by decide) (by decide) h_go
    have k_es := suffix_exclusive fileName ".go" ".es" (by decide) (by decide) h_go
    have k_esx := suffix_exclusive fileName ".go" ".esx" (by decide) (by decide) h_go
    have k_jsx := suffix_exclusive fileName ".go" ".jsx" (by decide) (by decide) h_go
    simp only [primaryLint, primaryFor, h_go, k_php, k_ts, k_tsx, k_scss, k_css, k_js, k_es, k_esx, k_jsx, Bool.and_true, Bool.and_false,
      Bool.or_true, Bool.true_or, Bool.or_false, Bool.false_eq_true, if_false, if_true]
    split_ifs <;> simp_all [lintEvents, passOutcome, runLinter]
  · have n_go : hasSuffix fileName ".go" = false := by simpa using h_go
    by_cases h_php : hasSuffix fileName ".php" = true
    · have k_go := suffix_exclusive fileName ".php" ".go" (by decide) (by decide) h_php
      have k_ts := suffix_exclusive fileName ".php" ".ts" (by decide) (by decide) h_php
      have k_tsx := suffix_exclusive fileName ".php" ".tsx" (by decide) (by decide) h_php
      have k_scss := suffix_exclusive fileName ".php" ".scss" (by decide) (by decide) h_php
      have k_css := suffix_exclusive fileName ".php" ".css" (by decide) (by decide) h_php
      have k_js := suffix_exclusive fileName ".php" ".js" (by decide) (by decide) h_php
      have k_es := suffix_exclusive fileName ".php" ".es" (by decide) (by decide) h_php
      have k_esx := suffix_exclusive fileName ".php" ".esx" (by decide) (by decide) h_php
      have k_jsx := suffix_exclusive fileName ".php" ".jsx" (by decide) (by decide) h_php
      simp only [primaryLint, primaryFor, h_php, k_go, k_ts, k_tsx, k_scss, k_css, k_js, k_es, k_esx, k_jsx, Bool.and_true, Bool.and_false,
        Bool.or_true, Bool.true_or, Bool.or_false, Bool.false_eq_true, if_false, if_true]
      split_ifs <;> simp_all [lintEvents, passOutcome, runLinter]
    · have n_php : hasSuffix fileName ".php" = false := by simpa using h_php
      by_cases h_ts : hasSuffix fileName ".ts" = true
      · have k_go := suffix_exclusive fileName ".ts" ".go" (by decide) (by decide) h_ts
        have k_php := suffix_exclusive fileName ".ts" ".php" (by decide) (by decide) h_ts
        have k_scss := suffix_exclusive fileName ".ts" ".scss" (by decide) (by decide) h_ts
        have k_css := suffix_exclusive fileName ".ts" ".css" (by decide) (by decide) h_ts
        have k_js := suffix_exclusive fileName ".ts" ".js" (by decide) (by decide) h_ts
        have k_es := suffix_exclusive fileName ".ts" ".es" (by decide) (by decide) h_ts
        have k_esx := suffix_exclusive fileName ".ts" ".esx" (by decide) (by decide) h_ts
        have k_jsx := suffix_exclusive fileName ".ts" ".jsx" (by decide) (by decide) h_ts
        simp only [primaryLint, primaryFor, h_ts, k_go, k_php, k_scss, k_css, k_js, k_es, k_esx, k_jsx, Bool.and_true, Bool.and_false,
          Bool.or_true, Bool.true_or, Bool.or_false, Bool.false_eq_true, if_false, if_true]
        split_ifs <;> simp_all [lintEvents, passOutcome, runLinter]
      · have n_ts : hasSuffix fileName ".ts" = false := by simpa using h_ts
        by_cases h_tsx : hasSuffix fileName ".tsx" = true
        · have k_go := suffix_exclusive fileName ".tsx" ".go" (by decide) (by decide) h_tsx
          have k_php := suffix_exclusive fileName ".tsx" ".php" (by decide) (by decide) h_tsx
          have k_scss := suffix_exclusive fileName ".tsx" ".scss" (by decide) (by decide) h_tsx
          have k_css := suffix_exclusive fileName ".tsx" ".css" (by decide) (by decide) h_tsx
          have k_js := suffix_exclusive fileName ".tsx" ".js" (by decide) (by decide) h_tsx
          have k_es := suffix_exclusive fileName ".tsx" ".es" (by decide) (by decide) h_tsx
          have k_esx := suffix_exclusive fileName ".tsx" ".esx" (by decide) (by decide) h_tsx
          have k_jsx := suffix_exclusive fileName ".tsx" ".jsx" (by decide) (by decide) h_tsx
          simp only [primaryLint, primaryFor, h_tsx, k_go, k_php, k_scss, k_css, k_js, k_es, k_esx, k_jsx, Bool.and_true, Bool.and_false,
            Bool.or_true, Bool.true_or, Bool.or_false, Bool.false_eq_true, if_false, if_true]
          split_ifs <;> simp_all [lintEvents, passOutcome, runLinter]
        · have n_tsx : hasSuffix fileName ".tsx" = false := by simpa using h_tsx
          by_cases h_scss : hasSuffix fileName ".scss" = true
          · have k_go := suffix_exclusive fileName ".scss" ".go" (by decide) (by decide) h_scss
            have k_php := suffix_exclusive fileName ".scss" ".php" (by decide) (by decide) h_scss
            have k_ts := suffix_exclusive fileName ".scss" ".ts" (by decide) (by decide) h_scss
            have k_tsx := suffix_exclusive fileName ".scss" ".tsx" (by decide) (by decide) h_scss
            have k_js := suffix_exclusive fileName ".scss" ".js" (by decide) (by decide) h_scss
            have k_es := suffix_exclusive fileName ".scss" ".es" (by decide) (by decide) h_scss
            have k_esx := suffix_exclusive fileName ".scss" ".esx" (by decide) (by decide) h_scss
            have k_jsx := suffix_exclusive fileName ".scss" ".jsx" (by decide) (by decide) h_scss
            simp only [primaryLint, primaryFor, h_scss, k_go, k_php, k_ts, k_tsx, k_js, k_es, k_esx, k_jsx, Bool.and_true, Bool.and_false,
              Bool.or_true, Bool.true_or, Bool.or_false, Bool.false_eq_true, if_false, if_true]
            split_ifs <;> simp_all [lintEvents, passOutcome, runLinter]
          · have n_scss : hasSuffix fileName ".scss" = false := by simpa using h_scss
            by_cases h_css : hasSuffix fileName ".css" = true
            · have k_go := suffix_exclusive fileName ".css" ".go" (by decide) (by decide) h_css
              have k_php := suffix_exclusive fileName ".css" ".php" (by decide) (by decide) h_css
              have k_ts := suffix_exclusive fileName ".css" ".ts" (by decide) (by decide) h_css
              have k_tsx := suffix_exclusive fileName ".css" ".tsx" (by decide) (by decide) h_css
              have k_js := suffix_exclusive fileName ".css" ".js" (by decide) (by decide) h_css
              have k_es := suffix_exclusive fileName ".css" ".es" (by decide) (by decide) h_css
              have k_esx := suffix_exclusive fileName ".css" ".esx" (by decide) (by decide) h_css
              have k_jsx := suffix_exclusive fileName ".css" ".jsx" (by decide) (by decide) h_css
              simp only [primaryLint, primaryFor, h_css, k_go, k_php, k_ts, k_tsx, k_js, k_es, k_esx, k_jsx, Bool.and_true, Bool.and_false,
                Bool.or_true, Bool.true_or, Bool.or_false, Bool.false_eq_true, if_false, if_true]
              split_ifs <;> simp_all [lintEvents, passOutcome, runLinter]
            · have n_css : hasSuffix fileName ".css" = false := by simpa using h_css
              by_cases h_js : hasSuffix fileName ".js" = true
              · have k_go := suffix_exclusive fileName ".js" ".go" (by decide) (by decide) h_js
                have k_php := suffix_exclusive fileName ".js" ".php" (by decide) (by decide) h_js
                have k_ts := suffix_exclusive fileName ".js" ".ts" (by decide) (by decide) h_js
                have k_tsx := suffix_exclusive fileName ".js" ".tsx" (by decide) (by decide) h_js
                have k_scss := suffix_exclusive fileName ".js" ".scss" (by decide) (by decide) h_js
                have k_css := suffix_exclusive fileName ".js" ".css" (by decide) (by decide) h_js
                have k_es := suffix_exclusive fileName ".js" ".es" (by decide) (by decide) h_js
                have k_esx := suffix_exclusive fileName ".js" ".esx" (by decide) (by decide) h_js
                have k_jsx := suffix_exclusive fileName ".js" ".jsx" (by decide) (by decide) h_js
                simp only [primaryLint, primaryFor, h_js, k_go, k_php, k_ts, k_tsx, k_scss, k_css, k_es, k_esx, k_jsx, Bool.and_true, Bool.and_false,
                  Bool.or_true, Bool.true_or, Bool.or_false, Bool.false_eq_true, if_false, if_true]
                split_ifs <;> simp_all [lintEvents, passOutcome, runLinter]
              · have n_js : hasSuffix fileName ".js" = false := by simpa using h_js
                by_cases h_es : hasSuffix fileName ".es" = true
                · have k_go := suffix_exclusive fileName ".es" ".go" (by decide) (by decide) h_es
                  have k_php := suffix_exclusive fileName ".es" ".php" (by decide) (by decide) h_es
                  have k_ts := suffix_exclusive fileName ".es" ".ts" (by decide) (by decide) h_es
                  have k_tsx := suffix_exclusive fileName ".es" ".tsx" (by decide) (by decide) h_es
                  have k_scss := suffix_exclusive fileName ".es" ".scss" (by decide) (by decide) h_es
                  have k_css := suffix_exclusive fileName ".es" ".css" (by decide) (by decide) h_es
                  have k_js := suffix_exclusive fileName ".es" ".js" (by decide) (by decide) h_es
                  simp only [primaryLint, primaryFor, h_es, k_go, k_php, k_ts, k_tsx, k_scss, k_css, k_js, Bool.and_true, Bool.and_false,
                    Bool.or_true, Bool.true_or, Bool.or_false, Bool.false_eq_true, if_false, if_true]
                  split_ifs <;> simp_all [lintEvents, passOutcome, runLinter]
                · have n_es : hasSuffix fileName ".es" = false := by simpa using h_es
                  by_cases h_esx : hasSuffix fileName ".esx" = true
                  · have k_go := suffix_exclusive fileName ".esx" ".go" (by decide) (by decide) h_esx
                    have k_php := suffix_exclusive fileName ".esx" ".php" (by decide) (by decide) h_esx
                    have k_ts := suffix_exclusive fileName ".esx" ".ts" (by decide) (by decide) h_esx
                    have k_tsx := suffix_exclusive fileName ".esx" ".tsx" (by decide) (by decide) h_esx
                    have k_scss := suffix_exclusive fileName ".esx" ".scss" (by decide) (by decide) h_esx
                    have k_css := suffix_exclusive fileName ".esx" ".css" (by decide) (by decide) h_esx
                    have k_js := suffix_exclusive fileName ".esx" ".js" (by decide) (by decide) h_esx
                    simp only [primaryLint, primaryFor, h_esx, k_go, k_php, k_ts, k_tsx, k_scss, k_css, k_js, Bool.and_true, Bool.and_false,
                      Bool.or_true, Bool.true_or, Bool.or_false, Bool.false_eq_true, if_false, if_true]
                    split_ifs <;> simp_all [lintEvents, passOutcome, runLinter]
                  · have n_esx : hasSuffix fileName ".esx" = false := by simpa using h_esx
                    by_cases h_jsx : hasSuffix fileName ".jsx" = true
                    · have k_go := suffix_exclusive fileName ".jsx" ".go" (by decide) (by decide) h_jsx
                      have k_php := suffix_exclusive fileName ".jsx" ".php" (by decide) (by decide) h_jsx
                      have k_ts := suffix_exclusive fileName ".jsx" ".ts" (by decide) (by decide) h_jsx
                      have k_tsx := suffix_exclusive fileName ".jsx" ".tsx" (by decide) (by decide) h_jsx
                      have k_scss := suffix_exclusive fileName ".jsx" ".scss" (by decide) (by decide) h_jsx
                      have k_css := suffix_exclusive fileName ".jsx" ".css" (by decide) (by decide) h_jsx
                      have k_js := suffix_exclusive fileName ".jsx" ".js" (by decide) (by decide) h_jsx
                      simp only [primaryLint, primaryFor, h_jsx, k_go, k_php, k_ts, k_tsx, k_scss, k_css, k_js, Bool.and_true, Bool.and_false,
                        Bool.or_true, Bool.true_or, Bool.or_false, Bool.false_eq_true, if_false, if_true]
                      split_ifs <;> simp_all [lintEvents, passOutcome, runLinter]
                    · have n_jsx : hasSuffix fileName ".jsx" = false := by simpa using h_jsx
                      simp [primaryLint, primaryFor, n_go, n_php, n_ts, n_tsx, n_scss, n_css, n_js, n_es, n_esx, n_jsx, lintEvents, passOutcome]

/-- The file-level routing: the primary pass of the specification, then, unless
the primary pass failed, the additional pass. -/
theorem lintFile_eq (env : Env) (le : LintEnabled) (repoPath fileName : String) :
    lintFile env le repoPath fileName
      = match passOutcome env repoPath fileName (primaryFor le fileName) with
        | Except.error e =>
          (lintEvents env repoPath fileName (primaryFor le fileName), Except.error e)
        | Except.ok lints =>
          (lintEvents env repoPath fileName (primaryFor le fileName)
              ++ lintEvents env repoPath fileName (extraFor le fileName),
           match passOutcome env repoPath fileName (extraFor le fileName) with
           | Except.error e => Except.error e
           | Except.ok lints2 =>
             if (extraFor le fileName).isSome then Except.ok (mergeLints lints lints2)
             else Except.ok lints) := by
  unfold lintFile
  rw [primaryLint_eq]
  cases hp : passOutcome env repoPath fileName (primaryFor le fileName) with
  | error e => rfl
  | ok lints =>
    simp only
    by_cases hx : (le.JS != "" && (hasSuffix fileName ".html" || hasSuffix fileName ".php"))
        = true
    · have hxf : extraFor le fileName = some (Linter.ESLint le.JS) := by
        unfold extraFor; rw [if_pos hx]
      rw [if_pos hx, hxf]
      simp only [lintEvents, passOutcome, runLinter]
      cases env.ESLint (env.pathJoin repoPath fileName) repoPath le.JS <;> simp
    · have hxf : extraFor le fileName = none := by
        unfold extraFor; rw [if_neg hx]
      rw [if_neg hx, hxf]
      simp [lintEvents, passOutcome]

theorem mem_lintEvents (env : Env) (repoPath fileName : String) (linter : Option Linter)
    (ev : Event) (h : ev ∈ lintEvents env repoPath fileName linter) :
    ∃ l, linter = some l ∧ ev = Event.lint l (env.pathJoin repoPath fileName) repoPath
      ∧ lintResult env ev = some (passOutcome env repoPath fileName linter) := by
  cases linter with
  | none => simp [lintEvents] at h
  | some l =>
    simp only [lintEvents, List.mem_singleton] at h
    subst h
    exact ⟨l, rfl, rfl, rfl⟩

/-- Every call recorded for a file is a linter call, and a call that returned
an error is the error of the file. -/
theorem lintFile_events (env : Env) (le : LintEnabled) (repoPath fileName : String)
    (ev : Event) (h : ev ∈ (lintFile env le repoPath fileName).1) :
    (∃ l f p, ev = Event.lint l f p)
      ∧ ∀ e, lintResult env ev = some (Except.error e) →
          (lintFile env le repoPath fileName).2 = Except.error e := by
  rw [lintFile_eq] at h ⊢
  cases hp : passOutcome env repoPath fileName (primaryFor le fileName) with
  | error e0 =>
    rw [hp] at h
    obtain ⟨l, _, hev, hres⟩ := mem_lintEvents _ _ _ _ _ h
    refine ⟨⟨l, _, _, hev⟩, ?_⟩
    intro e he
    rw [hres, hp] at he
    simp only [Option.some.injEq, Except.error.injEq] at he
    simp [he]
  | ok lints =>
    rw [hp] at h
    simp only [List.mem_append] at h
    rcases h with h | h
    · obtain ⟨l, _, hev, hres⟩ := mem_lintEvents _ _ _ _ _ h
      refine ⟨⟨l, _, _, hev⟩, ?_⟩
      intro e he
      rw [hres, hp] at he
      simp at he
    · obtain ⟨l, _, hev, hres⟩ := mem_lintEvents _ _ _ _ _ h
      refine ⟨⟨l, _, _, hev⟩, ?_⟩
      intro e he
      rw [hres] at he
      simp only [Option.some.injEq] at he
      simp [he]

/-! ## Where the comments come from -/

theorem findingComments_anchor (fileName : String) (hunk : Hunk) (lines : List Line)
    (lint : LintMessage) (c : GithubRefComment)
    (h : c ∈ findingComments fileName hunk lines lint) :
    c.Path = fileName ∧ ∃ (i : Nat) (l : Line), lines.get? i = some l
      ∧ startsWith l '+' = true ∧ i < lines.length
      ∧ c.Position = hunk.StartPosition.toInt + (i : Int) := by
  unfold findingComments findingStep at h
  cases ha : attempt hunk lines lint with
  | none => rw [ha] at h; simp at h
  | some i =>
    rw [ha] at h
    simp only at h
    cases hl : lines.get? i with
    | none => rw [hl] at h; simp at h
    | some l =>
      rw [hl] at h
      by_cases hp : startsWith l '+' = true
      · simp only [hp, if_true, List.nil_append, List.mem_singleton] at h
        subst h
        refine ⟨rfl, i, l, hl, hp, ?_, rfl⟩
        by_contra hlen
        rw [List.get?_eq_none.mpr (by omega)] at hl
        exact Option.noConfusion hl
      · simp [hp] at h

theorem fileComments_anchor (fileName : String) (hunks : List Hunk)
    (lints : Option (List LintMessage)) (c : GithubRefComment)
    (h : c ∈ fileComments fileName hunks lints) :
    c.Path = fileName ∧ ∃ hunk ∈ hunks, ∃ (i : Nat) (l : Line),
      (bodyLines hunk).get? i = some l ∧ startsWith l '+' = true
        ∧ i < (bodyLines hunk).length
        ∧ c.Position = hunk.StartPosition.toInt + (i : Int) := by
  cases lints with
  | none => simp [fileComments] at h
  | some ls =>
    simp only [fileComments, List.mem_flatMap] at h
    obtain ⟨hunk, hmem, hc⟩ := h
    unfold hunkComments at hc
    split_ifs at hc
    · simp only [List.mem_flatMap] at hc
      obtain ⟨lint, _, hc⟩ := hc
      obtain ⟨hpath, i, l, h1, h2, h3, h4⟩ := findingComments_anchor _ _ _ _ _ hc
      exact ⟨hpath, hunk, hmem, i, l, h1, h2, h3, h4⟩
    · simp at hc

theorem Anchored.tail (d : FileDiff) (ds : List FileDiff) (c : GithubRefComment)
    (h : Anchored ds c) : Anchored (d :: ds) c := by
  obtain ⟨d', hd', rest⟩ := h
  exact ⟨d', List.mem_cons_of_mem _ hd', rest⟩

/-- The loop over the changed files: every recorded call is a linter call, a
call that returned an error is the error of the loop, and when the loop ends
without an error the accumulators have grown by comments anchored in the
diff, the counter by their number. -/
theorem lintLoop_spec (env : Env) (le : LintEnabled) (repoPath : String) :
    ∀ (diffs : List FileDiff) (acc : Acc),
      (∀ ev ∈ (lintLoop env le repoPath diffs acc).1,
          (∃ l f p, ev = Event.lint l f p)
            ∧ ∀ e, lintResult env ev = some (Except.error e) →
                (lintLoop env le repoPath diffs acc).2 = Except.error e)
        ∧ (∀ acc', (lintLoop env le repoPath diffs acc).2 = Except.ok acc' →
            ∃ added : List GithubRefComment,
              acc' = { comments := acc.comments ++ added,
                       problems := acc.problems + added.length }
                ∧ ∀ c ∈ added, Anchored diffs c) := by
  intro diffs
  induction diffs with
  | nil =>
    intro acc
    refine ⟨by simp [lintLoop], ?_⟩
    intro acc' h
    simp only [lintLoop, Except.ok.injEq] at h
    subst h
    exact ⟨[], by simp, by simp⟩
  | cons d ds ih =>
    intro acc
    rw [lintLoop]
    by_cases hpre : hasPrefix d.NewName "b/" = true
    · rw [if_pos hpre]
      have hfile := lintFile_events env le repoPath (sliceFrom d.NewName 2)
      rcases hlf : lintFile env le repoPath (sliceFrom d.NewName 2) with ⟨evs, e | lints⟩
      · rw [hlf] at hfile
        simp only [hlf]
        refine ⟨fun ev hev => ⟨(hfile ev hev).1, fun e1 he => ?_⟩, ?_⟩
        · have hee := (hfile ev hev).2 e1 he
          simp only [Except.error.injEq] at hee
          rw [hee]
        · intro acc' h
          exact Except.noConfusion h
      · rw [hlf] at hfile
        simp only [hlf]
        obtain ⟨ih1, ih2⟩ := ih (fileStep (sliceFrom d.NewName 2) d.Hunks lints acc)
        constructor
        · intro ev hev
          rcases List.mem_append.mp hev with hev | hev
          · refine ⟨(hfile ev hev).1, ?_⟩
            intro e he
            exact Except.noConfusion ((hfile ev hev).2 e he)
          · exact ih1 ev hev
        · intro acc' h
          obtain ⟨added, hacc, hanch⟩ := ih2 acc' h
          refine ⟨fileComments (sliceFrom d.NewName 2) d.Hunks lints ++ added, ?_, ?_⟩
          · rw [hacc, fileStep_eq]
            simp [Nat.add_assoc]
          · intro c hc
            rcases List.mem_append.mp hc with hc | hc
            · obtain ⟨hpath, hunk, hmem, i, l, h1, h2, h3, h4⟩ :=
                fileComments_anchor _ _ _ _ hc
              exact ⟨d, List.mem_cons_self _ _, hunk, hmem, i, l, h1, h2, h3, h4, hpath⟩
            · exact Anchored.tail _ _ _ (hanch c hc)
    · rw [if_neg hpre]
      obtain ⟨ih1, ih2⟩ := ih acc
      refine ⟨ih1, ?_⟩
      intro acc' h
      obtain ⟨added, hacc, hanch⟩ := ih2 acc' h
      exact ⟨added, hacc, fun c hc => Anchored.tail _ _ _ (hanch c hc)⟩

/-! ## The steps before linting -/

/-- The event of the pending update of line 59. -/
theorem fetchStage_spec (env : Env) (message : String) :
    (∀ r, fetchStage env message = Fetched.done r →
        r.events = [] ∨ ∃ ref url, r.events = [Event.updateState ref "lint" "pending" url "checking"])
      ∧ (∀ evs st, fetchStage env message = Fetched.ready evs st →
          evs = [Event.updateState st.ref "lint" "pending" st.targetURL "checking"]
            ∧ ∃ out, env.ParseMultiFileDiff out = Except.ok st.diffs) := by
  constructor
  · intro r h
    unfold fetchStage at h
    simp only at h
    repeat' split at h
    all_goals first
      | (simp only [Fetched.done.injEq] at h; subst h; simp)
      | exact Fetched.noConfusion h
  · intro evs st h
    unfold fetchStage at h
    simp only at h
    repeat' split at h
    all_goals first
      | exact Fetched.noConfusion h
      | (simp only [Fetched.ready.injEq] at h
         obtain ⟨h1, h2⟩ := h
         subst h1 h2
         exact ⟨rfl, _, by assumption⟩)

/-! ## `HandleMessage` as a whole -/

theorem lintStage_eq (env : Env) (st : Stage) :
    lintStage env st
      = match lintLoop env (LintEnabled.Init env zeroLintEnabled st.repoPath) st.repoPath
            st.diffs emptyAcc with
        | (levs, Except.error e) => { events := levs, err := some e }
        | (levs, Except.ok acc) =>
          { events := levs ++ (report env st.ref st.pull st.targetURL acc).events,
            err := (report env st.ref st.pull st.targetURL acc).err } := rfl

theorem HandleMessage_ready (env : Env) (message : String) (evs : List Event) (st : Stage)
    (h : fetchStage env message = Fetched.ready evs st) :
    HandleMessage env message
      = { events := evs ++ (lintStage env st).events, err := (lintStage env st).err } := by
  unfold HandleMessage
  rw [h]

theorem report_events (env : Env) (ref : GithubRef) (pull targetURL : String) (acc : Acc) :
    (report env ref pull targetURL acc).events
      = if acc.problems > 0 then
          [Event.createReview ref pull "REQUEST_CHANGES"
            ("**lint**: " ++ toString acc.problems ++ " problem(s) found.") acc.comments,
           Event.updateState ref "lint" "error" targetURL
            ("The lint check failed! " ++ toString acc.problems ++ " problem(s) found.")]
        else [Event.updateState ref "lint" "success" targetURL "The lint check succeed!"] := by
  unfold report
  split_ifs <;> rfl

/-- C3: every comment of a review that `HandleMessage` submits is anchored in
the parsed diff: its position is the start position of a hunk plus an index
`i` below the number of body lines of that hunk, at which the body line is
non-empty and begins with `+`. -/
theorem review_comments_are_on_added_lines (env : Env) (message : String) (ref : GithubRef)
    (pull event body : String) (comments : List GithubRefComment) (c : GithubRefComment)
    (hev : Event.createReview ref pull event body comments ∈ (HandleMessage env message).events)
    (hc : c ∈ comments) :
    ∃ out diffs, env.ParseMultiFileDiff out = Except.ok diffs ∧ Anchored diffs c := by
  obtain ⟨hdone, hready⟩ := fetchStage_spec env message
  cases hf : fetchStage env message with
  | done r =>
    have hr : HandleMessage env message = r := by unfold HandleMessage; rw [hf]
    rw [hr] at hev
    rcases hdone r hf with h | ⟨ref', url, h⟩
    · rw [h] at hev; simp at hev
    · rw [h] at hev; simp at hev
  | ready evs st =>
    obtain ⟨hevs, out, hout⟩ := hready evs st hf
    refine ⟨out, st.diffs, hout, ?_⟩
    rw [HandleMessage_ready env message evs st hf, lintStage_eq] at hev
    obtain ⟨hloop1, hloop2⟩ :=
      lintLoop_spec env (LintEnabled.Init env zeroLintEnabled st.repoPath) st.repoPath
        st.diffs emptyAcc
    rcases hl : lintLoop env (LintEnabled.Init env zeroLintEnabled st.repoPath) st.repoPath
        st.diffs emptyAcc with ⟨levs, e | acc⟩
    · rw [hl] at hev hloop1
      simp only [hevs, List.mem_append, List.mem_singleton] at hev
      rcases hev with hev | hev
      · exact Event.noConfusion hev
      · obtain ⟨⟨l, f, p, hlint⟩, _⟩ := hloop1 _ hev
        exact Event.noConfusion hlint
    · rw [hl] at hev hloop1 hloop2
      obtain ⟨added, hacc, hanch⟩ := hloop2 acc rfl
      simp only [hevs, List.mem_append, List.mem_singleton, report_events] at hev
      rcases hev with hev | hev | hev
      · exact Event.noConfusion hev
      · obtain ⟨⟨l, f, p, hlint⟩, _⟩ := hloop1 _ hev
        exact Event.noConfusion hlint
      · split_ifs at hev
        · simp only [List.mem_cons, Event.createReview.injEq, List.mem_singleton,
            List.not_mem_nil, or_false] at hev
          rcases hev with ⟨_, _, _, _, hcs⟩ | hev
          · subst hcs
            rw [hacc] at hc
            simp only [emptyAcc, List.nil_append] at hc
            exact hanch c hc
          · exact Event.noConfusion hev
        · simp at hev

theorem review_comments_are_on_added_lines_witness :
    ∃ out diffs,
      (demoEnv oneFileDiff goLintFinds phpLintClean false).ParseMultiFileDiff out
          = Except.ok diffs
        ∧ Anchored diffs { Path := "a.go", Position := 7, Body := "`golint` 10:3 unused" } :=
  review_comments_are_on_added_lines (demoEnv oneFileDiff goLintFinds phpLintClean false)
    demoMessage demoRef "7" "REQUEST_CHANGES" "**lint**: 1 problem(s) found."
    [{ Path := "a.go", Position := 7, Body := "`golint` 10:3 unused" }]
    { Path := "a.go", Position := 7, Body := "`golint` 10:3 unused" }
    (by decide) (by decide)

/-- C5: once every file is linted without an error, the verdict follows the
problem count: with 0 problems the only report is the state `success` with
the message `The lint check succeed!` and no review; with N > 0 problems one
review with the event `REQUEST_CHANGES`, the summary
`**lint**: N problem(s) found.` and every produced comment is submitted,
followed by the state `error` with the message
`The lint check failed! N problem(s) found.`; nothing before them is a
review or a final state. -/
theorem verdict_follows_problem_count (env : Env) (message : String) (evs levs : List Event)
    (st : Stage) (acc : Acc)
    (hf : fetchStage env message = Fetched.ready evs st)
    (hl : lintLoop env (LintEnabled.Init env zeroLintEnabled st.repoPath) st.repoPath
        st.diffs emptyAcc = (levs, Except.ok acc)) :
    (∀ ev ∈ evs ++ levs, isFinalReport ev = false)
      ∧ (acc.problems = 0 →
          (HandleMessage env message).events
            = evs ++ levs
              ++ [Event.updateState st.ref "lint" "success" st.targetURL
                    "The lint check succeed!"])
      ∧ (0 < acc.problems →
          (HandleMessage env message).events
            = evs ++ levs
              ++ [Event.createReview st.ref st.pull "REQUEST_CHANGES"
                    ("**lint**: " ++ toString acc.problems ++ " problem(s) found.")
                    acc.comments,
                  Event.updateState st.ref "lint" "error" st.targetURL
                    ("The lint check failed! " ++ toString acc.problems
                      ++ " problem(s) found.")]) := by
  obtain ⟨hevs, _⟩ := (fetchStage_spec env message).2 evs st hf
  have hloop := (lintLoop_spec env (LintEnabled.Init env zeroLintEnabled st.repoPath)
    st.repoPath st.diffs emptyAcc).1
  rw [hl] at hloop
  have hevents : (HandleMessage env message).events
      = evs ++ levs ++ (report env st.ref st.pull st.targetURL acc).events := by
    rw [HandleMessage_ready env message evs st hf, lintStage_eq, hl]
    simp
  refine ⟨?_, ?_, ?_⟩
  · intro ev hev
    rcases List.mem_append.mp hev with hev | hev
    · rw [hevs] at hev
      simp only [List.mem_singleton] at hev
      subst hev
      rfl
    · obtain ⟨⟨l, f, p, hlint⟩, _⟩ := hloop ev hev
      subst hlint
      rfl
  · intro h0
    rw [hevents, report_events, if_neg (by omega)]
  · intro hpos
    rw [hevents, report_events, if_pos hpos]

theorem verdict_follows_problem_count_witness :
    (HandleMessage (demoEnv oneFileDiff goLintFinds phpLintClean false) demoMessage).events
      = [Event.updateState demoRef "lint" "pending" "" "checking"]
        ++ [Event.lint Linter.GoLint "work/o/r/a.go" "work/o/r"]
        ++ [Event.createReview demoRef "7" "REQUEST_CHANGES" "**lint**: 1 problem(s) found."
              [{ Path := "a.go", Position := 7, Body := "`golint` 10:3 unused" }],
            Event.updateState demoRef "lint" "error" ""
              "The lint check failed! 1 problem(s) found."] :=
  (verdict_follows_problem_count (demoEnv oneFileDiff goLintFinds phpLintClean false)
    demoMessage [Event.updateState demoRef "lint" "pending" "" "checking"]
    [Event.lint Linter.GoLint "work/o/r/a.go" "work/o/r"]
    { ref := demoRef, pull := "7", targetURL := "", repoPath := "work/o/r",
      diffs := oneFileDiff }
    { comments := [{ Path := "a.go", Position := 7, Body := "`golint` 10:3 unused" }],
      problems := 1 }
    (by rfl) (by rfl)).2.2 (by decide)

/-- C6: when a linter call recorded in a run of `HandleMessage` returned an
error, `HandleMessage` returns that error, and the run holds no review and
no state of the `lint` check other than `pending`. -/
theorem linter_error_is_returned (env : Env) (message : String) (ev : Event) (e : Error)
    (hev : ev ∈ (HandleMessage env message).events)
    (herr : lintResult env ev = some (Except.error e)) :
    (HandleMessage env message).err = some e
      ∧ ∀ ev' ∈ (HandleMessage env message).events, isFinalReport ev' = false := by
  obtain ⟨hdone, hready⟩ := fetchStage_spec env message
  cases hf : fetchStage env message with
  | done r =>
    have hr : HandleMessage env message = r := by unfold HandleMessage; rw [hf]
    rw [hr] at hev
    rcases hdone r hf with h | ⟨ref', url, h⟩
    · rw [h] at hev; simp at hev
    · rw [h] at hev
      simp only [List.mem_singleton] at hev
      subst hev
      simp [lintResult] at herr
  | ready evs st =>
    obtain ⟨hevs, _⟩ := hready evs st hf
    have hloop := (lintLoop_spec env (LintEnabled.Init env zeroLintEnabled st.repoPath)
      st.repoPath st.diffs emptyAcc).1
    rw [HandleMessage_ready env message evs st hf, lintStage_eq] at hev ⊢
    rcases hl : lintLoop env (LintEnabled.Init env zeroLintEnabled st.repoPath) st.repoPath
        st.diffs emptyAcc with ⟨levs, e0 | acc⟩
    · rw [hl] at hev hloop
      simp only [hevs, List.mem_append, List.mem_singleton] at hev
      rcases hev with hev | hev
      · subst hev; simp [lintResult] at herr
      · have hee := (hloop ev hev).2 e herr
        simp only [Except.error.injEq] at hee
        subst hee
        refine ⟨rfl, ?_⟩
        intro ev' hev'
        simp only [hevs, List.mem_append, List.mem_singleton] at hev'
        rcases hev' with hev' | hev'
        · subst hev'; rfl
        · obtain ⟨⟨l, f, p, hlint⟩, _⟩ := hloop ev' hev'
          subst hlint
          rfl
    · rw [hl] at hev hloop
      simp only [hevs, List.mem_append, List.mem_singleton, report_events] at hev
      rcases hev with hev | hev | hev
      · subst hev; simp [lintResult] at herr
      · exact Except.noConfusion ((hloop ev hev).2 e herr)
      · split_ifs at hev
        · simp only [List.mem_cons, List.mem_singleton, List.not_mem_nil, or_false] at hev
          rcases hev with hev | hev <;> (subst hev; simp [lintResult] at herr)
        · simp only [List.mem_singleton] at hev
          subst hev; simp [lintResult] at herr

theorem linter_error_is_returned_witness :
    (HandleMessage (demoEnv twoFileDiff goLintFailsOnA phpLintClean false) demoMessage).err
        = some "exec: golint: not found"
      ∧ ∀ ev' ∈ (HandleMessage (demoEnv twoFileDiff goLintFailsOnA phpLintClean false)
          demoMessage).events, isFinalReport ev' = false :=
  linter_error_is_returned (demoEnv twoFileDiff goLintFailsOnA phpLintClean false) demoMessage
    (Event.lint Linter.GoLint "work/o/r/a.go" "work/o/r") "exec: golint: not found"
    (by decide) (by rfl)

/-! ## A failing linter -/

theorem lintLoop_stops_at_error (env : Env) (le : LintEnabled) (repoPath : String)
    (d : FileDiff) (post : List FileDiff) (e : Error)
    (hd : hasPrefix d.NewName "b/" = true)
    (hfail : (lintFile env le repoPath (sliceFrom d.NewName 2)).2 = Except.error e) :
    ∀ (pre : List FileDiff) (acc : Acc),
      lintLoop env le repoPath (pre ++ d :: post) acc = lintLoop env le repoPath (pre ++ [d]) acc
        ∧ ∃ e', (lintLoop env le repoPath (pre ++ d :: post) acc).2 = Except.error e' := by
  intro pre
  induction pre with
  | nil =>
    intro acc
    rcases hlf : lintFile env le repoPath (sliceFrom d.NewName 2) with ⟨evs, e0 | lints⟩
    · simp [lintLoop, hd, hlf]
    · rw [hlf] at hfail
      exact Except.noConfusion hfail
  | cons p pre ih =>
    intro acc
    simp only [List.cons_append]
    rw [lintLoop, lintLoop]
    by_cases hp : hasPrefix p.NewName "b/" = true
    · rw [if_pos hp, if_pos hp]
      rcases hlf : lintFile env le repoPath (sliceFrom p.NewName 2) with ⟨evs, e0 | lints⟩
      · simp [hlf]
      · obtain ⟨h1, e', h2⟩ := ih (fileStep (sliceFrom p.NewName 2) p.Hunks lints acc)
        simp only [hlf]
        rw [h1]
        exact ⟨rfl, e', by rw [← h1]; exact h2⟩
    · rw [if_neg hp, if_neg hp]
      exact ih acc

/-- C7 (counterexample): in the diff of `a.go` and `z.go` the Go linter fails on
`a.go` and would report a finding on the added line of `z.go`, which alone
yields a comment; `HandleMessage` returns the error after the call on `a.go`:
`z.go` is not linted and nothing is reported. -/
theorem files_after_a_failed_file_are_not_linted :
    goLintFailsOnA "work/o/r/z.go" "work/o/r" = Except.ok (some [demoLint])
      ∧ fileStep "z.go" [demoHunk] (some [demoLint]) emptyAcc
          = { comments := [{ Path := "z.go", Position := 7, Body := "`golint` 10:3 unused" }],
              problems := 1 }
      ∧ HandleMessage (demoEnv twoFileDiff goLintFailsOnA phpLintClean false) demoMessage
          = { events := [Event.updateState demoRef "lint" "pending" "" "checking",
                         Event.lint Linter.GoLint "work/o/r/a.go" "work/o/r"],
              err := some "exec: golint: not found" }
      ∧ Event.lint Linter.GoLint "work/o/r/z.go" "work/o/r"
          ∉ (HandleMessage (demoEnv twoFileDiff goLintFailsOnA phpLintClean false)
              demoMessage).events :=
  ⟨rfl, by decide, by decide, by decide⟩

/-- C7 (amended): a linter error on one changed file aborts the whole run: the
files after it are neither linted nor mapped (the run is the same as if the
diff ended with the failing file), the run ends with an error, and no review
or final state is reported. -/
theorem dispatch_error_aborts_the_run (env : Env) (st : Stage) (pre post : List FileDiff)
    (d : FileDiff) (e : Error)
    (hdiffs : st.diffs = pre ++ d :: post)
    (hd : hasPrefix d.NewName "b/" = true)
    (hfail : (lintFile env (LintEnabled.Init env zeroLintEnabled st.repoPath) st.repoPath
        (sliceFrom d.NewName 2)).2 = Except.error e) :
    lintStage env st = lintStage env { st with diffs := pre ++ [d] }
      ∧ (∃ e', (lintStage env st).err = some e')
      ∧ ∀ ev ∈ (lintStage env st).events, isFinalReport ev = false := by
  obtain ⟨h1, e', h2⟩ := lintLoop_stops_at_error env _ st.repoPath d post e hd hfail pre emptyAcc
  have hloop := (lintLoop_spec env (LintEnabled.Init env zeroLintEnabled st.repoPath)
    st.repoPath st.diffs emptyAcc).1
  rw [lintStage_eq, lintStage_eq]
  simp only [hdiffs] at hloop ⊢
  rw [← h1]
  rcases hl : lintLoop env (LintEnabled.Init env zeroLintEnabled st.repoPath) st.repoPath
      (pre ++ d :: post) emptyAcc with ⟨levs, e0 | acc⟩
  · rw [hl] at hloop
    refine ⟨rfl, ⟨e0, rfl⟩, ?_⟩
    intro ev hev
    obtain ⟨⟨l, f, p, hlint⟩, _⟩ := hloop ev hev
    subst hlint
    rfl
  · rw [hl] at h2
    exact Except.noConfusion h2

theorem dispatch_error_aborts_the_run_witness :
    lintStage (demoEnv twoFileDiff goLintFailsOnA phpLintClean false) twoFileStage
        = lintStage (demoEnv twoFileDiff goLintFailsOnA phpLintClean false)
            { twoFileStage with diffs := [] ++ [{ NewName := "b/a.go", Hunks := [demoHunk] }] }
      ∧ (∃ e', (lintStage (demoEnv twoFileDiff goLintFailsOnA phpLintClean false)
            twoFileStage).err = some e')
      ∧ ∀ ev ∈ (lintStage (demoEnv twoFileDiff goLintFailsOnA phpLintClean false)
            twoFileStage).events, isFinalReport ev = false :=
  dispatch_error_aborts_the_run (demoEnv twoFileDiff goLintFailsOnA phpLintClean false)
    twoFileStage [] [{ NewName := "b/z.go", Hunks := [demoHunk] }]
    { NewName := "b/a.go", Hunks := [demoHunk] } "exec: golint: not found"
    rfl (by decide) (by rfl)

/-! ## Routing -/

/-- C8 (counterexample): with the JS configuration set, a changed file `x.php`
whose PHP lint fails gets no ESLint pass: the only linter call is the PHP
linter and `HandleMessage` returns its error. -/
theorem eslint_pass_is_skipped_when_the_primary_pass_fails :
    (LintEnabled.Init (demoEnv phpFileDiff goLintClean phpLintFails true) zeroLintEnabled
        "work/o/r").JS = "work/o/r/.eslintrc.js"
      ∧ hasSuffix "x.php" ".php" = true
      ∧ HandleMessage (demoEnv phpFileDiff goLintClean phpLintFails true) demoMessage
          = { events := [Event.updateState demoRef "lint" "pending" "" "checking",
                         Event.lint Linter.PHPLint "work/o/r/x.php" "work/o/r"],
              err := some "exit status 255" }
      ∧ Event.lint (Linter.ESLint "work/o/r/.eslintrc.js") "work/o/r/x.php" "work/o/r"
          ∉ (HandleMessage (demoEnv phpFileDiff goLintClean phpLintFails true)
              demoMessage).events :=
  ⟨by decide, by decide, by decide, by decide⟩

/-- C8 (amended): for a changed file at most one primary linter is called, the
one of the specification (`primaryFor`: chosen by suffix, only if enabled).
If the primary pass fails, its error is the outcome of the file and no other
linter is called.  Otherwise the additional pass of the specification
(`extraFor`: ESLint with the JS configuration for `.html` and `.php` files
when that configuration is set) is called after it; an error of that pass is
the outcome of the file, and otherwise the findings of the file are the
primary findings followed by those of the additional pass. -/
theorem routing_of_a_changed_file (env : Env) (le : LintEnabled) (repoPath fileName : String) :
    (lintEvents env repoPath fileName (primaryFor le fileName)).length ≤ 1
      ∧ (∀ e, passOutcome env repoPath fileName (primaryFor le fileName) = Except.error e →
          lintFile env le repoPath fileName
            = (lintEvents env repoPath fileName (primaryFor le fileName), Except.error e))
      ∧ (∀ lints, passOutcome env repoPath fileName (primaryFor le fileName) = Except.ok lints →
          (lintFile env le repoPath fileName).1
              = lintEvents env repoPath fileName (primaryFor le fileName)
                ++ lintEvents env repoPath fileName (extraFor le fileName)
            ∧ (∀ e, passOutcome env repoPath fileName (extraFor le fileName) = Except.error e →
                (lintFile env le repoPath fileName).2 = Except.error e)
            ∧ (∀ lints2,
                passOutcome env repoPath fileName (extraFor le fileName) = Except.ok lints2 →
                ∃ ls, (lintFile env le repoPath fileName).2 = Except.ok ls
                  ∧ ls.getD [] = lints.getD [] ++ lints2.getD [])) := by
  refine ⟨?_, ?_, ?_⟩
  · cases primaryFor le fileName <;> simp [lintEvents]
  · intro e he
    rw [lintFile_eq, he]
  · intro lints hl
    rw [lintFile_eq, hl]
    refine ⟨rfl, ?_, ?_⟩
    · intro e he
      simp only [he]
    · intro lints2 hl2
      simp only [hl2]
      cases hx : extraFor le fileName with
      | none =>
        rw [hx] at hl2
        simp only [passOutcome, Except.ok.injEq] at hl2
        subst hl2
        exact ⟨lints, by simp, by simp⟩
      | some l =>
        refine ⟨mergeLints lints lints2, by simp, ?_⟩
        cases lints <;> cases lints2 <;> simp [mergeLints]

theorem routing_of_a_changed_file_witness :
    (lintFile (demoEnv phpFileDiff goLintClean phpLintClean true)
        (LintEnabled.Init (demoEnv phpFileDiff goLintClean phpLintClean true) zeroLintEnabled
          "work/o/r") "work/o/r" "x.php").1
      = lintEvents (demoEnv phpFileDiff goLintClean phpLintClean true) "work/o/r" "x.php"
          (some Linter.PHPLint)
        ++ lintEvents (demoEnv phpFileDiff goLintClean phpLintClean true) "work/o/r" "x.php"
          (some (Linter.ESLint "work/o/r/.eslintrc.js")) :=
  ((routing_of_a_changed_file (demoEnv phpFileDiff goLintClean phpLintClean true)
    (LintEnabled.Init (demoEnv phpFileDiff goLintClean phpLintClean true) zeroLintEnabled
      "work/o/r") "work/o/r" "x.php").2.2 (some []) (by rfl)).1

/-! ## The command loop of the test runner -/

theorem concatAll_append (xs ys : List String) :
    concatAll (xs ++ ys) = concatAll xs ++ concatAll ys := by
  induction xs with
  | nil => simp [concatAll]
  | cons x xs ih => simp [concatAll, ih, String.append_assoc]

theorem mem_uptoFirstError (x : Executed) :
    ∀ xs : List Executed, x ∈ uptoFirstError xs → x ∈ xs := by
  intro xs
  induction xs with
  | nil => intro h; simp [uptoFirstError] at h
  | cons y ys ih =>
    intro h
    unfold uptoFirstError at h
    split_ifs at h
    · simp only [List.mem_singleton] at h
      subst h
      exact List.mem_cons_self _ _
    · rcases List.mem_cons.mp h with h | h
      · subst h; exact List.mem_cons_self _ _
      · exact List.mem_cons_of_mem _ (ih h)

theorem carry_eq_commandResult {σ : Type} (env : TestEnv σ) (m : σ) (repoPath cmd : String) :
    carry env m repoPath cmd = commandResult env m repoPath cmd := by
  unfold carry commandResult
  cases env.parse cmd with
  | error e => rfl
  | ok words =>
    cases words with
    | nil => rfl
    | cons w ws => simp

theorem mem_runEach {σ : Type} (env : TestEnv σ) (repoPath : String) (x : Executed) :
    ∀ (cmds : List String) (m : σ), x ∈ runEach env repoPath m cmds →
      x.cmd ∈ cmds ∧ ∃ m', x.out = (commandResult env m' repoPath x.cmd).1.1
        ∧ x.err = (commandResult env m' repoPath x.cmd).1.2 := by
  intro cmds
  induction cmds with
  | nil => intro m h; simp [runEach] at h
  | cons cmd rest ih =>
    intro m h
    simp only [runEach, List.mem_cons] at h
    rcases h with h | h
    · subst h
      exact ⟨List.mem_cons_self _ _, m, rfl, rfl⟩
    · obtain ⟨h1, h2⟩ := ih _ h
      exact ⟨List.mem_cons_of_mem _ h1, h2⟩

theorem map_cmd_runEach {σ : Type} (env : TestEnv σ) (repoPath : String) :
    ∀ (cmds : List String) (m : σ),
      (runEach env repoPath m cmds).map (fun x => x.cmd) = cmds := by
  intro cmds
  induction cmds with
  | nil => intro m; rfl
  | cons cmd rest ih => intro m; simp [runEach, ih]

/-- A run of a list of commands begins with the run of every prefix of it. -/
theorem runEach_append {σ : Type} (env : TestEnv σ) (repoPath : String) :
    ∀ (xs : List String) (m : σ) (ys : List String),
      ∃ m', runEach env repoPath m (xs ++ ys)
        = runEach env repoPath m xs ++ runEach env repoPath m' ys := by
  intro xs
  induction xs with
  | nil => intro m ys; exact ⟨m, rfl⟩
  | cons x rest ih =>
    intro m ys
    obtain ⟨m', h⟩ := ih (commandResult env m repoPath x).2 ys
    refine ⟨m', ?_⟩
    simp only [List.cons_append, runEach, List.append_eq, h]

theorem mem_expectedRuns {σ : Type} (env : TestEnv σ) (repoPath : String) (b : Bool) (m : σ)
    (cmds : List String) (x : Executed) (h : x ∈ expectedRuns env repoPath b m cmds) :
    x ∈ runEach env repoPath m (nonEmptyCmds cmds) := by
  unfold expectedRuns at h
  split_ifs at h
  · exact mem_uptoFirstError x _ h
  · exact h

theorem err_ne_none_of_isSome (x : Executed) (h : x.err.isSome = true) : x.err ≠ none := by
  intro hn
  rw [hn] at h
  exact Bool.noConfusion h

theorem err_eq_none_of_not_isSome (x : Executed) (h : ¬ x.err.isSome = true) : x.err = none := by
  cases hx : x.err with
  | none => rfl
  | some e =>
    rw [hx] at h
    exact absurd rfl h

theorem any_err_iff (xs : List Executed) :
    xs.any (fun x => x.err.isSome) = true ↔ ∃ x ∈ xs, x.err ≠ none := by
  rw [List.any_eq_true]
  constructor
  · rintro ⟨x, hx, hsome⟩
    exact ⟨x, hx, err_ne_none_of_isSome x hsome⟩
  · rintro ⟨x, hx, hne⟩
    refine ⟨x, hx, ?_⟩
    by_contra hno
    exact hne (err_eq_none_of_not_isSome x hno)

/-- Cutting a run after its first error loses no error. -/
theorem exists_err_uptoFirstError :
    ∀ xs : List Executed,
      (∃ x ∈ uptoFirstError xs, x.err ≠ none) ↔ ∃ x ∈ xs, x.err ≠ none := by
  intro xs
  induction xs with
  | nil => simp [uptoFirstError]
  | cons y ys ih =>
    unfold uptoFirstError
    by_cases hy : y.err.isSome = true
    · rw [if_pos hy]
      have hne : y.err ≠ none := err_ne_none_of_isSome y hy
      exact ⟨fun _ => ⟨y, List.mem_cons_self _ _, hne⟩,
        fun _ => ⟨y, List.mem_singleton.mpr rfl, hne⟩⟩
    · rw [if_neg hy]
      have hnone : y.err = none := err_eq_none_of_not_isSome y hy
      constructor
      · rintro ⟨x, hx, hxe⟩
        rcases List.mem_cons.mp hx with h | hx
        · rw [h] at hxe
          exact absurd hnone hxe
        · obtain ⟨x', hx', hxe'⟩ := ih.mp ⟨x, hx, hxe⟩
          exact ⟨x', List.mem_cons_of_mem _ hx', hxe'⟩
      · rintro ⟨x, hx, hxe⟩
        rcases List.mem_cons.mp hx with h | hx
        · rw [h] at hxe
          exact absurd hnone hxe
        · obtain ⟨x', hx', hxe'⟩ := ih.mpr ⟨x, hx, hxe⟩
          exact ⟨x', List.mem_cons_of_mem _ hx', hxe'⟩

/-- The command loop makes the calls that the specification expects, appends
their texts to the transcript, and ends with the conclusion `failure` exactly
when one of them ended with an error. -/
theorem cmdLoop_spec {σ : Type} (env : TestEnv σ) (repoPath : String) (b : Bool) :
    ∀ (cmds : List String) (st : LoopState σ),
      (cmdLoop env repoPath b cmds st).executed
          = st.executed ++ expectedRuns env repoPath b st.machine cmds
        ∧ (cmdLoop env repoPath b cmds st).outputSummary
          = st.outputSummary
            ++ concatAll ((expectedRuns env repoPath b st.machine cmds).map commandMsg)
        ∧ (cmdLoop env repoPath b cmds st).conclusion
          = if (expectedRuns env repoPath b st.machine cmds).any (fun x => x.err.isSome)
            then "failure" else st.conclusion := by
  intro cmds
  induction cmds with
  | nil =>
    intro st
    cases b <;> simp [cmdLoop, expectedRuns, nonEmptyCmds, runEach, uptoFirstError, concatAll]
  | cons cmd rest ih =>
    intro st
    by_cases hc : cmd = ""
    · subst hc
      have hne : nonEmptyCmds ("" :: rest) = nonEmptyCmds rest := by simp [nonEmptyCmds]
      have hx : expectedRuns env repoPath b st.machine ("" :: rest)
          = expectedRuns env repoPath b st.machine rest := by
        unfold expectedRuns; rw [hne]
      rw [hx]
      have hloop : cmdLoop env repoPath b ("" :: rest) st = cmdLoop env repoPath b rest st := by
        rw [cmdLoop]; simp
      rw [hloop]
      exact ih st
    · have hne : nonEmptyCmds (cmd :: rest) = cmd :: nonEmptyCmds rest := by
        simp [nonEmptyCmds, hc]
      have hcb : (cmd != "") = true := by simpa using hc
      rw [cmdLoop, if_pos hcb]
      cases herr : (carry env st.machine repoPath cmd).1.2 with
      | none =>
        simp only [herr]
        obtain ⟨h1, h2, h3⟩ := ih
          { conclusion := st.conclusion,
            outputSummary := st.outputSummary
              ++ commandMsg { cmd := cmd, out := (carry env st.machine repoPath cmd).1.1,
                              err := none },
            executed := st.executed
              ++ [{ cmd := cmd, out := (carry env st.machine repoPath cmd).1.1, err := none }],
            machine := (carry env st.machine repoPath cmd).2 }
        have hx : expectedRuns env repoPath b st.machine (cmd :: rest)
            = { cmd := cmd, out := (carry env st.machine repoPath cmd).1.1, err := none }
              :: expectedRuns env repoPath b (carry env st.machine repoPath cmd).2 rest := by
          unfold expectedRuns
          rw [hne]
          cases b <;> simp [runEach, uptoFirstError, ← carry_eq_commandResult, herr]
        rw [hx, h1, h2, h3]
        simp [concatAll, String.append_assoc]
      | some e =>
        simp only [herr]
        cases b with
        | true =>
          have hx : expectedRuns env repoPath true st.machine (cmd :: rest)
              = [{ cmd := cmd, out := (carry env st.machine repoPath cmd).1.1,
                   err := some e }] := by
            unfold expectedRuns
            rw [hne]
            simp [runEach, uptoFirstError, ← carry_eq_commandResult, herr]
          rw [hx]
          simp [concatAll]
        | false =>
          obtain ⟨h1, h2, h3⟩ := ih
            { conclusion := "failure",
              outputSummary := st.outputSummary
                ++ commandMsg { cmd := cmd, out := (carry env st.machine repoPath cmd).1.1,
                                err := some e },
              executed := st.executed
                ++ [{ cmd := cmd, out := (carry env st.machine repoPath cmd).1.1,
                      err := some e }],
              machine := (carry env st.machine repoPath cmd).2 }
          have hx : expectedRuns env repoPath false st.machine (cmd :: rest)
              = { cmd := cmd, out := (carry env st.machine repoPath cmd).1.1, err := some e }
                :: expectedRuns env repoPath false (carry env st.machine repoPath cmd).2
                    rest := by
            unfold expectedRuns
            rw [hne]
            simp [runEach, ← carry_eq_commandResult, herr]
          simp only [Bool.false_eq_true, if_false]
          rw [hx, h1, h2, h3]
          simp [concatAll, String.append_assoc]

/-- The state in which `testAndSaveCoverage` enters the command loop. -/
theorem testAndSaveCoverage_loop {σ : Type} (env : TestEnv σ) (m : σ) (ref : TestRef)
    (testName : String) (cmds : List String) (coveragePattern repoPath author : String)
    (b : Bool) :
    (testAndSaveCoverage env m ref testName cmds coveragePattern repoPath author b).conclusion
        = (cmdLoop env repoPath b cmds
            { conclusion := "success", outputSummary := "", executed := [],
              machine := m }).conclusion
      ∧ (testAndSaveCoverage env m ref testName cmds coveragePattern repoPath author b).executed
        = (cmdLoop env repoPath b cmds
            { conclusion := "success", outputSummary := "", executed := [],
              machine := m }).executed
      ∧ ∃ rest,
        (testAndSaveCoverage env m ref testName cmds coveragePattern repoPath author
            b).outputSummary
          = (cmdLoop env repoPath b cmds
              { conclusion := "success", outputSummary := "", executed := [],
                machine := m }).outputSummary ++ rest := by
  unfold testAndSaveCoverage
  simp only
  split_ifs
  all_goals first
    | exact ⟨rfl, rfl, "", (String.append_empty _).symm⟩
    | (refine ⟨rfl, rfl, ?_⟩
       first
         | exact ⟨_, rfl⟩
         | (split
            · exact ⟨_, String.append_assoc _ _ _⟩
            · exact ⟨_, rfl⟩))

/-- The calls, the conclusion and the transcript of `testAndSaveCoverage` in
terms of the run that the specification expects. -/
theorem testAndSaveCoverage_runs {σ : Type} (env : TestEnv σ) (m : σ) (ref : TestRef)
    (testName : String) (cmds : List String) (coveragePattern repoPath author : String)
    (b : Bool) :
    (testAndSaveCoverage env m ref testName cmds coveragePattern repoPath author b).executed
        = expectedRuns env repoPath b m cmds
      ∧ (testAndSaveCoverage env m ref testName cmds coveragePattern repoPath author
            b).conclusion
        = (if (expectedRuns env repoPath b m cmds).any (fun x => x.err.isSome) then "failure"
           else "success")
      ∧ ∃ rest,
        (testAndSaveCoverage env m ref testName cmds coveragePattern repoPath author
            b).outputSummary
          = concatAll ((expectedRuns env repoPath b m cmds).map commandMsg) ++ rest := by
  obtain ⟨hc, he, rest, hs⟩ :=
    testAndSaveCoverage_loop env m ref testName cmds coveragePattern repoPath author b
  obtain ⟨h1, h2, h3⟩ := cmdLoop_spec env repoPath b cmds
    { conclusion := "success", outputSummary := "", executed := [], machine := m }
  refine ⟨?_, ?_, rest, ?_⟩
  · rw [he, h1]
    simp
  · rw [hc, h3]
  · rw [hs, h2]
    simp

theorem conclusion_failure_iff_expected {σ : Type} (env : TestEnv σ) (m : σ) (ref : TestRef)
    (testName : String) (cmds : List String) (coveragePattern repoPath author : String)
    (b : Bool) :
    (testAndSaveCoverage env m ref testName cmds coveragePattern repoPath author b).conclusion
        = "failure"
      ↔ ∃ x ∈ expectedRuns env repoPath b m cmds, x.err ≠ none := by
  obtain ⟨_, hc, _⟩ :=
    testAndSaveCoverage_runs env m ref testName cmds coveragePattern repoPath author b
  rw [hc]
  by_cases h : (expectedRuns env repoPath b m cmds).any (fun x => x.err.isSome) = true
  · rw [if_pos h]
    exact ⟨fun _ => (any_err_iff _).mp h, fun _ => rfl⟩
  · rw [if_neg h]
    exact ⟨fun hcon => absurd hcon (by decide), fun hx => absurd ((any_err_iff _).mpr hx) h⟩

theorem conclusion_success_iff_expected {σ : Type} (env : TestEnv σ) (m : σ) (ref : TestRef)
    (testName : String) (cmds : List String) (coveragePattern repoPath author : String)
    (b : Bool) :
    (testAndSaveCoverage env m ref testName cmds coveragePattern repoPath author b).conclusion
        = "success"
      ↔ ∀ x ∈ expectedRuns env repoPath b m cmds, x.err = none := by
  obtain ⟨_, hc, _⟩ :=
    testAndSaveCoverage_runs env m ref testName cmds coveragePattern repoPath author b
  rw [hc]
  by_cases h : (expectedRuns env repoPath b m cmds).any (fun x => x.err.isSome) = true
  · rw [if_pos h]
    obtain ⟨x, hx, hne⟩ := (any_err_iff _).mp h
    exact ⟨fun hcon => absurd hcon (by decide), fun hall => absurd (hall x hx) hne⟩
  · rw [if_neg h]
    refine ⟨fun _ x hx => ?_, fun _ => rfl⟩
    by_contra hne
    exact h ((any_err_iff _).mpr ⟨x, hx, hne⟩)

/-- The conclusion is `failure` exactly when a non-empty command of the list,
the commands being run one after the other, ends with an error. -/
theorem conclusion_failure_iff_runEach {σ : Type} (env : TestEnv σ) (m : σ) (ref : TestRef)
    (testName : String) (cmds : List String) (coveragePattern repoPath author : String)
    (b : Bool) :
    (testAndSaveCoverage env m ref testName cmds coveragePattern repoPath author b).conclusion
        = "failure"
      ↔ ∃ x ∈ runEach env repoPath m (nonEmptyCmds cmds), x.err ≠ none := by
  rw [conclusion_failure_iff_expected]
  unfold expectedRuns
  cases b with
  | true =>
    simp only [if_true]
    exact exists_err_uptoFirstError _
  | false =>
    simp only [Bool.false_eq_true, if_false]

/-- C9: the calls of `carry` that `testAndSaveCoverage` makes are those of the
run of the non-empty commands of the list, one after the other, cut after the
first error when break-on-failure is set; the conclusion is `failure` if and
only if one of these calls ended with an error, and `success` otherwise; it is
`failure` if and only if a non-empty command of the list, run in its turn,
ends with an error; the error of a call is the error of the shell-word
parser, `invalid command` for zero words, or the error of the process; and a
conclusion `failure` stays `failure` whatever commands follow. -/
theorem conclusion_is_failure_iff_a_command_failed {σ : Type} (env : TestEnv σ) (m : σ)
    (ref : TestRef) (testName : String) (cmds : List String)
    (coveragePattern repoPath author : String) (b : Bool) :
    (testAndSaveCoverage env m ref testName cmds coveragePattern repoPath author b).executed
        = expectedRuns env repoPath b m cmds
      ∧ ((testAndSaveCoverage env m ref testName cmds coveragePattern repoPath author
            b).conclusion = "failure"
        ↔ ∃ x ∈ (testAndSaveCoverage env m ref testName cmds coveragePattern repoPath author
            b).executed, x.err ≠ none)
      ∧ ((testAndSaveCoverage env m ref testName cmds coveragePattern repoPath author
            b).conclusion = "success"
        ↔ ∀ x ∈ (testAndSaveCoverage env m ref testName cmds coveragePattern repoPath author
            b).executed, x.err = none)
      ∧ ((testAndSaveCoverage env m ref testName cmds coveragePattern repoPath author
            b).conclusion = "failure"
        ↔ ∃ x ∈ runEach env repoPath m (nonEmptyCmds cmds), x.err ≠ none)
      ∧ (∀ x ∈ (testAndSaveCoverage env m ref testName cmds coveragePattern repoPath author
            b).executed,
          x.cmd ≠ "" ∧ x.cmd ∈ cmds
            ∧ ∃ m', x.out = (commandResult env m' repoPath x.cmd).1.1
                ∧ x.err = (commandResult env m' repoPath x.cmd).1.2)
      ∧ (∀ more : List String,
          (testAndSaveCoverage env m ref testName cmds coveragePattern repoPath author
              b).conclusion = "failure" →
          (testAndSaveCoverage env m ref testName (cmds ++ more) coveragePattern repoPath
              author b).conclusion = "failure") := by
  obtain ⟨he, _, _⟩ :=
    testAndSaveCoverage_runs env m ref testName cmds coveragePattern repoPath author b
  refine ⟨he, ?_, ?_, ?_, ?_, ?_⟩
  · rw [he]
    exact conclusion_failure_iff_expected env m ref testName cmds coveragePattern repoPath
      author b
  · rw [he]
    exact conclusion_success_iff_expected env m ref testName cmds coveragePattern repoPath
      author b
  · exact conclusion_failure_iff_runEach env m ref testName cmds coveragePattern repoPath
      author b
  · intro x hx
    rw [he] at hx
    obtain ⟨hmem, hres⟩ := mem_runEach env repoPath x _ _ (mem_expectedRuns _ _ _ _ _ _ hx)
    have hmem' : x.cmd ∈ cmds ∧ (x.cmd != "") = true := by
      simpa [nonEmptyCmds] using hmem
    exact ⟨by simpa using hmem'.2, hmem'.1, hres⟩
  · intro more hfail
    obtain ⟨x, hx, hxe⟩ :=
      (conclusion_failure_iff_runEach env m ref testName cmds coveragePattern repoPath
        author b).mp hfail
    have hsplit : nonEmptyCmds (cmds ++ more) = nonEmptyCmds cmds ++ nonEmptyCmds more := by
      simp [nonEmptyCmds]
    obtain ⟨m', happ⟩ := runEach_append env repoPath (nonEmptyCmds cmds) m (nonEmptyCmds more)
    refine (conclusion_failure_iff_runEach env m ref testName (cmds ++ more) coveragePattern
      repoPath author b).mpr ⟨x, ?_, hxe⟩
    rw [hsplit, happ]
    exact List.mem_append_left _ hx

/-- C10: the calls of `carry` that `testAndSaveCoverage` makes are, with
break-on-failure disabled, one for every non-empty command of the list in
list order, and with break-on-failure enabled, those up to and including the
first one that ended with an error, each with the output and the error of the
command run in its turn; the transcript starts with the texts of these calls
in that order, each being the command, a newline, the output, a newline, and
the error and a newline when the call ended with an error; the conclusion is
`failure` exactly when one of the calls ended with an error.  So for the
commands `true`, `false`, `true` with break-on-failure disabled, where `false`
ends with an error, all three are run in order and the conclusion is
`failure`. -/
theorem executed_commands_and_transcript :
    (∀ (σ : Type) (env : TestEnv σ) (m : σ) (ref : TestRef) (testName : String)
        (cmds : List String) (coveragePattern repoPath author : String) (b : Bool),
        (testAndSaveCoverage env m ref testName cmds coveragePattern repoPath author
              b).executed
            = (if b then uptoFirstError (runEach env repoPath m (nonEmptyCmds cmds))
               else runEach env repoPath m (nonEmptyCmds cmds))
          ∧ (runEach env repoPath m (nonEmptyCmds cmds)).map (fun x => x.cmd)
              = nonEmptyCmds cmds
          ∧ (∀ x ∈ runEach env repoPath m (nonEmptyCmds cmds),
              ∃ m', x.out = (commandResult env m' repoPath x.cmd).1.1
                ∧ x.err = (commandResult env m' repoPath x.cmd).1.2)
          ∧ (∃ rest,
              (testAndSaveCoverage env m ref testName cmds coveragePattern repoPath author
                  b).outputSummary
                = concatAll
                    ((testAndSaveCoverage env m ref testName cmds coveragePattern repoPath
                      author b).executed.map commandMsg) ++ rest)
          ∧ (∀ x : Executed,
              commandMsg x = x.cmd ++ "\n" ++ x.out ++ "\n"
                ++ (match x.err with
                    | some e => e ++ "\n"
                    | none => ""))
          ∧ ((testAndSaveCoverage env m ref testName cmds coveragePattern repoPath author
                b).conclusion = "failure"
            ↔ ∃ x ∈ (testAndSaveCoverage env m ref testName cmds coveragePattern repoPath
                author b).executed, x.err ≠ none))
      ∧ (∀ (σ : Type) (env : TestEnv σ) (m : σ) (ref : TestRef)
          (testName coveragePattern repoPath author : String),
          (∀ m', (commandResult env m' repoPath "false").1.2 ≠ none) →
            (testAndSaveCoverage env m ref testName ["true", "false", "true"] coveragePattern
                repoPath author false).executed.map (fun x => x.cmd)
              = ["true", "false", "true"]
            ∧ (testAndSaveCoverage env m ref testName ["true", "false", "true"]
                coveragePattern repoPath author false).conclusion = "failure")
      ∧ (testAndSaveCoverage demoTestEnv () demoTestRef "unit" ["true", "false", "true"] ""
            "work" "dev" false).conclusion = "failure"
      ∧ (testAndSaveCoverage demoTestEnv () demoTestRef "unit" ["true", "false", "true"] ""
            "work" "dev" false).executed
          = [{ cmd := "true", out := "", err := none },
             { cmd := "false", out := "", err := some "exit status 1" },
             { cmd := "true", out := "", err := none }]
      ∧ (testAndSaveCoverage demoTestEnv () demoTestRef "unit" ["true", "false", "true"] ""
            "work" "dev" false).outputSummary
          = "true\n\nfalse\n\nexit status 1\ntrue\n\n" := by
  refine ⟨?_, ?_, by decide, by decide, by decide⟩
  · intro σ env m ref testName cmds coveragePattern repoPath author b
    obtain ⟨he, _, rest, hs⟩ :=
      testAndSaveCoverage_runs env m ref testName cmds coveragePattern repoPath author b
    refine ⟨?_, map_cmd_runEach env repoPath _ m, ?_, ⟨rest, ?_⟩, ?_, ?_⟩
    · rw [he]
      rfl
    · intro x hx
      exact (mem_runEach env repoPath x _ _ hx).2
    · rw [he]
      exact hs
    · intro x
      unfold commandMsg
      cases x.err <;> simp [String.append_assoc]
    · rw [he]
      exact conclusion_failure_iff_expected env m ref testName cmds coveragePattern repoPath
        author b
  · intro σ env m ref testName coveragePattern repoPath author hfalse
    obtain ⟨he, _, _⟩ :=
      testAndSaveCoverage_runs env m ref testName ["true", "false", "true"] coveragePattern
        repoPath author false
    have hne : nonEmptyCmds ["true", "false", "true"] = ["true", "false", "true"] := by
      decide
    have hx : expectedRuns env repoPath false m ["true", "false", "true"]
        = runEach env repoPath m ["true", "false", "true"] := by
      unfold expectedRuns
      rw [hne]
      rfl
    constructor
    · rw [he, hx]
      exact map_cmd_runEach env repoPath _ m
    · refine (conclusion_failure_iff_runEach env m ref testName ["true", "false", "true"]
        coveragePattern repoPath author false).mpr ?_
      rw [hne]
      refine ⟨{ cmd := "false",
                out := (commandResult env (commandResult env m repoPath "true").2 repoPath
                  "false").1.1,
                err := (commandResult env (commandResult env m repoPath "true").2 repoPath
                  "false").1.2 }, ?_, hfalse _⟩
      simp only [runEach]
      exact List.mem_cons_of_mem _ (List.mem_cons_self _ _)

/-- The example of the specification: the commands `true`, `false`, `true`
with break-on-failure disabled all run, in order, and the conclusion is
`failure`. -/
theorem true_false_true_example :
    (testAndSaveCoverage demoTestEnv () demoTestRef "unit" ["true", "false", "true"] "" "work"
        "dev" false).conclusion = "failure"
      ∧ (testAndSaveCoverage demoTestEnv () demoTestRef "unit" ["true", "false", "true"] ""
          "work" "dev" false).executed
        = [{ cmd := "true", out := "", err := none },
           { cmd := "false", out := "", err := some "exit status 1" },
           { cmd := "true", out := "", err := none }]
      ∧ (testAndSaveCoverage demoTestEnv () demoTestRef "unit" ["true", "false", "true"] ""
          "work" "dev" false).outputSummary
        = "true\n\nfalse\n\nexit status 1\ntrue\n\n" := by
  refine ⟨by decide, by decide, by decide⟩

/-! ## Coverage and persistence -/

/-- What `testAndSaveCoverage` returns besides the transcript, branch by
branch, in terms of the end of the command loop. -/
theorem testAndSaveCoverage_branches {σ : Type} (env : TestEnv σ) (m : σ) (ref : TestRef)
    (testName : String) (cmds : List String) (coveragePattern repoPath author : String)
    (b : Bool) :
    (testAndSaveCoverage env m ref testName cmds coveragePattern repoPath author b).conclusion
        = (loopEnd env m repoPath b cmds).conclusion
      ∧ (testAndSaveCoverage env m ref testName cmds coveragePattern repoPath author
            b).reportMessage
        = (if coveragePattern ≠ ""
              ∧ ((loopEnd env m repoPath b cmds).conclusion = "success" ∨ b = false) then
            (parseCoverage env coveragePattern (loopEnd env m repoPath b cmds).outputSummary).1
          else "")
      ∧ (testAndSaveCoverage env m ref testName cmds coveragePattern repoPath author b).saved
        = (if coveragePattern ≠ ""
              ∧ ((loopEnd env m repoPath b cmds).conclusion = "success" ∨ b = false) then
            (if (parseCoverage env coveragePattern
                  (loopEnd env m repoPath b cmds).outputSummary).2.2 = none
                ∨ ref.isTree = true then
              [{ Owner := ref.owner, Repo := ref.repo, Sha := ref.Sha, Author := author,
                 Test := testName,
                 Coverage :=
                   if ref.isTree = true
                     ∧ (parseCoverage env coveragePattern
                         (loopEnd env m repoPath b cmds).outputSummary).2.2 ≠ none then none
                   else some (parseCoverage env coveragePattern
                         (loopEnd env m repoPath b cmds).outputSummary).2.1,
                 Passing := if (loopEnd env m repoPath b cmds).conclusion = "success" then 1
                   else 0,
                 Status := if ref.isTree = true then 1 else 0 }]
            else [])
          else if coveragePattern = "" ∧ ref.isTree = true then
            [{ Owner := ref.owner, Repo := ref.repo, Sha := ref.Sha, Author := author,
               Test := testName, Coverage := none,
               Passing := if (loopEnd env m repoPath b cmds).conclusion = "success" then 1
                 else 0,
               Status := 1 }]
          else []) := by
  unfold testAndSaveCoverage loopEnd
  simp only
  refine ⟨?_, ?_, ?_⟩
  · split_ifs <;> rfl
  · split_ifs <;> simp_all
  · split_ifs <;> simp_all <;> (split <;> simp_all)

/-- C11: in aggregate mode (the ref is a tree) with a coverage pattern
configured, which is case (a) of the persistence rule, break-on-failure
enabled and the one command `false`, which fails, `testAndSaveCoverage` ends
with the conclusion `failure` and writes no record. -/
theorem no_record_after_a_break_on_failure :
    demoTreeRef.isTree = true ∧ "coverage: (.*)" ≠ ""
      ∧ (testAndSaveCoverage demoTestEnv () demoTreeRef "unit" ["false"] "coverage: (.*)"
          "work" "dev" true).conclusion = "failure"
      ∧ (testAndSaveCoverage demoTestEnv () demoTreeRef "unit" ["false"] "coverage: (.*)"
          "work" "dev" true).saved = [] := by
  refine ⟨by decide, by decide, by decide, by decide⟩

/-- With a coverage pattern, break-on-failure enabled and a failing command,
neither branch of lines 150-209 is entered: no record is written, also for a
tree ref. -/
theorem no_record_when_the_run_breaks {σ : Type} (env : TestEnv σ) (m : σ) (ref : TestRef)
    (testName : String) (cmds : List String) (coveragePattern repoPath author : String)
    (hp : coveragePattern ≠ "")
    (hf : (testAndSaveCoverage env m ref testName cmds coveragePattern repoPath author
        true).conclusion = "failure") :
    (testAndSaveCoverage env m ref testName cmds coveragePattern repoPath author
        true).saved = [] := by
  obtain ⟨hc, _, hs⟩ :=
    testAndSaveCoverage_branches env m ref testName cmds coveragePattern repoPath author true
  rw [hc] at hf
  rw [hs, if_neg, if_neg (fun h => hp h.1)]
  rintro ⟨_, h | h⟩
  · rw [hf] at h
    exact absurd h (by decide)
  · exact Bool.noConfusion h

/-- The persistence rule on the runs that reach the coverage step: a record is
written when (a) a coverage pattern is configured, the conclusion is `success`
or break-on-failure is disabled, and either the coverage parsed or the ref is
a tree, or (b) no coverage pattern is configured and the ref is a tree; in
fine-grained mode with no coverage pattern no record is written. -/
theorem record_is_written_when {σ : Type} (env : TestEnv σ) (m : σ) (ref : TestRef)
    (testName : String) (cmds : List String) (coveragePattern repoPath author : String)
    (b : Bool) :
    (coveragePattern ≠ "" →
        ((testAndSaveCoverage env m ref testName cmds coveragePattern repoPath author
            b).conclusion = "success" ∨ b = false) →
        ((parseCoverage env coveragePattern
            (loopEnd env m repoPath b cmds).outputSummary).2.2 = none ∨ ref.isTree = true) →
        ∃ c, (testAndSaveCoverage env m ref testName cmds coveragePattern repoPath author
            b).saved = [c])
      ∧ (coveragePattern = "" → ref.isTree = true →
        ∃ c, (testAndSaveCoverage env m ref testName cmds coveragePattern repoPath author
            b).saved = [c])
      ∧ (coveragePattern = "" → ref.isTree = false →
        (testAndSaveCoverage env m ref testName cmds coveragePattern repoPath author
            b).saved = []) := by
  obtain ⟨hc, _, hs⟩ :=
    testAndSaveCoverage_branches env m ref testName cmds coveragePattern repoPath author b
  rw [hc, hs]
  refine ⟨?_, ?_, ?_⟩
  · intro hp hrun hparse
    rw [if_pos ⟨hp, hrun⟩, if_pos hparse]
    exact ⟨_, rfl⟩
  · intro hp ht
    rw [if_neg (fun h => h.1 hp), if_pos ⟨hp, ht⟩]
    exact ⟨_, rfl⟩
  · intro hp ht
    rw [if_neg (fun h => h.1 hp), if_neg (fun h => by simp [ht] at h)]

theorem record_is_written_when_witness :
    ∃ c, (testAndSaveCoverage demoTestEnv () demoTreeRef "unit" ["false"] "coverage: (.*)"
        "work" "dev" false).saved = [c] :=
  (record_is_written_when demoTestEnv () demoTreeRef "unit" ["false"] "coverage: (.*)"
    "work" "dev" false).1 (by decide) (Or.inr rfl) (Or.inr rfl)

/-- C13 (counterexample): a valid pattern without a match, break-on-failure
enabled and a failing command: the message of `testAndSaveCoverage` is empty,
not `unknown`. -/
theorem no_message_after_a_break_on_failure :
    demoTestEnv.regexpCompile "coverage: (.*)" = none
      ∧ demoTestEnv.findStringSubmatch "coverage: (.*)"
          (loopEnd demoTestEnv () "work" true ["false"]).outputSummary = []
      ∧ (testAndSaveCoverage demoTestEnv () demoTestRef "unit" ["false"] "coverage: (.*)"
          "work" "dev" true).reportMessage = "" := by
  refine ⟨by decide, by decide, by decide⟩

/-- C13 (amended): for a configured pattern that compiles and has no match in
the transcript, and a percentage parser that rejects `unknown`,
`parseCoverage` yields the percentage string `unknown` with an error; when
the conclusion is `success` or break-on-failure is disabled the message of
`testAndSaveCoverage` is `unknown`; every record it writes has no coverage;
and the conclusion is the one of the same run without a coverage pattern. -/
theorem extraction_without_a_match {σ : Type} (env : TestEnv σ) (m : σ) (ref : TestRef)
    (testName : String) (cmds : List String) (coveragePattern repoPath author : String)
    (b : Bool)
    (hconf : coveragePattern ≠ "")
    (hvalid : env.regexpCompile coveragePattern = none)
    (hnomatch : env.findStringSubmatch coveragePattern
      (loopEnd env m repoPath b cmds).outputSummary = [])
    (hrej : rejectsUnknown env) :
    (parseCoverage env coveragePattern (loopEnd env m repoPath b cmds).outputSummary).1
        = "unknown"
      ∧ (parseCoverage env coveragePattern
          (loopEnd env m repoPath b cmds).outputSummary).2.2 ≠ none
      ∧ (((testAndSaveCoverage env m ref testName cmds coveragePattern repoPath author
              b).conclusion = "success" ∨ b = false) →
          (testAndSaveCoverage env m ref testName cmds coveragePattern repoPath author
              b).reportMessage = "unknown")
      ∧ (∀ c ∈ (testAndSaveCoverage env m ref testName cmds coveragePattern repoPath author
            b).saved, c.Coverage = none)
      ∧ (testAndSaveCoverage env m ref testName cmds coveragePattern repoPath author
            b).conclusion
          = (testAndSaveCoverage env m ref testName cmds "" repoPath author b).conclusion := by
  obtain ⟨e, he⟩ := hrej
  have hpc : parseCoverage env coveragePattern (loopEnd env m repoPath b cmds).outputSummary
      = ("unknown", 0, some e) := by
    unfold parseCoverage
    simp [hvalid, hnomatch, he]
  obtain ⟨hc, hm, hs⟩ :=
    testAndSaveCoverage_branches env m ref testName cmds coveragePattern repoPath author b
  obtain ⟨hc0, _, _⟩ :=
    testAndSaveCoverage_branches env m ref testName cmds "" repoPath author b
  rw [hc, hm, hs, hc0, hpc]
  refine ⟨rfl, by simp, ?_, ?_, rfl⟩
  · intro hrun
    rw [if_pos ⟨hconf, hrun⟩]
  · intro c hmem
    by_cases h1 : (loopEnd env m repoPath b cmds).conclusion = "success" ∨ b = false
    · rw [if_pos ⟨hconf, h1⟩] at hmem
      by_cases ht : ref.isTree = true
      · simp only [ht, or_true, if_true, List.mem_singleton] at hmem
        subst hmem
        simp
      · simp [ht] at hmem
    · rw [if_neg (fun h => h1 h.2), if_neg (fun h => hconf h.1)] at hmem
      simp at hmem

theorem extraction_without_a_match_witness :
    (testAndSaveCoverage demoTestEnv () demoTreeRef "unit" ["true"] "coverage: (.*)" "work"
        "dev" false).reportMessage = "unknown" :=
  (extraction_without_a_match demoTestEnv () demoTreeRef "unit" ["true"] "coverage: (.*)"
    "work" "dev" false (by decide) rfl rfl ⟨_, rfl⟩).2.2.1 (Or.inr rfl)

/-- C14: every record that `testAndSaveCoverage` writes has `Passing` 1 if the
conclusion is `success` and 0 otherwise, `Status` 1 if the ref is a tree and
0 otherwise, and the owner, repository and commit of the ref and the name of
the test. -/
theorem written_record_fields {σ : Type} (env : TestEnv σ) (m : σ) (ref : TestRef)
    (testName : String) (cmds : List String) (coveragePattern repoPath author : String)
    (b : Bool) (c : CommitsInfo)
    (hmem : c ∈ (testAndSaveCoverage env m ref testName cmds coveragePattern repoPath author
      b).saved) :
    c.Passing
        = (if (testAndSaveCoverage env m ref testName cmds coveragePattern repoPath author
            b).conclusion = "success" then 1 else 0)
      ∧ c.Status = (if ref.isTree = true then 1 else 0)
      ∧ c.Owner = ref.owner ∧ c.Repo = ref.repo ∧ c.Sha = ref.Sha ∧ c.Test = testName := by
  obtain ⟨hc, _, hs⟩ :=
    testAndSaveCoverage_branches env m ref testName cmds coveragePattern repoPath author b
  rw [hc]
  rw [hs] at hmem
  by_cases h1 : coveragePattern ≠ ""
      ∧ ((loopEnd env m repoPath b cmds).conclusion = "success" ∨ b = false)
  · rw [if_pos h1] at hmem
    by_cases h2 : (parseCoverage env coveragePattern
        (loopEnd env m repoPath b cmds).outputSummary).2.2 = none ∨ ref.isTree = true
    · rw [if_pos h2, List.mem_singleton] at hmem
      subst hmem
      exact ⟨rfl, rfl, rfl, rfl, rfl, rfl⟩
    · rw [if_neg h2] at hmem
      simp at hmem
  · rw [if_neg h1] at hmem
    by_cases h3 : coveragePattern = "" ∧ ref.isTree = true
    · rw [if_pos h3, List.mem_singleton] at hmem
      subst hmem
      refine ⟨rfl, ?_, rfl, rfl, rfl, rfl⟩
      simp [h3.2]
    · rw [if_neg h3] at hmem
      simp at hmem

theorem written_record_fields_witness :
    (1 : Int)
        = (if (testAndSaveCoverage demoTestEnv () demoTreeRef "unit" ["true"] "" "work" "dev"
            false).conclusion = "success" then 1 else 0)
      ∧ (1 : Int) = (if demoTreeRef.isTree = true then 1 else 0)
      ∧ "o" = demoTreeRef.owner ∧ "r" = demoTreeRef.repo ∧ "abc" = demoTreeRef.Sha
      ∧ "unit" = "unit" :=
  written_record_fields demoTestEnv () demoTreeRef "unit" ["true"] "" "work" "dev" false
    { Owner := "o", Repo := "r", Sha := "abc", Author := "dev", Test := "unit",
      Coverage := none, Passing := 1, Status := 1 }
    (by decide)

/-! ## `ReportTestResults` -/

theorem parseCoverage_fst {σ : Type} (env : TestEnv σ) (pattern transcript : String) :
    (parseCoverage env pattern transcript).1 = expectedPercentage env pattern transcript := by
  unfold parseCoverage expectedPercentage
  cases env.regexpCompile pattern with
  | some e => rfl
  | none =>
    simp only
    split <;> split_ifs <;> rfl

/-- The two shapes of a run of `ReportTestResults`: the creation of the check
run failed, or the test ran and the completion was reported. -/
theorem ReportTestResults_cases {σ : Type} (env : TestEnv σ) (backend : Backend) (m : σ)
    (testName repoPath : String) (cmds : List String) (coveragePattern author : String)
    (ref : TestRef) (targetURL : String) :
    (ref.isTree = false
        ∧ (∃ e, backend.CreateCheckRun (testName ++ " test") ref targetURL = Except.error e
            ∧ (ReportTestResults env backend m testName repoPath cmds coveragePattern author
                ref targetURL).err = some e)
        ∧ (ReportTestResults env backend m testName repoPath cmds coveragePattern author ref
            targetURL).message = ""
        ∧ (ReportTestResults env backend m testName repoPath cmds coveragePattern author ref
            targetURL).events = [TestEvent.createCheckRun (testName ++ " test") ref targetURL]
        ∧ (ReportTestResults env backend m testName repoPath cmds coveragePattern author ref
            targetURL).executed = []
        ∧ (ReportTestResults env backend m testName repoPath cmds coveragePattern author ref
            targetURL).saved = [])
      ∨ ((ref.isTree = true
            ∨ ∃ id, backend.CreateCheckRun (testName ++ " test") ref targetURL = Except.ok id)
        ∧ (ReportTestResults env backend m testName repoPath cmds coveragePattern author ref
            targetURL).err
          = (if (testAndSaveCoverage env m ref testName cmds coveragePattern repoPath author
                false).conclusion = "failure" then some (testName ++ " test") else none)
        ∧ (ReportTestResults env backend m testName repoPath cmds coveragePattern author ref
            targetURL).message
          = (testAndSaveCoverage env m ref testName cmds coveragePattern repoPath author
              false).reportMessage
        ∧ (ReportTestResults env backend m testName repoPath cmds coveragePattern author ref
            targetURL).executed
          = (testAndSaveCoverage env m ref testName cmds coveragePattern repoPath author
              false).executed
        ∧ (ReportTestResults env backend m testName repoPath cmds coveragePattern author ref
            targetURL).saved
          = (testAndSaveCoverage env m ref testName cmds coveragePattern repoPath author
              false).saved
        ∧ ∃ start completion,
            (ReportTestResults env backend m testName repoPath cmds coveragePattern author ref
              targetURL).events = [start, completion]
            ∧ isStart start = true ∧ isCompletion completion = true
            ∧ titleOf completion
              = some (if coveragePattern = "" then
                  (testAndSaveCoverage env m ref testName cmds coveragePattern repoPath author
                    false).conclusion
                else "coverage: "
                  ++ (testAndSaveCoverage env m ref testName cmds coveragePattern repoPath
                      author false).reportMessage)) := by
  obtain ⟨owner, repo, sha, isTree⟩ := ref
  cases isTree with
  | true =>
    right
    refine ⟨Or.inl rfl, ?_, rfl, rfl, rfl, _, _, rfl, ?_, ?_, ?_⟩
    · simp [ReportTestResults, runAndComplete]
    · rfl
    · simp only [isCompletion]
      split_ifs <;> rfl
    · simp [titleOf]
  | false =>
    cases hcr : backend.CreateCheckRun (testName ++ " test")
        { owner := owner, repo := repo, Sha := sha, isTree := false } targetURL with
    | error e =>
      left
      simp [ReportTestResults, hcr]
    | ok id =>
      right
      refine ⟨Or.inr ⟨id, rfl⟩, ?_, ?_, ?_, ?_, ?_⟩
      · simp [ReportTestResults, hcr, runAndComplete]
      · simp [ReportTestResults, hcr, runAndComplete]
      · simp [ReportTestResults, hcr, runAndComplete]
      · simp [ReportTestResults, hcr, runAndComplete]
      · simp only [ReportTestResults, hcr, runAndComplete, Bool.false_eq_true, if_false,
          List.singleton_append]
        refine ⟨_, _, rfl, rfl, rfl, ?_⟩
        simp [titleOf]

theorem conclusion_success_or_failure {σ : Type} (env : TestEnv σ) (m : σ) (ref : TestRef)
    (testName : String) (cmds : List String) (coveragePattern repoPath author : String)
    (b : Bool) :
    (testAndSaveCoverage env m ref testName cmds coveragePattern repoPath author b).conclusion
        = "success"
      ∨ (testAndSaveCoverage env m ref testName cmds coveragePattern repoPath author
          b).conclusion = "failure" := by
  rw [(testAndSaveCoverage_loop env m ref testName cmds coveragePattern repoPath author b).1,
    (cmdLoop_spec env repoPath b cmds _).2.2]
  split_ifs
  · exact Or.inr rfl
  · exact Or.inl rfl

/-- C12 (counterexample): with a pattern that does not compile the title of
the completion report is `coverage: error`. -/
theorem title_of_a_pattern_that_does_not_compile :
    badPatternEnv.regexpCompile "(" = some "error parsing regexp: missing closing )"
      ∧ (ReportTestResults badPatternEnv demoBackend () "unit" "work" ["true"] "(" "dev"
          demoTestRef "").events
        = [TestEvent.createCheckRun "unit test" demoTestRef "",
           TestEvent.updateCheckRun 42 "unit test" "success" "coverage: error"
             "```\ntrue\n\nTest coverage: error\n\n```"] := by
  refine ⟨by decide, by decide⟩

/-- C12 (amended): in every run of `ReportTestResults` that reaches the
completion report, the title sent is the conclusion string (`success` or
`failure`) when the coverage pattern is empty, and otherwise `coverage: `
followed by the first capture of the pattern in the transcript, by `unknown`
when the pattern compiles and captures nothing, or by `error` when the
pattern does not compile. -/
theorem reported_title {σ : Type} (env : TestEnv σ) (backend : Backend) (m : σ)
    (testName repoPath : String) (cmds : List String) (coveragePattern author : String)
    (ref : TestRef) (targetURL : String)
    (hreach : ref.isTree = true
      ∨ ∃ id, backend.CreateCheckRun (testName ++ " test") ref targetURL = Except.ok id) :
    ∃ start completion,
      (ReportTestResults env backend m testName repoPath cmds coveragePattern author ref
        targetURL).events = [start, completion]
      ∧ isCompletion completion = true
      ∧ titleOf completion
        = some (if coveragePattern = "" then
            (testAndSaveCoverage env m ref testName cmds coveragePattern repoPath author
              false).conclusion
          else "coverage: "
            ++ expectedPercentage env coveragePattern
                (loopEnd env m repoPath false cmds).outputSummary)
      ∧ ((testAndSaveCoverage env m ref testName cmds coveragePattern repoPath author
            false).conclusion = "success"
        ∨ (testAndSaveCoverage env m ref testName cmds coveragePattern repoPath author
            false).conclusion = "failure") := by
  rcases ReportTestResults_cases env backend m testName repoPath cmds coveragePattern author
    ref targetURL with ⟨hf, ⟨e, he, _⟩, _⟩ | ⟨_, _, _, _, _, start, completion, hev, _, hcomp, ht⟩
  · rcases hreach with h | ⟨id, h⟩
    · rw [hf] at h; exact Bool.noConfusion h
    · rw [he] at h; exact Except.noConfusion h
  · refine ⟨start, completion, hev, hcomp, ?_,
      conclusion_success_or_failure env m ref testName cmds coveragePattern repoPath author
        false⟩
    rw [ht]
    by_cases hp : coveragePattern = ""
    · rw [if_pos hp, if_pos hp]
    · rw [if_neg hp, if_neg hp,
        (testAndSaveCoverage_branches env m ref testName cmds coveragePattern repoPath author
          false).2.1, if_pos ⟨hp, Or.inr rfl⟩, parseCoverage_fst]

theorem reported_title_witness :
    ∃ start completion,
      (ReportTestResults demoTestEnv demoBackend () "unit" "work" ["true"] "coverage: (.*)"
        "dev" demoTreeRef "").events = [start, completion]
      ∧ isCompletion completion = true
      ∧ titleOf completion
        = some (if "coverage: (.*)" = "" then
            (testAndSaveCoverage demoTestEnv () demoTreeRef "unit" ["true"] "coverage: (.*)"
              "work" "dev" false).conclusion
          else "coverage: "
            ++ expectedPercentage demoTestEnv "coverage: (.*)"
                (loopEnd demoTestEnv () "work" false ["true"]).outputSummary)
      ∧ ((testAndSaveCoverage demoTestEnv () demoTreeRef "unit" ["true"] "coverage: (.*)"
            "work" "dev" false).conclusion = "success"
        ∨ (testAndSaveCoverage demoTestEnv () demoTreeRef "unit" ["true"] "coverage: (.*)"
            "work" "dev" false).conclusion = "failure") :=
  reported_title demoTestEnv demoBackend () "unit" "work" ["true"] "coverage: (.*)" "dev"
    demoTreeRef "" (Or.inl rfl)

/-- The shape of a run of `HandleMessage`: nothing is reported, or the
`pending` update of the `lint` check comes first, then linter calls only, and
at the end nothing, the `success` state, or one review followed by the
`error` state. -/
theorem HandleMessage_shape (env : Env) (message : String) :
    (HandleMessage env message).events = []
      ∨ ∃ (ref : GithubRef) (url : String) (mid tail : List Event),
          (HandleMessage env message).events
              = Event.updateState ref "lint" "pending" url "checking" :: (mid ++ tail)
            ∧ (∀ ev ∈ mid, isLintCall ev = true)
            ∧ (tail = []
              ∨ (∃ description, tail = [Event.updateState ref "lint" "success" url description])
              ∨ ∃ pull event body comments description,
                  tail = [Event.createReview ref pull event body comments,
                          Event.updateState ref "lint" "error" url description]) := by
  obtain ⟨hdone, hready⟩ := fetchStage_spec env message
  cases hf : fetchStage env message with
  | done r =>
    have hr : HandleMessage env message = r := by unfold HandleMessage; rw [hf]
    rw [hr]
    rcases hdone r hf with h | ⟨ref, url, h⟩
    · exact Or.inl h
    · exact Or.inr ⟨ref, url, [], [], by simpa using h, by simp, Or.inl rfl⟩
  | ready evs st =>
    obtain ⟨hevs, _⟩ := hready evs st hf
    have hloop := (lintLoop_spec env (LintEnabled.Init env zeroLintEnabled st.repoPath)
      st.repoPath st.diffs emptyAcc).1
    right
    rw [HandleMessage_ready env message evs st hf, lintStage_eq]
    rcases hl : lintLoop env (LintEnabled.Init env zeroLintEnabled st.repoPath) st.repoPath
        st.diffs emptyAcc with ⟨levs, e | acc⟩
    · rw [hl] at hloop
      refine ⟨st.ref, st.targetURL, levs, [], by simp [hevs], ?_, Or.inl rfl⟩
      intro ev hev
      obtain ⟨⟨l, f, p, hlint⟩, _⟩ := hloop ev hev
      subst hlint
      rfl
    · rw [hl] at hloop
      refine ⟨st.ref, st.targetURL, levs, (report env st.ref st.pull st.targetURL acc).events,
        by simp [hevs], ?_, ?_⟩
      · intro ev hev
        obtain ⟨⟨l, f, p, hlint⟩, _⟩ := hloop ev hev
        subst hlint
        rfl
      · rw [report_events]
        split_ifs
        · exact Or.inr (Or.inr ⟨_, _, _, _, _, rfl⟩)
        · exact Or.inr (Or.inl ⟨_, rfl⟩)

/-- C15: in every run of `ReportTestResults` exactly one start report (the
state `pending`, or the creation of the check run) is issued, first, and at
most one completion report (the state `success` or `error`, or the update of
the check run), after it; in every run of `HandleMessage` that reports
anything the `pending` update of the `lint` check is first, and the only
final state update, if there is one, is last. -/
theorem reports_are_ordered :
    (∀ (σ : Type) (env : TestEnv σ) (backend : Backend) (m : σ) (testName repoPath : String)
        (cmds : List String) (coveragePattern author : String) (ref : TestRef)
        (targetURL : String),
        ∃ start, isStart start = true ∧ isCompletion start = false
          ∧ ((ReportTestResults env backend m testName repoPath cmds coveragePattern author ref
                targetURL).events = [start]
            ∨ ∃ completion, isCompletion completion = true ∧ isStart completion = false
                ∧ (ReportTestResults env backend m testName repoPath cmds coveragePattern
                    author ref targetURL).events = [start, completion]))
      ∧ (∀ (env : Env) (message : String),
          (HandleMessage env message).events = []
            ∨ ∃ (ref : GithubRef) (url : String) (mid tail : List Event),
                (HandleMessage env message).events
                    = Event.updateState ref "lint" "pending" url "checking" :: (mid ++ tail)
                  ∧ (∀ ev ∈ mid, isLintCall ev = true)
                  ∧ (tail = []
                    ∨ (∃ description,
                        tail = [Event.updateState ref "lint" "success" url description])
                    ∨ ∃ pull event body comments description,
                        tail = [Event.createReview ref pull event body comments,
                                Event.updateState ref "lint" "error" url description])) := by
  refine ⟨?_, HandleMessage_shape⟩
  intro σ env backend m testName repoPath cmds coveragePattern author ref targetURL
  have hstart : ∀ ev : TestEvent, isStart ev = true → isCompletion ev = false := by
    intro ev h
    cases ev with
    | updateState r c state u d =>
      have hs : state = "pending" := by simpa [isStart] using h
      subst hs
      rfl
    | createCheckRun c r u => rfl
    | updateCheckRun i c k t s => simp [isStart] at h
  have hcompl : ∀ ev : TestEvent, isCompletion ev = true → isStart ev = false := by
    intro ev h
    cases hs : isStart ev with
    | false => rfl
    | true => rw [hstart ev hs] at h; exact Bool.noConfusion h
  rcases ReportTestResults_cases env backend m testName repoPath cmds coveragePattern author
    ref targetURL with ⟨_, _, _, hev, _⟩ | ⟨_, _, _, _, _, start, completion, hev, hs, hc, _⟩
  · exact ⟨TestEvent.createCheckRun (testName ++ " test") ref targetURL, rfl, rfl, Or.inl hev⟩
  · exact ⟨start, hs, hstart start hs, Or.inr ⟨completion, hc, hcompl completion hc, hev⟩⟩

/-- C16: `ReportTestResults` returns an error if and only if the check run
could not be created (fine-grained mode) or the conclusion is `failure`.
When the creation fails it returns that error with an empty message, runs no
command, writes no record and reports no completion.  What the state updates
and the check-run update return changes none of the message, the error, the
commands run, the records written and the reports issued. -/
theorem error_of_ReportTestResults {σ : Type} (env : TestEnv σ) (backend : Backend) (m : σ)
    (testName repoPath : String) (cmds : List String) (coveragePattern author : String)
    (ref : TestRef) (targetURL : String) :
    ((ReportTestResults env backend m testName repoPath cmds coveragePattern author ref
          targetURL).err ≠ none
        ↔ (ref.isTree = false
            ∧ ∃ e, backend.CreateCheckRun (testName ++ " test") ref targetURL
                = Except.error e)
          ∨ (testAndSaveCoverage env m ref testName cmds coveragePattern repoPath author
              false).conclusion = "failure")
      ∧ (∀ e, ref.isTree = false →
          backend.CreateCheckRun (testName ++ " test") ref targetURL = Except.error e →
          (ReportTestResults env backend m testName repoPath cmds coveragePattern author ref
              targetURL).err = some e
            ∧ (ReportTestResults env backend m testName repoPath cmds coveragePattern author
                ref targetURL).message = ""
            ∧ (ReportTestResults env backend m testName repoPath cmds coveragePattern author
                ref targetURL).executed = []
            ∧ (ReportTestResults env backend m testName repoPath cmds coveragePattern author
                ref targetURL).saved = []
            ∧ (ReportTestResults env backend m testName repoPath cmds coveragePattern author
                ref targetURL).events
              = [TestEvent.createCheckRun (testName ++ " test") ref targetURL])
      ∧ (∀ backend2 : Backend, backend2.CreateCheckRun = backend.CreateCheckRun →
          (ReportTestResults env backend2 m testName repoPath cmds coveragePattern author ref
              targetURL).message
            = (ReportTestResults env backend m testName repoPath cmds coveragePattern author
                ref targetURL).message
          ∧ (ReportTestResults env backend2 m testName repoPath cmds coveragePattern author ref
              targetURL).err
            = (ReportTestResults env backend m testName repoPath cmds coveragePattern author
                ref targetURL).err
          ∧ (ReportTestResults env backend2 m testName repoPath cmds coveragePattern author ref
              targetURL).executed
            = (ReportTestResults env backend m testName repoPath cmds coveragePattern author
                ref targetURL).executed
          ∧ (ReportTestResults env backend2 m testName repoPath cmds coveragePattern author ref
              targetURL).saved
            = (ReportTestResults env backend m testName repoPath cmds coveragePattern author
                ref targetURL).saved
          ∧ (ReportTestResults env backend2 m testName repoPath cmds coveragePattern author ref
              targetURL).events
            = (ReportTestResults env backend m testName repoPath cmds coveragePattern author
                ref targetURL).events) := by
  refine ⟨?_, ?_, ?_⟩
  · rcases ReportTestResults_cases env backend m testName repoPath cmds coveragePattern author
      ref targetURL with ⟨hf, ⟨e, he, herr⟩, _⟩ | ⟨hreach, herr, _⟩
    · rw [herr]
      exact ⟨fun _ => Or.inl ⟨hf, e, he⟩, fun _ => by simp⟩
    · rw [herr]
      constructor
      · intro h
        right
        by_contra hne
        rw [if_neg hne] at h
        exact h rfl
      · rintro (⟨hf, e, he⟩ | hfail)
        · exfalso
          rcases hreach with h | ⟨id, h⟩
          · rw [hf] at h; exact Bool.noConfusion h
          · rw [he] at h; exact Except.noConfusion h
        · rw [if_pos hfail]
          simp
  · intro e hf he
    rcases ReportTestResults_cases env backend m testName repoPath cmds coveragePattern author
      ref targetURL with ⟨_, ⟨e', he', herr⟩, hmsg, hev, hex, hsv⟩ | ⟨hreach, _⟩
    · rw [he] at he'
      simp only [Except.error.injEq] at he'
      subst he'
      exact ⟨herr, hmsg, hex, hsv, hev⟩
    · exfalso
      rcases hreach with h | ⟨id, h⟩
      · rw [hf] at h; exact Bool.noConfusion h
      · rw [he] at h; exact Except.noConfusion h
  · intro backend2 hsame
    obtain ⟨owner, repo, sha, isTree⟩ := ref
    cases isTree with
    | true => simp [ReportTestResults, runAndComplete]
    | false =>
      cases hcr : backend.CreateCheckRun (testName ++ " test")
          { owner := owner, repo := repo, Sha := sha, isTree := false } targetURL <;>
        simp [ReportTestResults, runAndComplete, hsame, hcr]

theorem error_of_ReportTestResults_witness :
    (ReportTestResults demoTestEnv noCreateBackend () "unit" "work" ["true"] "" "dev"
        demoTestRef "").err = some "403 Forbidden"
      ∧ (ReportTestResults demoTestEnv noCreateBackend () "unit" "work" ["true"] "" "dev"
          demoTestRef "").message = ""
      ∧ (ReportTestResults demoTestEnv noCreateBackend () "unit" "work" ["true"] "" "dev"
          demoTestRef "").executed = []
      ∧ (ReportTestResults demoTestEnv noCreateBackend () "unit" "work" ["true"] "" "dev"
          demoTestRef "").saved = []
      ∧ (ReportTestResults demoTestEnv noCreateBackend () "unit" "work" ["true"] "" "dev"
          demoTestRef "").events = [TestEvent.createCheckRun ("unit" ++ " test") demoTestRef ""] :=
  (error_of_ReportTestResults demoTestEnv noCreateBackend () "unit" "work" ["true"] "" "dev"
    demoTestRef "").2.1 "403 Forbidden" rfl rfl

/-! ## The error that `HandleMessage` returns -/

/-- C17 (counterexample): the pull request is open, fetching, parsing and
linting succeed and no problem is found, but the update of the `lint` check to
`success` fails: `HandleMessage` returns the error of that update. -/
theorem error_of_the_final_update_is_returned :
    HandleMessage failingStateEnv demoMessage
      = { events := [Event.updateState demoRef "lint" "pending" "" "checking",
                     Event.lint Linter.GoLint "work/o/r/a.go" "work/o/r",
                     Event.updateState demoRef "lint" "success" "" "The lint check succeed!"],
          err := some "502 Bad Gateway" } := by
  decide

/-- C17 (amended): in every run of `HandleMessage` on an open pull request in
which fetching, diff parsing and every linter call succeed, the error
returned is the one of the final update of the `lint` check, whatever the
`pending` update and the review submission return: `HandleMessage` returns
nil if and only if the final update succeeds. -/
theorem returned_error_is_that_of_the_final_update (env : Env) (message : String)
    (evs levs : List Event) (st : Stage) (acc : Acc)
    (hf : fetchStage env message = Fetched.ready evs st)
    (hl : lintLoop env (LintEnabled.Init env zeroLintEnabled st.repoPath) st.repoPath
        st.diffs emptyAcc = (levs, Except.ok acc)) :
    (HandleMessage env message).err
      = (if acc.problems > 0 then
          env.UpdateState st.ref "lint" "error" st.targetURL
            ("The lint check failed! " ++ toString acc.problems ++ " problem(s) found.")
        else env.UpdateState st.ref "lint" "success" st.targetURL "The lint check succeed!") := by
  rw [HandleMessage_ready env message evs st hf, lintStage_eq, hl]
  simp only [report]
  split_ifs <;> rfl

theorem returned_error_is_that_of_the_final_update_witness :
    (HandleMessage failingStateEnv demoMessage).err
      = (if emptyAcc.problems > 0 then
          failingStateEnv.UpdateState demoRef "lint" "error" ""
            ("The lint check failed! " ++ toString emptyAcc.problems ++ " problem(s) found.")
        else failingStateEnv.UpdateState demoRef "lint" "success" ""
          "The lint check succeed!") :=
  returned_error_is_that_of_the_final_update failingStateEnv demoMessage
    [Event.updateState demoRef "lint" "pending" "" "checking"]
    [Event.lint Linter.GoLint "work/o/r/a.go" "work/o/r"]
    { ref := demoRef, pull := "7", targetURL := "", repoPath := "work/o/r",
      diffs := oneFileDiff }
    emptyAcc (by rfl) (by rfl)

/-! ## `LintEnabled.Init` -/

/-- The snapshot of `Init`, field by field. -/
theorem Init_eq (env : Env) (receiver : LintEnabled) (cwd : String)
    (hes : env.pathJoin cwd ".eslintrc" ≠ "") :
    LintEnabled.Init env receiver cwd
      = { CPP := env.statOk (env.pathJoin cwd "CPPLINT.cfg"),
          Go := env.statOk (env.pathJoin cwd ".golangci.yml"),
          PHP := true,
          TypeScript := env.statOk (env.pathJoin cwd "tslint.json"),
          SCSS := env.statOk (env.pathJoin cwd ".scss-lint.yml"),
          JS := if env.statOk (env.pathJoin cwd ".eslintrc.js") = true then
              env.pathJoin cwd ".eslintrc.js"
            else if env.statOk (env.pathJoin cwd ".eslintrc") = true then
              env.pathJoin cwd ".eslintrc"
            else "",
          ES := if env.statOk (env.pathJoin cwd ".eslintrc") = true then
              env.pathJoin cwd ".eslintrc"
            else if env.statOk (env.pathJoin cwd ".eslintrc.js") = true then
              env.pathJoin cwd ".eslintrc.js"
            else "",
          MD := env.statOk (env.pathJoin cwd ".remarkrc")
            || env.statOk (env.pathJoin cwd ".remarkrc.js"),
          APIDoc := env.statOk (env.pathJoin cwd "apidoc.json") } := by
  unfold LintEnabled.Init
  generalize env.statOk (env.pathJoin cwd ".golangci.yml") = b1
  generalize env.statOk (env.pathJoin cwd "CPPLINT.cfg") = b2
  generalize env.statOk (env.pathJoin cwd ".remarkrc") = b3
  generalize env.statOk (env.pathJoin cwd ".remarkrc.js") = b4
  generalize env.statOk (env.pathJoin cwd "tslint.json") = b5
  generalize env.statOk (env.pathJoin cwd ".scss-lint.yml") = b6
  generalize env.statOk (env.pathJoin cwd "apidoc.json") = b9
  cases b1 <;> cases b2 <;> cases b3 <;> cases b4 <;> cases b5 <;> cases b6 <;> cases b9 <;>
    (cases env.statOk (env.pathJoin cwd ".eslintrc") <;>
      cases env.statOk (env.pathJoin cwd ".eslintrc.js") <;> simp [hes])

/-- C20: the snapshot that `Init` yields does not depend on the receiver; each
flag is set exactly when its marker file is there, `PHP` is always set, `JS`
is the path of `.eslintrc.js` if it is there, else the path of `.eslintrc` if
that is there, else empty, and `ES` the same with the two files exchanged; so
`JS` is non-empty iff `ES` is non-empty iff one of the two files is there,
and each names a file that is there. -/
theorem Init_snapshot (env : Env) (receiver : LintEnabled) (cwd : String)
    (hjs : env.pathJoin cwd ".eslintrc.js" ≠ "") (hes : env.pathJoin cwd ".eslintrc" ≠ "") :
    LintEnabled.Init env receiver cwd = LintEnabled.Init env zeroLintEnabled cwd
      ∧ (LintEnabled.Init env receiver cwd).Go = env.statOk (env.pathJoin cwd ".golangci.yml")
      ∧ (LintEnabled.Init env receiver cwd).CPP = env.statOk (env.pathJoin cwd "CPPLINT.cfg")
      ∧ (LintEnabled.Init env receiver cwd).MD
          = (env.statOk (env.pathJoin cwd ".remarkrc")
              || env.statOk (env.pathJoin cwd ".remarkrc.js"))
      ∧ (LintEnabled.Init env receiver cwd).TypeScript
          = env.statOk (env.pathJoin cwd "tslint.json")
      ∧ (LintEnabled.Init env receiver cwd).SCSS
          = env.statOk (env.pathJoin cwd ".scss-lint.yml")
      ∧ (LintEnabled.Init env receiver cwd).APIDoc
          = env.statOk (env.pathJoin cwd "apidoc.json")
      ∧ (LintEnabled.Init env receiver cwd).PHP = true
      ∧ (LintEnabled.Init env receiver cwd).JS
          = (if env.statOk (env.pathJoin cwd ".eslintrc.js") = true then
              env.pathJoin cwd ".eslintrc.js"
            else if env.statOk (env.pathJoin cwd ".eslintrc") = true then
              env.pathJoin cwd ".eslintrc"
            else "")
      ∧ (LintEnabled.Init env receiver cwd).ES
          = (if env.statOk (env.pathJoin cwd ".eslintrc") = true then
              env.pathJoin cwd ".eslintrc"
            else if env.statOk (env.pathJoin cwd ".eslintrc.js") = true then
              env.pathJoin cwd ".eslintrc.js"
            else "")
      ∧ ((LintEnabled.Init env receiver cwd).JS ≠ ""
          ↔ (LintEnabled.Init env receiver cwd).ES ≠ "")
      ∧ ((LintEnabled.Init env receiver cwd).JS ≠ ""
          ↔ (env.statOk (env.pathJoin cwd ".eslintrc.js") = true
              ∨ env.statOk (env.pathJoin cwd ".eslintrc") = true))
      ∧ ((LintEnabled.Init env receiver cwd).JS ≠ "" →
          env.statOk (LintEnabled.Init env receiver cwd).JS = true)
      ∧ ((LintEnabled.Init env receiver cwd).ES ≠ "" →
          env.statOk (LintEnabled.Init env receiver cwd).ES = true) := by
  rw [Init_eq env receiver cwd hes, Init_eq env zeroLintEnabled cwd hes]
  refine ⟨rfl, rfl, rfl, rfl, rfl, rfl, rfl, rfl, rfl, rfl, ?_, ?_, ?_, ?_⟩
  · simp only
    split_ifs <;> simp_all
  · simp only
    split_ifs <;> simp_all
  · simp only
    split_ifs <;> simp_all
  · simp only
    split_ifs <;> simp_all

theorem Init_snapshot_witness :
    (LintEnabled.Init (demoEnv phpFileDiff goLintClean phpLintClean true)
        { zeroLintEnabled with CPP := true, JS := "stale" } "work/o/r").JS
      = "work/o/r/.eslintrc.js" :=
  (Init_snapshot (demoEnv phpFileDiff goLintClean phpLintClean true)
    { zeroLintEnabled with CPP := true, JS := "stale" } "work/o/r"
    (by decide) (by decide)).2.2.2.2.2.2.2.2.1.trans (by decide)

/-! ## The linter adapters -/

theorem firstMessages_snd (env : AdapterEnv) (r : ProcessResult) :
    (firstMessages env r).2.2 = errorOf (env.unmarshalLintResults r.stdout) := by
  unfold firstMessages errorOf
  cases env.unmarshalLintResults r.stdout with
  | error e => rfl
  | ok results =>
    simp only
    split <;> rfl

theorem tsLintMessages_snd (env : AdapterEnv) (r : ProcessResult) :
    (tsLintMessages env r).2.2 = errorOf (env.unmarshalTSLint r.stdout) := by
  unfold tsLintMessages errorOf
  cases env.unmarshalTSLint r.stdout with
  | error e => rfl
  | ok results =>
    simp only
    split <;> rfl

theorem scssLintMessages_snd (env : AdapterEnv) (r : ProcessResult) :
    (scssLintMessages env r).2.2 = errorOf (env.unmarshalSCSSLint r.stdout) := by
  unfold scssLintMessages errorOf
  cases env.unmarshalSCSSLint r.stdout with
  | error e => rfl
  | ok results =>
    cases results with
    | nil => rfl
    | cons first more => rfl

/-- C18 (counterexample): the process ended with the exit status 1 and printed
`[]`, which parses; `PHPLint` returns the exit error.  With the exit status 2
`CPPLint` returns the exit error too. -/
theorem exit_status_fails_PHPLint_and_CPPLint :
    processRan (exitOneEnv.run ["phplint", "-f", "json", "a.php"] "work")
      ∧ exitOneEnv.unmarshalLintResults
          (exitOneEnv.run ["phplint", "-f", "json", "a.php"] "work").stdout
        = Except.ok (some [])
      ∧ PHPLint exitOneEnv "a.php" "work"
        = (none, "", some { isExitError := true, text := "exit status 1" })
      ∧ processRan (exitTwoEnv.run ["cpplint", "--quiet", "a.cpp"] "work")
      ∧ CPPLint exitTwoEnv "a.cpp" "work"
        = (none, some { isExitError := true, text := "exit status 2" }) :=
  ⟨Or.inr ⟨_, rfl, rfl⟩, rfl, by decide, Or.inr ⟨_, rfl, rfl⟩, by decide⟩

/-- C18 (amended): `ESLint`, `TSLint` and `SCSSLint` follow the error rule with
every exit error tolerated: when the process ran and its output parses they
return the parsed findings and no error whatever the exit status, and they
return an error only when the template does not parse, the process returned
an error that is not an exit error, or the output does not parse.  `CPPLint`
follows it with only the error text `exit status 1` tolerated (its output
always parses), and `PHPLint` with no process error tolerated. -/
theorem adapters_follow_their_error_rule (env : AdapterEnv) (fileName cwd eslintrc : String) :
    FollowsErrorRule env env.confESLint cwd
        (fun words =>
          if eslintrc != "" then words ++ ["-c", eslintrc, "-f", "json", fileName]
          else words ++ ["-f", "json", fileName])
        (fun e => e.isExitError)
        (fun r => errorOf (env.unmarshalLintResults r.stdout))
        (fun r => (firstMessages env r).1)
        ((ESLint env fileName cwd eslintrc).1, (ESLint env fileName cwd eslintrc).2.2)
      ∧ FollowsErrorRule env env.confTSLint cwd
        (fun words => words ++ ["--format", "json", fileName])
        (fun e => e.isExitError)
        (fun r => errorOf (env.unmarshalTSLint r.stdout))
        (fun r => (tsLintMessages env r).1)
        ((TSLint env fileName cwd).1, (TSLint env fileName cwd).2.2)
      ∧ FollowsErrorRule env env.confSCSSLint cwd
        (fun words => words ++ ["--format=JSON", fileName])
        (fun e => e.isExitError)
        (fun r => errorOf (env.unmarshalSCSSLint r.stdout))
        (fun r => (scssLintMessages env r).1)
        ((SCSSLint env fileName cwd).1, (SCSSLint env fileName cwd).2.2)
      ∧ FollowsErrorRule env env.confCPPLint cwd
        (fun words => words ++ ["--quiet", fileName])
        (fun e => e.text == "exit status 1")
        (fun _ => none)
        (fun r => cppLintLoop env (stringsSplit r.stderr '\n') none)
        (CPPLint env fileName cwd)
      ∧ FollowsErrorRule env env.confPHPLint cwd
        (fun words => words ++ ["-f", "json", fileName])
        (fun _ => false)
        (fun r => errorOf (env.unmarshalLintResults r.stdout))
        (fun r => (firstMessages env r).1)
        ((PHPLint env fileName cwd).1, (PHPLint env fileName cwd).2.2) := by
  refine ⟨?_, ?_, ?_, ?_, ?_⟩
  · unfold FollowsErrorRule ESLint
    cases hp : env.parse cwd env.confESLint with
    | error e0 => simp
    | ok words =>
      simp only [Except.ok.injEq, forall_eq', false_or, exists_eq_left']
      cases hr : (env.run (if (eslintrc != "") = true then
          words ++ ["-c", eslintrc, "-f", "json", fileName]
          else words ++ ["-f", "json", fileName]) cwd).err with
      | none => simp [hr, firstMessages_snd]
      | some e1 =>
        cases hx : e1.isExitError
        · simp [hr, hx, firstMessages_snd]
        · simp [hr, hx, firstMessages_snd]
          exact fun e he => Or.inr he
  · unfold FollowsErrorRule TSLint
    cases hp : env.parse cwd env.confTSLint with
    | error e0 => simp
    | ok words =>
      simp only [Except.ok.injEq, forall_eq', false_or, exists_eq_left']
      cases hr : (env.run (words ++ ["--format", "json", fileName]) cwd).err with
      | none => simp [hr, tsLintMessages_snd]
      | some e1 =>
        cases hx : e1.isExitError
        · simp [hr, hx, tsLintMessages_snd]
        · simp [hr, hx, tsLintMessages_snd]
          exact fun e he => Or.inr he
  · unfold FollowsErrorRule SCSSLint
    cases hp : env.parse cwd env.confSCSSLint with
    | error e0 => simp
    | ok words =>
      simp only [Except.ok.injEq, forall_eq', false_or, exists_eq_left']
      cases hr : (env.run (words ++ ["--format=JSON", fileName]) cwd).err with
      | none => simp [hr, scssLintMessages_snd]
      | some e1 =>
        cases hx : e1.isExitError
        · simp [hr, hx, scssLintMessages_snd]
        · simp [hr, hx, scssLintMessages_snd]
          exact fun e he => Or.inr he
  · unfold FollowsErrorRule CPPLint
    cases hp : env.parse cwd env.confCPPLint with
    | error e0 => simp
    | ok words =>
      simp only [Except.ok.injEq, forall_eq', false_or, exists_eq_left']
      cases hr : (env.run (words ++ ["--quiet", fileName]) cwd).err with
      | none => simp [hr]
      | some e1 =>
        by_cases hx : e1.text = "exit status 1" <;> simp [hr, hx]
  · unfold FollowsErrorRule PHPLint
    cases hp : env.parse cwd env.confPHPLint with
    | error e0 => simp
    | ok words =>
      simp only [Except.ok.injEq, forall_eq', false_or, exists_eq_left']
      cases hr : (env.run (words ++ ["-f", "json", fileName]) cwd).err with
      | none => simp [hr, firstMessages_snd]
      | some e1 => simp [hr]

theorem adapters_follow_their_error_rule_witness :
    ((ESLint exitOneEnv "a.js" "work" "").1, (ESLint exitOneEnv "a.js" "work" "").2.2)
      = ((firstMessages exitOneEnv (exitOneEnv.run (["eslint"] ++ ["-f", "json", "a.js"])
          "work")).1, none) :=
  (adapters_follow_their_error_rule exitOneEnv "a.js" "work" "").1.1 ["eslint"] rfl
    (Or.inr ⟨_, rfl, rfl⟩) rfl

/-! ## The normalisation of `TSLint` -/

theorem severityLevel_eq (env : AdapterEnv) (severity : String) :
    severityLevel env severity
      = (if env.toLower severity = "off" then 0
        else if env.toLower severity = "warning" then 1
        else if env.toLower severity = "error" then 2
        else 0) := by
  unfold severityLevel LintSeverity severityLevelOff severityLevelWarning severityLevelError
  split_ifs <;> simp_all

/-- Go `x + 1` on a 64-bit `int` is the successor, except at the largest
`int`, where it is the smallest one. -/
theorem plus_one_eq_oneBased (x : GoInt) : x.plus 1 = oneBased x := by
  have h1 := x.lo
  have h2 := x.hi
  unfold GoInt.plus wrapInt64 oneBased
  split_ifs <;> omega

/-- The loop of `TSLint` fills the indices from `pre.length` on with the
findings of the records, in order. -/
theorem tsLintFill_append (env : AdapterEnv) :
    ∀ (rs : List TSLintResult) (pre post : List LintMessage), post.length = rs.length →
      tsLintFill env rs pre.length (pre ++ post) = pre ++ rs.map (tsLintFinding env) := by
  intro rs
  induction rs with
  | nil =>
    intro pre post h
    have hpost : post = [] := List.length_eq_zero.mp h
    subst hpost
    simp [tsLintFill]
  | cons r rs ih =>
    intro pre post h
    cases post with
    | nil => simp at h
    | cons p post =>
      have hlen : post.length = rs.length := by simpa using h
      have hset : (pre ++ p :: post).set pre.length
          { RuleID := r.RuleName, Severity := severityLevel env r.RuleSeverity,
            Line := r.StartPosition.Line.plus 1, Column := r.StartPosition.Character.plus 1,
            Message := r.Failure, SourceCode := "" }
          = (pre ++ [tsLintFinding env r]) ++ post := by
        rw [List.set_append_right _ _ (le_refl _)]
        simp [tsLintFinding, severityLevel_eq, plus_one_eq_oneBased]
      have hidx : pre.length + 1 = (pre ++ [tsLintFinding env r]).length := by simp
      rw [tsLintFill, hset, hidx, ih _ _ hlen]
      simp

/-- C19 (counterexample): a record whose start line is the largest Go `int`
becomes a finding whose line is the smallest `int`, not the start line plus
1. -/
theorem tsLint_line_wraps_at_the_largest_int :
    (TSLint lastLineEnv "a.ts" "work").1
        = some [{ RuleID := "eofline", Severity := 2, Line := -9223372036854775808,
                  Column := 1, Message := "file should end with a newline",
                  SourceCode := "" }]
      ∧ (lastLineResults.map (fun r => r.StartPosition.Line.val + 1))
        = [9223372036854775808] := by
  refine ⟨by decide, by decide⟩

/-- C19 (amended): when the template parses, the process ran and its output
parses to a list of records, `TSLint` returns no error and one finding per
record, in the order of the records: the finding of a record has its rule name
as rule, its failure as message, as line and column its start line and start
character plus 1 in 64-bit Go `int` arithmetic (the number plus 1 below
9223372036854775807, and -9223372036854775808 at 9223372036854775807), and
the severity 0, 1 or 2 when its severity in lower case is `off`, `warning` or
`error`, and 0 for every other severity. -/
theorem tsLint_normalisation (env : AdapterEnv) (fileName cwd : String) (words : List String)
    (results : Option (List TSLintResult))
    (hp : env.parse cwd env.confTSLint = Except.ok words)
    (hrun : processRan (env.run (words ++ ["--format", "json", fileName]) cwd))
    (hout : env.unmarshalTSLint (env.run (words ++ ["--format", "json", fileName]) cwd).stdout
      = Except.ok results) :
    TSLint env fileName cwd
        = (some ((results.getD []).map (tsLintFinding env)),
           (env.run (words ++ ["--format", "json", fileName]) cwd).stderr, none)
      ∧ ((results.getD []).map (tsLintFinding env)).length = (results.getD []).length
      ∧ ∀ (i : Nat) (r : TSLintResult), (results.getD []).get? i = some r →
          ((results.getD []).map (tsLintFinding env)).get? i
            = some { RuleID := r.RuleName,
                     Severity :=
                       if env.toLower r.RuleSeverity = "off" then 0
                       else if env.toLower r.RuleSeverity = "warning" then 1
                       else if env.toLower r.RuleSeverity = "error" then 2
                       else 0,
                     Line :=
                       if r.StartPosition.Line.val = 9223372036854775807 then
                         -9223372036854775808
                       else r.StartPosition.Line.val + 1,
                     Column :=
                       if r.StartPosition.Character.val = 9223372036854775807 then
                         -9223372036854775808
                       else r.StartPosition.Character.val + 1,
                     Message := r.Failure, SourceCode := "" } := by
  have hmsgs : tsLintMessages env (env.run (words ++ ["--format", "json", fileName]) cwd)
      = (some ((results.getD []).map (tsLintFinding env)),
         (env.run (words ++ ["--format", "json", fileName]) cwd).stderr, none) := by
    unfold tsLintMessages
    rw [hout]
    simp only
    cases hres : results.getD [] with
    | nil => rfl
    | cons first more =>
      have hfill := tsLintFill_append env (first :: more) []
        (List.replicate (first :: more).length zeroLintMessage) (by simp)
      simp only [List.length_nil, List.nil_append] at hfill
      simp only [hfill]
  refine ⟨?_, by simp, ?_⟩
  · unfold TSLint
    rw [hp]
    rcases hrun with hnone | ⟨e, he, hexit⟩
    · simp only [hnone, hmsgs]
    · simp only [he, hexit, hmsgs]
      rfl
  · intro i r hi
    simp only [List.get?_eq_getElem?, List.getElem?_map] at hi ⊢
    rw [hi]
    rfl

theorem tsLint_normalisation_witness :
    TSLint tsLintEnv "a.ts" "work"
      = (some ((Option.getD (some demoTSLintResults) []).map (tsLintFinding tsLintEnv)),
         (tsLintEnv.run (["tslint"] ++ ["--format", "json", "a.ts"]) "work").stderr, none) :=
  (tsLint_normalisation tsLintEnv "a.ts" "work" ["tslint"] (some demoTSLintResults) rfl
    (Or.inr ⟨_, rfl, rfl⟩) rfl).1

/-- The example records: `ERROR` becomes the severity 2, the unknown severity
`fatal` becomes 0, and lines and columns are moved from 0-based to 1-based. -/
theorem tsLint_example :
    (TSLint tsLintEnv "a.ts" "work").1
      = some [{ RuleID := "semicolon", Severity := 2, Line := 10, Column := 5,
                Message := "Missing semicolon", SourceCode := "" },
              { RuleID := "quotemark", Severity := 0, Line := 1, Column := 1,
                Message := "Use single quotes", SourceCode := "" }] := by
  decide

/-! ## The order of the aggregation -/

theorem hasPrefix_b_slash (s : String) (h : hasPrefix s "b/" = true) :
    s = "b/" ++ sliceFrom s 2 := by
  unfold hasPrefix at h
  obtain ⟨t, ht⟩ := of_decide_eq_true h
  apply String.ext
  simp only [String.data_append, sliceFrom]
  rw [← ht]
  rfl

theorem findingComments_eq_pairComment (fileName : String) (hunk : Hunk) (lint : LintMessage)
    (hn : hunk.NewLines.toInt > 0) :
    findingComments fileName hunk (bodyLines hunk) lint
      = (pairComment fileName hunk lint).toList := by
  unfold findingComments findingStep pairComment mappedIndex
  rw [if_pos hn]
  cases attempt hunk (bodyLines hunk) lint with
  | none => rfl
  | some i =>
    simp only [List.get?_eq_getElem?]
    cases h : (bodyLines hunk)[i]? with
    | none => rfl
    | some l => by_cases hp : startsWith l '+' = true <;> simp [hp, commentBody]

theorem pairComment_of_no_new_lines (fileName : String) (hunk : Hunk) (lint : LintMessage)
    (hn : ¬ hunk.NewLines.toInt > 0) : pairComment fileName hunk lint = none := by
  unfold pairComment mappedIndex
  rw [if_neg hn]
  rfl

theorem hunkComments_eq (fileName : String) (lints : List LintMessage) (hunk : Hunk) :
    hunkComments fileName lints hunk
      = lints.flatMap (fun lint => (pairComment fileName hunk lint).toList) := by
  unfold hunkComments
  by_cases hn : hunk.NewLines.toInt > 0
  · rw [if_pos hn]
    congr 1
    funext lint
    exact findingComments_eq_pairComment fileName hunk lint hn
  · rw [if_neg hn]
    induction lints with
    | nil => rfl
    | cons lint rest ih =>
      rw [List.flatMap_cons, pairComment_of_no_new_lines fileName hunk lint hn, ← ih]
      rfl

theorem fileComments_eq (fileName : String) (hunks : List Hunk)
    (lints : Option (List LintMessage)) :
    fileComments fileName hunks lints = changedFileComments fileName hunks (lints.getD []) := by
  unfold fileComments changedFileComments
  cases lints with
  | none => simp
  | some ls =>
    simp only [Option.getD_some]
    congr 1
    funext hunk
    exact hunkComments_eq fileName ls hunk

/-- The loop over the changed files, when no linting fails: the calls are
those of the changed files in diff order, and the accumulators grow by the
aggregation of the diff. -/
theorem lintLoop_aggregate (env : Env) (le : LintEnabled) (repoPath : String) :
    ∀ (diffs : List FileDiff) (acc : Acc),
      (∀ d ∈ diffs, isChanged d = true → lintSucceeds env le repoPath d = true) →
      lintLoop env le repoPath diffs acc
        = (lintCalls env le repoPath diffs,
           Except.ok { comments := acc.comments ++ aggregate env le repoPath diffs,
                       problems := acc.problems + (aggregate env le repoPath diffs).length }) := by
  intro diffs
  induction diffs with
  | nil =>
    intro acc _
    simp [lintLoop, lintCalls, aggregate]
  | cons d ds ih =>
    intro acc hok
    have hrest : ∀ d' ∈ ds, isChanged d' = true → lintSucceeds env le repoPath d' = true :=
      fun d' hd' => hok d' (List.mem_cons_of_mem _ hd')
    rw [lintLoop]
    by_cases hpre : hasPrefix d.NewName "b/" = true
    · rw [if_pos hpre]
      have hd := hok d (List.mem_cons_self _ _) hpre
      have hch : isChanged d = true := hpre
      rcases hlf : lintFile env le repoPath (sliceFrom d.NewName 2) with ⟨evs, e | lints⟩
      · simp [lintSucceeds, hlf] at hd
      · have hfind : findingsOf env le repoPath d = lints.getD [] := by
          unfold findingsOf
          rw [hlf]
          cases lints <;> rfl
        simp only [hlf]
        rw [ih _ hrest, fileStep_eq, fileComments_eq]
        simp [lintCalls, aggregate, List.filter_cons, hch, hlf, hfind, Nat.add_assoc]
    · rw [if_neg hpre]
      have hch : isChanged d = false := by
        unfold isChanged
        simpa using hpre
      rw [ih _ hrest]
      simp [lintCalls, aggregate, List.filter_cons, hch]

theorem mem_aggregate (env : Env) (le : LintEnabled) (repoPath : String)
    (diffs : List FileDiff) (c : GithubRefComment) (h : c ∈ aggregate env le repoPath diffs) :
    ∃ d ∈ diffs, ∃ hunk ∈ d.Hunks, ∃ lint ∈ findingsOf env le repoPath d,
      d.NewName = "b/" ++ c.Path
        ∧ c.Body = "`" ++ lint.RuleID ++ "` " ++ toString lint.Line ++ ":"
            ++ toString lint.Column ++ " " ++ lint.Message := by
  simp only [aggregate, changedFileComments, List.mem_flatMap, List.mem_filter,
    Option.mem_toList, Option.mem_def] at h
  obtain ⟨d, ⟨hd, hch⟩, hunk, hhunk, lint, hlint, hc⟩ := h
  refine ⟨d, hd, hunk, hhunk, lint, hlint, ?_⟩
  unfold pairComment at hc
  cases hm : mappedIndex hunk lint with
  | none => rw [hm] at hc; exact Option.noConfusion hc
  | some i =>
    rw [hm] at hc
    have hc2 := Option.some.inj hc
    subst hc2
    exact ⟨hasPrefix_b_slash d.NewName hch, rfl⟩

/-- C21: when the diff is parsed and no linting of a changed file fails, the
accumulators of `HandleMessage` end as the aggregation of the diff: the
concatenation, over the files whose new name has the prefix `b/` in diff
order, then over the hunks of the file in hunk order, then over the findings
of the file in the order of the linter output, of the comment of each
mappable pair, and the problem count is the length of this list; when the
list is not empty it is the comment list of the one review submitted, and
when it is empty the state `success` is reported; every comment of the list
has the body `<rule>` (in backquotes) followed by ` <line>:<column> <message>`
of a finding of its file, and its path is the new name of the file without
the prefix `b/`. -/
theorem comments_are_aggregated_in_diff_order (env : Env) (message : String)
    (evs : List Event) (st : Stage) (le : LintEnabled) (cs : List GithubRefComment)
    (hf : fetchStage env message = Fetched.ready evs st)
    (hle : le = LintEnabled.Init env zeroLintEnabled st.repoPath)
    (hok : ∀ d ∈ st.diffs, isChanged d = true → lintSucceeds env le st.repoPath d = true)
    (hcs : cs = aggregate env le st.repoPath st.diffs) :
    lintLoop env le st.repoPath st.diffs emptyAcc
        = (lintCalls env le st.repoPath st.diffs,
           Except.ok { comments := cs, problems := cs.length })
      ∧ (cs ≠ [] →
          (HandleMessage env message).events
            = evs ++ lintCalls env le st.repoPath st.diffs
              ++ [Event.createReview st.ref st.pull "REQUEST_CHANGES"
                    ("**lint**: " ++ toString cs.length ++ " problem(s) found.") cs,
                  Event.updateState st.ref "lint" "error" st.targetURL
                    ("The lint check failed! " ++ toString cs.length
                      ++ " problem(s) found.")])
      ∧ (cs = [] →
          (HandleMessage env message).events
            = evs ++ lintCalls env le st.repoPath st.diffs
              ++ [Event.updateState st.ref "lint" "success" st.targetURL
                    "The lint check succeed!"])
      ∧ ∀ c ∈ cs, ∃ d ∈ st.diffs, ∃ hunk ∈ d.Hunks, ∃ lint ∈ findingsOf env le st.repoPath d,
          d.NewName = "b/" ++ c.Path
            ∧ c.Body = "`" ++ lint.RuleID ++ "` " ++ toString lint.Line ++ ":"
                ++ toString lint.Column ++ " " ++ lint.Message := by
  have hloop := lintLoop_aggregate env le st.repoPath st.diffs emptyAcc hok
  simp only [emptyAcc, List.nil_append, Nat.zero_add, ← hcs] at hloop
  have hloop' : lintLoop env le st.repoPath st.diffs emptyAcc
      = (lintCalls env le st.repoPath st.diffs,
         Except.ok { comments := cs, problems := cs.length }) := hloop
  have hevents : (HandleMessage env message).events
      = evs ++ lintCalls env le st.repoPath st.diffs
        ++ (report env st.ref st.pull st.targetURL
              { comments := cs, problems := cs.length }).events := by
    rw [HandleMessage_ready env message evs st hf, lintStage_eq, ← hle, hloop']
    simp
  refine ⟨hloop', ?_, ?_, ?_⟩
  · intro hne
    have hpos : cs.length > 0 := List.length_pos.mpr hne
    rw [hevents, report_events, if_pos hpos]
  · intro hnil
    have hzero : ¬ cs.length > 0 := by simp [hnil]
    rw [hevents, report_events, if_neg hzero]
  · intro c hc
    rw [hcs] at hc
    exact mem_aggregate env le st.repoPath st.diffs c hc

theorem comments_are_aggregated_in_diff_order_witness :
    lintLoop (demoEnv orderedDiff goLintFindsThree phpLintClean false)
        (LintEnabled.Init (demoEnv orderedDiff goLintFindsThree phpLintClean false)
          zeroLintEnabled "work/o/r")
        "work/o/r" orderedDiff emptyAcc
      = (lintCalls (demoEnv orderedDiff goLintFindsThree phpLintClean false)
          (LintEnabled.Init (demoEnv orderedDiff goLintFindsThree phpLintClean false)
            zeroLintEnabled "work/o/r")
          "work/o/r" orderedDiff,
         Except.ok
          { comments := aggregate (demoEnv orderedDiff goLintFindsThree phpLintClean false)
              (LintEnabled.Init (demoEnv orderedDiff goLintFindsThree phpLintClean false)
                zeroLintEnabled "work/o/r")
              "work/o/r" orderedDiff,
            problems := (aggregate (demoEnv orderedDiff goLintFindsThree phpLintClean false)
              (LintEnabled.Init (demoEnv orderedDiff goLintFindsThree phpLintClean false)
                zeroLintEnabled "work/o/r")
              "work/o/r" orderedDiff).length }) :=
  (comments_are_aggregated_in_diff_order (demoEnv orderedDiff goLintFindsThree phpLintClean false)
    demoMessage [Event.updateState demoRef "lint" "pending" "" "checking"] orderedStage
    _ _ rfl rfl (by decide) rfl).1

/-- The example diff: the comments of `a.go` come first, those of its first
hunk before those of its second hunk, and inside a hunk the findings keep the
order of the linter output (line 21 before line 20); the entry `/dev/null`
contributes nothing. -/
theorem aggregation_example :
    (HandleMessage (demoEnv orderedDiff goLintFindsThree phpLintClean false) demoMessage).events
      = [Event.updateState demoRef "lint" "pending" "" "checking",
         Event.lint Linter.GoLint "work/o/r/a.go" "work/o/r",
         Event.lint Linter.GoLint "work/o/r/z.go" "work/o/r",
         Event.createReview demoRef "7" "REQUEST_CHANGES" "**lint**: 5 problem(s) found."
           [{ Path := "a.go", Position := 7, Body := "`golint` 10:3 unused" },
            { Path := "a.go", Position := 13, Body := "`errcheck` 21:2 unchecked" },
            { Path := "a.go", Position := 12, Body := "`vet` 20:1 shadow" },
            { Path := "z.go", Position := 13, Body := "`errcheck` 21:2 unchecked" },
            { Path := "z.go", Position := 12, Body := "`vet` 20:1 shadow" }],
         Event.updateState demoRef "lint" "error" ""
           "The lint check failed! 5 problem(s) found."] := by
  decide

end Checker
